import Mathlib

/-!
Shallow embedding of `DB::SnapshotableHashTable<V>`
(src/Coordination/SnapshotableHashTable.h).

* `std::list<ListNode<V>>` is a list of nodes, each paired with the identity of
  its list cell (`Iter`): a `std::list` iterator stays valid and keeps denoting
  the same cell while other cells are inserted or erased.
* `std::unordered_map<StringRef, List::iterator>` is an association list from
  key to `Iter`; `emplace` does nothing when the key is already there and
  `size()` is the number of entries.
* `UInt64` arithmetic is arithmetic on `Nat` modulo `2^64`.
* `sizeOf<V>` is the parameter `sz`, one of its two overloads; `sizeOf<std::string>`
  is the byte length.
* `sizeOf<V>(&itr->value)` after `list.erase(itr)` is `sizeOfErased`: `sizeof(V)` for
  the overload that does not read the object, and an unconstrained number for the
  overload that calls `size()` on the destroyed node.
* `assert(it != map.end())` failing, and dereferencing an iterator that
  denotes no cell of the list, are the two faults of `Fault`.
-/

namespace DB

/-- The node of the list, `struct ListNode<V>`. -/
structure ListNode (V : Type) where
  key : String
  value : V
  active_in_map : Bool
deriving DecidableEq

/-- Identity of a list cell, what a `List::iterator` denotes. -/
abbrev Iter := Nat

/-- The list `std::list<ListElem>`: cells in order, each with its identity. -/
abbrev NodeList (V : Type) := List (Iter × ListNode V)

/-- The index `std::unordered_map<StringRef, List::iterator>`. -/
abbrev IndexMap := List (String × Iter)

/-- The class `SnapshotableHashTable<V>`: its four data members. -/
structure SnapshotableHashTable (V : Type) where
  list : NodeList V
  map : IndexMap
  snapshot_mode : Bool
  approximate_data_size : Nat
deriving DecidableEq

/-- The enumeration `OperationType`. -/
inductive OperationType where
  | INSERT
  | INSERT_OR_REPLACE
  | ERASE
  | UPDATE_VALUE
  | GET_VALUE
  | FIND
  | CONTAINS
  | CLEAR
  | CLEAR_OUTDATED_NODES
deriving DecidableEq

/-- The two ways an operation can fail to return: the `assert` on a missing
key, and the use of an iterator that denotes no cell of the list. -/
inductive Fault where
  | assertion_failed
  | invalid_iterator
deriving DecidableEq

/-- Number of values of `UInt64`. -/
def UInt64_size : Nat := 18446744073709551616

/-- The operator `+=` on `UInt64`. -/
def add64 (a b : Nat) : Nat := (a + b) % UInt64_size

/-- The operator `-=` on `UInt64`. -/
def sub64 (a b : Nat) : Nat := (a % UInt64_size + UInt64_size - b % UInt64_size) % UInt64_size

/-- The overload `sizeOf<std::string>`: `obj->size()`, as a `UInt64`. -/
def sizeOfString (s : String) : Nat := s.utf8ByteSize % UInt64_size

/-- How `sizeOf<V>` evaluates, by the overload that `HasSizeMethod<V>` selects.
`sizeofT n`: `V` has no `size()`; the overload returns `sizeof(V)`, which is `n`,
and never reads the object it is given.
`sizeMethod size erased`: `V` has `size()`; the overload returns `obj->size()`,
which is `size v` on a live object holding `v`, and `erased node` when `obj`
points into a node that `list.erase` has destroyed. Nothing is assumed of `erased`. -/
inductive ValueSize (V : Type) where
  | sizeofT (n : Nat)
  | sizeMethod (size : V → Nat) (erased : ListNode V → Nat)

/-- Whether the overload of `sizeOf<V>` reads the object: `HasSizeMethod<V>::value`. -/
def ValueSize.readsObject {V : Type} : ValueSize V → Bool
  | .sizeofT _ => false
  | .sizeMethod _ _ => true

/-- The call `sizeOf<V>(obj)` on a live object holding `v`, as a `UInt64`. -/
def sizeOfV {V : Type} (sz : ValueSize V) (v : V) : Nat :=
  match sz with
  | .sizeofT n => n % UInt64_size
  | .sizeMethod size _ => size v % UInt64_size

/-- The call `sizeOf<V>(&itr->value)` when `itr` denotes a node that
`list.erase(itr)` has destroyed, as a `UInt64`. -/
def sizeOfErased {V : Type} (sz : ValueSize V) (node : ListNode V) : Nat :=
  match sz with
  | .sizeofT n => n % UInt64_size
  | .sizeMethod _ erased => erased node % UInt64_size

/-- Identity of the cell made by `list.insert(list.end(), elem)`: one that no
cell of the list has. -/
def freshIter {V : Type} (l : NodeList V) : Iter := (l.map Prod.fst).foldr max 0 + 1

/-- Dereference of a list iterator, `*itr`. -/
def deref {V : Type} (l : NodeList V) (it : Iter) : Option (ListNode V) := l.lookup it

/-- The assignment `itr->active_in_map = b`. -/
def setActive {V : Type} (l : NodeList V) (it : Iter) (b : Bool) : NodeList V :=
  l.map (fun p => if p.1 = it then (p.1, { p.2 with active_in_map := b }) else p)

/-- The assignment `itr->value = v`. -/
def setValue {V : Type} (l : NodeList V) (it : Iter) (v : V) : NodeList V :=
  l.map (fun p => if p.1 = it then (p.1, { p.2 with value := v }) else p)

/-- The call `list.erase(itr)`. -/
def listErase {V : Type} (l : NodeList V) (it : Iter) : NodeList V :=
  l.filter (fun p => p.1 != it)

/-- The call `list.insert(list.end(), elem)`: the new list and the iterator returned. -/
def listInsertEnd {V : Type} (l : NodeList V) (elem : ListNode V) : NodeList V × Iter :=
  (l ++ [(freshIter l, elem)], freshIter l)

/-- The call `map.find(key)`; `none` is `map.end()`. -/
def mapFind (m : IndexMap) (key : String) : Option Iter := m.lookup key

/-- The call `map.emplace(key, itr)`: no effect when the key is already there. -/
def mapEmplace (m : IndexMap) (key : String) (itr : Iter) : IndexMap :=
  match m.lookup key with
  | some _ => m
  | none => m ++ [(key, itr)]

/-- The call `map.erase(it)` for the entry `it` of `key`. -/
def mapErase (m : IndexMap) (key : String) : IndexMap :=
  m.filter (fun e => e.1 != key)

/-- The node an index lookup of `key` arrives at: `map.find(key)->second` dereferenced. -/
def nodeOf {V : Type} (l : NodeList V) (m : IndexMap) (key : String) : Option (ListNode V) :=
  match mapFind m key with
  | none => none
  | some it => deref l it

/-- The representation invariant that ties the index to the list. -/
structure Inv {V : Type} (l : NodeList V) (m : IndexMap) : Prop where
  iters_nodup : (l.map Prod.fst).Nodup
  keys_nodup : (m.map Prod.fst).Nodup
  index_sound : ∀ k it, (k, it) ∈ m → ∃ n, (it, n) ∈ l ∧ n.key = k ∧ n.active_in_map = true
  active_indexed : ∀ it n, (it, n) ∈ l → n.active_in_map = true → (n.key, it) ∈ m

namespace SnapshotableHashTable

variable {V : Type}

/-- A freshly constructed table. -/
def empty : SnapshotableHashTable V :=
  { list := [], map := [], snapshot_mode := false, approximate_data_size := 0 }

/-- The method `updateDataSize`. -/
def updateDataSize (t : SnapshotableHashTable V) (op_type : OperationType)
    (key_size value_size old_value_size : Nat) : SnapshotableHashTable V :=
  match op_type with
  | .INSERT =>
    { t with approximate_data_size := add64 (add64 t.approximate_data_size key_size) value_size }
  | .INSERT_OR_REPLACE =>
    if old_value_size ≠ 0 then
      let a := add64 (add64 t.approximate_data_size key_size) value_size
      if !t.snapshot_mode then
        { t with approximate_data_size := sub64 (add64 a key_size) old_value_size }
      else
        { t with approximate_data_size := a }
    else
      { t with approximate_data_size := add64 (add64 t.approximate_data_size key_size) value_size }
  | .UPDATE_VALUE =>
    let a := add64 (add64 t.approximate_data_size key_size) value_size
    if !t.snapshot_mode then
      { t with approximate_data_size := sub64 (sub64 a key_size) old_value_size }
    else
      { t with approximate_data_size := a }
  | .ERASE =>
    if !t.snapshot_mode then
      { t with approximate_data_size :=
          sub64 (sub64 t.approximate_data_size key_size) old_value_size }
    else
      t
  | .CLEAR => { t with approximate_data_size := 0 }
  | .CLEAR_OUTDATED_NODES =>
    { t with approximate_data_size := sub64 (sub64 t.approximate_data_size key_size) value_size }
  | _ => t

/-- The method `insert`. -/
def insert (sz : ValueSize V) (t : SnapshotableHashTable V) (key : String) (value : V) :
    SnapshotableHashTable V × Bool :=
  match mapFind t.map key with
  | none =>
    let elem : ListNode V := { key := key, value := value, active_in_map := true }
    let r := listInsertEnd t.list elem
    let t1 := { t with list := r.1, map := mapEmplace t.map key r.2 }
    (t1.updateDataSize .INSERT (sizeOfString key) (sizeOfV sz value) 0, true)
  | some _ => (t, false)

/-- The method `insertOrReplace`. -/
def insertOrReplace (sz : ValueSize V) (t : SnapshotableHashTable V) (key : String) (value : V) :
    Except Fault (SnapshotableHashTable V) :=
  match mapFind t.map key with
  | none =>
    let old_value_size := 0
    let elem : ListNode V := { key := key, value := value, active_in_map := true }
    let r := listInsertEnd t.list elem
    let t1 := { t with list := r.1, map := mapEmplace t.map key r.2 }
    .ok (t1.updateDataSize .INSERT_OR_REPLACE (sizeOfString key) (sizeOfV sz value) old_value_size)
  | some list_itr =>
    match deref t.list list_itr with
    | none => .error .invalid_iterator
    | some node =>
      let old_value_size := sizeOfV sz node.value
      if t.snapshot_mode then
        let elem : ListNode V := { key := key, value := value, active_in_map := true }
        let l1 := setActive t.list list_itr false
        let r := listInsertEnd l1 elem
        let t1 := { t with list := r.1, map := mapEmplace (mapErase t.map key) key r.2 }
        .ok (t1.updateDataSize .INSERT_OR_REPLACE (sizeOfString key) (sizeOfV sz value)
          old_value_size)
      else
        let t1 := { t with list := setValue t.list list_itr value }
        .ok (t1.updateDataSize .INSERT_OR_REPLACE (sizeOfString key) (sizeOfV sz value)
          old_value_size)

/-- The call `sizeOf<V>(&itr->value)` for the iterator `itr` that denoted the
node `was` when it was taken, evaluated on the list `l` as it is now: the size of
the live value if `itr` still denotes a cell, and otherwise what the overload
yields through the destroyed node. -/
def sizeOfThrough (sz : ValueSize V) (l : NodeList V) (itr : Iter) (was : ListNode V) : Nat :=
  match deref l itr with
  | some node => sizeOfV sz node.value
  | none => sizeOfErased sz was

/-- The method `erase`. As in the source, `sizeOf<V>(&list_itr->value)` is
evaluated for `updateDataSize` after the branch: in snapshot mode on the node
that is still in the list, in normal mode after `list.erase(list_itr)`. -/
def erase (sz : ValueSize V) (t : SnapshotableHashTable V) (key : String) :
    Except Fault (SnapshotableHashTable V × Bool) :=
  match mapFind t.map key with
  | none => .ok (t, false)
  | some list_itr =>
    match deref t.list list_itr with
    | none => .error .invalid_iterator
    | some node =>
      let t1 :=
        if t.snapshot_mode then
          { t with list := setActive t.list list_itr false, map := mapErase t.map key }
        else
          { t with map := mapErase t.map key, list := listErase t.list list_itr }
      .ok (t1.updateDataSize .ERASE (sizeOfString key) 0
        (sizeOfThrough sz t1.list list_itr node), true)

/-- The method `contains`. -/
def contains (t : SnapshotableHashTable V) (key : String) : Bool :=
  (mapFind t.map key).isSome

/-- The method `updateValue`; the updater `void(V &)` is a function on values.
Returns the table and the iterator `ret`. -/
def updateValue (sz : ValueSize V) (t : SnapshotableHashTable V) (key : String) (updater : V → V) :
    Except Fault (SnapshotableHashTable V × Iter) :=
  match mapFind t.map key with
  | none => .error .assertion_failed
  | some list_itr =>
    match deref t.list list_itr with
    | none => .error .invalid_iterator
    | some node =>
      let old_value_size := sizeOfV sz node.value
      if t.snapshot_mode then
        let elem_copy : ListNode V := { node with value := updater node.value }
        let l1 := setActive t.list list_itr false
        let r := listInsertEnd l1 elem_copy
        let t1 := { t with list := r.1, map := mapEmplace (mapErase t.map key) elem_copy.key r.2 }
        .ok (t1.updateDataSize .UPDATE_VALUE (sizeOfString key) (sizeOfV sz elem_copy.value)
          old_value_size, r.2)
      else
        let new_value := updater node.value
        let t1 := { t with list := setValue t.list list_itr new_value }
        .ok (t1.updateDataSize .UPDATE_VALUE (sizeOfString key) (sizeOfV sz new_value)
          old_value_size, list_itr)

/-- The method `find`; `none` is `list.end()`. -/
def find (t : SnapshotableHashTable V) (key : String) : Option Iter :=
  mapFind t.map key

/-- The method `getValue`. -/
def getValue (t : SnapshotableHashTable V) (key : String) : Except Fault V :=
  match mapFind t.map key with
  | none => .error .assertion_failed
  | some it =>
    match deref t.list it with
    | none => .error .invalid_iterator
    | some node => .ok node.value

/-- The loop of `clearOutdatedNodes` from the cell `itr` on: the cells kept and the counter. -/
def clearOutdatedNodesLoop (sz : ValueSize V) (t : SnapshotableHashTable V) :
    NodeList V → SnapshotableHashTable V
  | [] => { t with list := [] }
  | p :: rest =>
    if !p.2.active_in_map then
      clearOutdatedNodesLoop sz
        (t.updateDataSize .CLEAR_OUTDATED_NODES (sizeOfString p.2.key) (sizeOfV sz p.2.value) 0)
        rest
    else
      let t1 := clearOutdatedNodesLoop sz t rest
      { t1 with list := p :: t1.list }

/-- The method `clearOutdatedNodes`. -/
def clearOutdatedNodes (sz : ValueSize V) (t : SnapshotableHashTable V) : SnapshotableHashTable V :=
  clearOutdatedNodesLoop sz t t.list

/-- The method `clear`. -/
def clear (t : SnapshotableHashTable V) : SnapshotableHashTable V :=
  ({ t with list := [], map := [] } : SnapshotableHashTable V).updateDataSize .CLEAR 0 0 0

/-- The method `enableSnapshotMode`. -/
def enableSnapshotMode (t : SnapshotableHashTable V) : SnapshotableHashTable V :=
  { t with snapshot_mode := true }

/-- The method `disableSnapshotMode`. -/
def disableSnapshotMode (t : SnapshotableHashTable V) : SnapshotableHashTable V :=
  { t with snapshot_mode := false }

/-- The method `size`. -/
def size (t : SnapshotableHashTable V) : Nat := t.map.length

/-- The method `snapshotSize`. -/
def snapshotSize (t : SnapshotableHashTable V) : Nat := t.list.length

/-- The method `getApproximateSataSize`. -/
def getApproximateSataSize (t : SnapshotableHashTable V) : Nat := t.approximate_data_size

/-- What `find` yields when dereferenced: the node, or nothing at `list.end()`. -/
def findNode (t : SnapshotableHashTable V) (key : String) : Option (ListNode V) :=
  nodeOf t.list t.map key

/-- A call of a mutating method. -/
inductive Op (V : Type) where
  | insert (key : String) (value : V)
  | insertOrReplace (key : String) (value : V)
  | erase (key : String)
  | updateValue (key : String) (updater : V → V)
  | clearOutdatedNodes
  | clear
  | enableSnapshotMode
  | disableSnapshotMode

/-- The table after one call, or the fault that stopped it. -/
def step (sz : ValueSize V) (t : SnapshotableHashTable V) : Op V → Except Fault (SnapshotableHashTable V)
  | .insert key value => .ok (t.insert sz key value).1
  | .insertOrReplace key value => t.insertOrReplace sz key value
  | .erase key => (t.erase sz key).map Prod.fst
  | .updateValue key updater => (t.updateValue sz key updater).map Prod.fst
  | .clearOutdatedNodes => .ok (t.clearOutdatedNodes sz)
  | .clear => .ok t.clear
  | .enableSnapshotMode => .ok t.enableSnapshotMode
  | .disableSnapshotMode => .ok t.disableSnapshotMode

/-- The table after a sequence of calls. -/
def runOps (sz : ValueSize V) (t : SnapshotableHashTable V) : List (Op V) →
    Except Fault (SnapshotableHashTable V)
  | [] => .ok t
  | op :: ops =>
    match step sz t op with
    | .error e => .error e
    | .ok t1 => runOps sz t1 ops

/-- A state some sequence of calls reaches from the empty table. -/
def Reachable (sz : ValueSize V) (t : SnapshotableHashTable V) : Prop :=
  ∃ ops : List (Op V), runOps sz empty ops = .ok t

/-- The invariant of a table. -/
def WF (t : SnapshotableHashTable V) : Prop := Inv t.list t.map

/-- What a call hands back to the caller. -/
inductive Result (V : Type) where
  | done
  | bool (b : Bool)
  | found (v : Option V)
  | value (v : V)
  | count (n : Nat)

/-- A call of a method that only reads. -/
inductive Query where
  | contains (key : String)
  | find (key : String)
  | getValue (key : String)
  | size

/-- A call of a public method. -/
abbrev Call (V : Type) := Op V ⊕ Query

/-- One mutating call: the table after it and what it returns. -/
def stepResult (sz : ValueSize V) (t : SnapshotableHashTable V) :
    Op V → Except Fault (SnapshotableHashTable V × Result V)
  | .insert key value => .ok ((t.insert sz key value).1, .bool (t.insert sz key value).2)
  | .insertOrReplace key value => (t.insertOrReplace sz key value).map (fun t1 => (t1, .done))
  | .erase key => (t.erase sz key).map (fun r => (r.1, .bool r.2))
  | .updateValue key updater => (t.updateValue sz key updater).map (fun r => (r.1, .done))
  | .clearOutdatedNodes => .ok (t.clearOutdatedNodes sz, .done)
  | .clear => .ok (t.clear, .done)
  | .enableSnapshotMode => .ok (t.enableSnapshotMode, .done)
  | .disableSnapshotMode => .ok (t.disableSnapshotMode, .done)

/-- One reading call: what it returns. The iterator `find` returns is
dereferenced by the caller unless it is `end()`. -/
def query (t : SnapshotableHashTable V) : Query → Except Fault (Result V)
  | .contains key => .ok (.bool (t.contains key))
  | .find key =>
    match t.find key with
    | none => .ok (.found none)
    | some it =>
      match deref t.list it with
      | none => .error .invalid_iterator
      | some node => .ok (.found (some node.value))
  | .getValue key => (t.getValue key).map .value
  | .size => .ok (.count t.size)

/-- One call: the table after it and what it returns. -/
def call (sz : ValueSize V) (t : SnapshotableHashTable V) :
    Call V → Except Fault (SnapshotableHashTable V × Result V)
  | .inl op => stepResult sz t op
  | .inr q => (query t q).map (fun r => (t, r))

/-- A sequence of calls: the results in order, or the fault that stopped it. -/
def runCalls (sz : ValueSize V) (t : SnapshotableHashTable V) :
    List (Call V) → Except Fault (List (Result V))
  | [] => .ok []
  | c :: cs =>
    match call sz t c with
    | .error e => .error e
    | .ok (t1, r) => (runCalls sz t1 cs).map (fun rs => r :: rs)

/-- Reference finite map of the refinement: a finite map from keys to values. -/
abbrev RefMap (V : Type) := Finmap (fun _ : String => V)

/-- One call on the reference map, following the specification: `insert` is
insert-if-absent, `insertOrReplace` is put, `erase` is remove, `updateValue`
is modify-in-place, `clear` empties the map, the snapshot calls and the sweep
leave it alone, and `size` is the number of distinct keys. -/
def refCall (m : RefMap V) : Call V → Except Fault (RefMap V × Result V)
  | .inl (.insert key value) =>
    if key ∈ m then .ok (m, .bool false) else .ok (m.insert key value, .bool true)
  | .inl (.insertOrReplace key value) => .ok (m.insert key value, .done)
  | .inl (.erase key) => .ok (m.erase key, .bool (decide (key ∈ m)))
  | .inl (.updateValue key updater) =>
    match m.lookup key with
    | none => .error .assertion_failed
    | some v => .ok (m.insert key (updater v), .done)
  | .inl .clearOutdatedNodes => .ok (m, .done)
  | .inl .clear => .ok (∅, .done)
  | .inl .enableSnapshotMode => .ok (m, .done)
  | .inl .disableSnapshotMode => .ok (m, .done)
  | .inr (.contains key) => .ok (m, .bool (decide (key ∈ m)))
  | .inr (.find key) => .ok (m, .found (m.lookup key))
  | .inr (.getValue key) =>
    match m.lookup key with
    | none => .error .assertion_failed
    | some v => .ok (m, .value v)
  | .inr .size => .ok (m, .count m.keys.card)

/-- A sequence of calls on the reference map: the results in order. -/
def refRunCalls (m : RefMap V) : List (Call V) → Except Fault (List (Result V))
  | [] => .ok []
  | c :: cs =>
    match refCall m c with
    | .error e => .error e
    | .ok (m1, r) => (refRunCalls m1 cs).map (fun rs => r :: rs)

/-- The table represents the reference map: it is well formed and a lookup
through the index arrives at the value the map holds. -/
def Sim (t : SnapshotableHashTable V) (m : RefMap V) : Prop :=
  WF t ∧ ∀ k, (t.findNode k).map (fun n => n.value) = m.lookup k

/-- The calls that mutate one key: `insert`, `insertOrReplace`, `erase`, `updateValue`. -/
def Op.isKeyMutation : Op V → Bool
  | .insert _ _ => true
  | .insertOrReplace _ _ => true
  | .erase _ => true
  | .updateValue _ _ => true
  | _ => false

/-- The cell `q` is the cell `p` untouched, or `p` with its flag gone from true to false. -/
def sameOrDeactivated (p q : Iter × ListNode V) : Prop :=
  q = p ∨ (p.2.active_in_map = true ∧ q = (p.1, { p.2 with active_in_map := false }))

/-- The key and the value of a cell. -/
def keyValue (p : Iter × ListNode V) : String × V := (p.2.key, p.2.value)

/-- Sample value size: a four-byte value type without `size()`, `sizeof(V) = 4`. -/
def sizeof4 : ValueSize Nat := .sizeofT 4

/-- Sample state: `insert("a",1); enableSnapshotMode(); insertOrReplace("a",2)`. -/
def sampleReplaced : SnapshotableHashTable Nat :=
  { list := [(1, ⟨"a", 1, false⟩), (2, ⟨"a", 2, true⟩)], map := [("a", 2)],
    snapshot_mode := true, approximate_data_size := 10 }

/-- Sample state: `insertOrReplace("a",1); enableSnapshotMode()`. -/
def sampleSnapshot : SnapshotableHashTable Nat :=
  { list := [(1, ⟨"a", 1, true⟩)], map := [("a", 1)],
    snapshot_mode := true, approximate_data_size := 5 }

/-- Sample state: `insert("a",1); insert("a",2); enableSnapshotMode();
insertOrReplace("a",2); disableSnapshotMode()`. -/
def sampleScenario : SnapshotableHashTable Nat :=
  { list := [(1, ⟨"a", 1, false⟩), (2, ⟨"a", 2, true⟩)], map := [("a", 2)],
    snapshot_mode := false, approximate_data_size := 10 }

/-- Sample state: `insert("a",1)` on the empty table. -/
def sampleInserted : SnapshotableHashTable Nat :=
  { list := [(1, ⟨"a", 1, true⟩)], map := [("a", 1)],
    snapshot_mode := false, approximate_data_size := 5 }

/-- Sample state: the empty table of four-byte values. -/
def sampleEmpty : SnapshotableHashTable Nat := empty

/-- The bytes a node accounts for: the size of its key plus the size of its value. -/
def nodeSize (sz : ValueSize V) (n : ListNode V) : Nat := sizeOfString n.key + sizeOfV sz n.value

/-- The sum of `nodeSize` over the cells of a list. -/
def nodeSum (sz : ValueSize V) (l : NodeList V) : Nat := (l.map (fun p => nodeSize sz p.2)).sum

/-- The calls of the accounting invariant: every call except an
`insertOrReplace` of a present key outside snapshot mode. -/
def Op.accountedIn (t : SnapshotableHashTable V) : Op V → Bool
  | .insertOrReplace key _ => !t.contains key || t.snapshot_mode
  | _ => true

/-- The table after a sequence of calls each of which is `accountedIn` the
state it is made in; `none` when a call is not, or faults. -/
def runAccounted (sz : ValueSize V) (t : SnapshotableHashTable V) :
    List (Op V) → Option (SnapshotableHashTable V)
  | [] => some t
  | op :: ops =>
    if op.accountedIn t then
      match step sz t op with
      | .ok t1 => runAccounted sz t1 ops
      | .error _ => none
    else none

/-- Forward iteration `begin()` .. `end()`: the nodes of the list in order. -/
def iterate (t : SnapshotableHashTable V) : List (ListNode V) := t.list.map Prod.snd

/-- Reverse iteration `rbegin()` .. `rend()`: the nodes of the list from the tail. -/
def iterateReverse (t : SnapshotableHashTable V) : List (ListNode V) :=
  t.list.reverse.map Prod.snd

/-- The keys in the order the specification gives: a key enters at the tail
when it is inserted while absent, leaves when it is erased, and a replace or an
update of a present key moves nothing. -/
def orderStep (acc : List String) : Op V → List String
  | .insert key _ => if key ∈ acc then acc else acc ++ [key]
  | .insertOrReplace key _ => if key ∈ acc then acc else acc ++ [key]
  | .erase key => acc.filter (fun k => k != key)
  | _ => acc

/-- The live keys after a sequence of calls, in insertion order, following the
specification. -/
def insertionOrder (ops : List (Op V)) : List String := ops.foldl orderStep []

/-- The table is well formed, outside snapshot mode, holds active nodes only,
and its list holds the keys `acc` in this order. -/
def InOrder (t : SnapshotableHashTable V) (acc : List String) : Prop :=
  WF t ∧ t.snapshot_mode = false ∧ (∀ p ∈ t.list, p.2.active_in_map = true) ∧
    t.list.map (fun p => p.2.key) = acc

/-- Sample calls outside snapshot mode. -/
def sampleOrderOps : List (Op Nat) :=
  [.insert "a" 1, .insert "b" 2, .insertOrReplace "a" 3, .erase "a", .insert "c" 4,
    .updateValue "b" (fun v => v + 1), .insert "a" 5]

/-- Sample state: the table after `sampleOrderOps`. -/
def sampleOrdered : SnapshotableHashTable Nat :=
  { list := [(2, ⟨"b", 3, true⟩), (3, ⟨"c", 4, true⟩), (4, ⟨"a", 5, true⟩)],
    map := [("b", 2), ("c", 3), ("a", 4)],
    snapshot_mode := false, approximate_data_size := 17 }

/-- Sample value size: `std::string` values, which have `size()`; `r` is what
`size()` yields when it is called on a node that `list.erase` has destroyed. -/
def sizeOfStdString (r : Nat) : ValueSize String :=
  .sizeMethod String.utf8ByteSize (fun _ => r)

/-- Sample state: `insert("key","hello")` on the empty table of `std::string` values. -/
def sampleStringInserted : SnapshotableHashTable String :=
  { list := [(1, ⟨"key", "hello", true⟩)], map := [("key", 1)],
    snapshot_mode := false, approximate_data_size := 8 }

end SnapshotableHashTable

/-! Theorems: association lists, iterators and the representation invariant. -/

section assoc
variable {α β : Type} [DecidableEq α]
theorem lookup_mem {l : List (α × β)} {a : α} {b : β} (h : l.lookup a = some b) : (a, b) ∈ l := by
  induction l with
  | nil => simp at h
  | cons p l ih =>
    obtain ⟨a', b'⟩ := p
    by_cases hc : a = a'
    · subst hc
      simp [List.lookup_cons] at h
      simp [h]
    · have hne : (a == a') = false := by simpa using hc
      rw [List.lookup_cons, hne] at h
      exact List.mem_cons_of_mem _ (ih h)

theorem lookup_eq_none_of_not_mem {l : List (α × β)} {a : α} (h : a ∉ l.map Prod.fst) :
    l.lookup a = none := by
  induction l with
  | nil => rfl
  | cons p l ih =>
    obtain ⟨a', b'⟩ := p
    simp only [List.map_cons, List.mem_cons, not_or] at h
    have hne : (a == a') = false := by simpa using h.1
    rw [List.lookup_cons, hne]
    exact ih h.2

theorem not_mem_of_lookup_eq_none {l : List (α × β)} {a : α} (h : l.lookup a = none) :
    a ∉ l.map Prod.fst := by
  induction l with
  | nil => simp
  | cons p l ih =>
    obtain ⟨a', b'⟩ := p
    by_cases hc : a = a'
    · subst hc
      simp [List.lookup_cons] at h
    · have hne : (a == a') = false := by simpa using hc
      rw [List.lookup_cons, hne] at h
      simp only [List.map_cons, List.mem_cons, not_or]
      exact ⟨hc, ih h⟩

theorem lookup_of_mem_nodup {l : List (α × β)} {a : α} {b : β}
    (hnd : (l.map Prod.fst).Nodup) (h : (a, b) ∈ l) : l.lookup a = some b := by
  induction l with
  | nil => simp at h
  | cons p l ih =>
    obtain ⟨a', b'⟩ := p
    simp only [List.map_cons, List.nodup_cons] at hnd
    rcases List.mem_cons.1 h with heq | hmem
    · cases heq
      simp [List.lookup_cons]
    · have hne : a ≠ a' := by
        intro hc
        subst hc
        exact hnd.1 (List.mem_map_of_mem Prod.fst hmem)
      have hne' : (a == a') = false := by simpa using hne
      rw [List.lookup_cons, hne']
      exact ih hnd.2 hmem

theorem snd_eq_of_mem_nodup {l : List (α × β)} {a : α} {b b' : β}
    (hnd : (l.map Prod.fst).Nodup) (h : (a, b) ∈ l) (h' : (a, b') ∈ l) : b = b' := by
  have h1 := lookup_of_mem_nodup hnd h
  have h2 := lookup_of_mem_nodup hnd h'
  rw [h1] at h2
  exact Option.some.inj h2
end assoc

theorem lt_freshIter {V : Type} {l : NodeList V} {it : Iter} (h : it ∈ l.map Prod.fst) :
    it < freshIter l := by
  unfold freshIter
  induction l with
  | nil => simp at h
  | cons p l ih =>
    simp only [List.map_cons, List.mem_cons] at h
    simp only [List.map_cons, List.foldr_cons]
    rcases h with h | h
    · subst h
      exact Nat.lt_succ_of_le (Nat.le_max_left _ _)
    · have h1 : it ≤ List.foldr max 0 (List.map Prod.fst l) := Nat.le_of_lt_succ (ih h)
      exact Nat.lt_succ_of_le (Nat.le_trans h1 (Nat.le_max_right _ _))

theorem freshIter_not_mem {V : Type} (l : NodeList V) : freshIter l ∉ l.map Prod.fst :=
  fun h => Nat.lt_irrefl _ (lt_freshIter h)

variable {V : Type}

theorem map_fst_setActive (l : NodeList V) (it : Iter) (b : Bool) :
    (setActive l it b).map Prod.fst = l.map Prod.fst := by
  unfold setActive
  rw [List.map_map]
  apply List.map_congr_left
  intro p _
  by_cases h : p.1 = it <;> simp [h]

theorem map_fst_setValue (l : NodeList V) (it : Iter) (v : V) :
    (setValue l it v).map Prod.fst = l.map Prod.fst := by
  unfold setValue
  rw [List.map_map]
  apply List.map_congr_left
  intro p _
  by_cases h : p.1 = it <;> simp [h]

theorem mem_setActive {l : NodeList V} {it : Iter} {b : Bool} {i : Iter} {n : ListNode V} :
    (i, n) ∈ setActive l it b ↔
      ∃ n0, (i, n0) ∈ l ∧ n = if i = it then { n0 with active_in_map := b } else n0 := by
  unfold setActive
  simp only [List.mem_map, Prod.exists]
  constructor
  · rintro ⟨i0, n0, hmem, heq⟩
    by_cases h : i0 = it
    · simp only [h, if_true, Prod.mk.injEq] at heq
      obtain ⟨h1, h2⟩ := heq
      subst h1
      exact ⟨n0, h ▸ hmem, by simp [h2]⟩
    · simp only [h, if_false, Prod.mk.injEq] at heq
      obtain ⟨h1, h2⟩ := heq
      subst h1 h2
      exact ⟨n0, hmem, by simp [h]⟩
  · rintro ⟨n0, hmem, heq⟩
    refine ⟨i, n0, hmem, ?_⟩
    by_cases h : i = it <;> simp [h, heq]

theorem mem_setValue {l : NodeList V} {it : Iter} {v : V} {i : Iter} {n : ListNode V} :
    (i, n) ∈ setValue l it v ↔
      ∃ n0, (i, n0) ∈ l ∧ n = if i = it then { n0 with value := v } else n0 := by
  unfold setValue
  simp only [List.mem_map, Prod.exists]
  constructor
  · rintro ⟨i0, n0, hmem, heq⟩
    by_cases h : i0 = it
    · simp only [h, if_true, Prod.mk.injEq] at heq
      obtain ⟨h1, h2⟩ := heq
      subst h1
      exact ⟨n0, h ▸ hmem, by simp [h2]⟩
    · simp only [h, if_false, Prod.mk.injEq] at heq
      obtain ⟨h1, h2⟩ := heq
      subst h1 h2
      exact ⟨n0, hmem, by simp [h]⟩
  · rintro ⟨n0, hmem, heq⟩
    refine ⟨i, n0, hmem, ?_⟩
    by_cases h : i = it <;> simp [h, heq]

theorem mem_listErase {l : NodeList V} {it : Iter} {x : Iter × ListNode V} :
    x ∈ listErase l it ↔ x ∈ l ∧ x.1 ≠ it := by
  simp [listErase]

theorem mem_mapErase {m : IndexMap} {key : String} {x : String × Iter} :
    x ∈ mapErase m key ↔ x ∈ m ∧ x.1 ≠ key := by
  simp [mapErase]

theorem nodup_map_fst_filter {α β : Type} {l : List (α × β)} (p : α × β → Bool)
    (h : (l.map Prod.fst).Nodup) : ((l.filter p).map Prod.fst).Nodup :=
  List.Nodup.sublist (List.Sublist.map _ (List.filter_sublist l)) h

theorem mapFind_mapErase_self (m : IndexMap) (key : String) : mapFind (mapErase m key) key = none := by
  apply lookup_eq_none_of_not_mem
  intro h
  obtain ⟨x, hx, hk⟩ := List.mem_map.1 h
  exact (mem_mapErase.1 hx).2 hk

theorem mapEmplace_of_none {m : IndexMap} {key : String} (itr : Iter) (h : mapFind m key = none) :
    mapEmplace m key itr = m ++ [(key, itr)] := by
  unfold mapFind at h
  simp [mapEmplace, h]

theorem mapEmplace_mapErase (m : IndexMap) (key : String) (itr : Iter) :
    mapEmplace (mapErase m key) key itr = mapErase m key ++ [(key, itr)] :=
  mapEmplace_of_none itr (mapFind_mapErase_self m key)

section assoc2
variable {α β : Type} [DecidableEq α]

theorem lookup_filter_ne (l : List (α × β)) (a x : α) :
    (l.filter (fun e => e.1 != a)).lookup x = if x = a then none else l.lookup x := by
  induction l with
  | nil => simp
  | cons p l ih =>
    obtain ⟨a', b'⟩ := p
    by_cases h1 : a' = a
    · have hf : ((a' != a) = true) = False := by simp [h1]
      simp only [List.filter_cons, hf, if_false]
      rw [ih]
      by_cases h2 : x = a
      · simp [h2]
      · have hne : (x == a') = false := by simpa [h1] using h2
        simp only [h2, if_false, List.lookup_cons, hne]
    · have hf : ((a' != a) = true) = True := by simp [h1]
      simp only [List.filter_cons, hf, if_true]
      by_cases h3 : x = a'
      · have h2 : x ≠ a := h3 ▸ h1
        subst h3
        simp [h2]
      · have hne : (x == a') = false := by simpa using h3
        simp only [List.lookup_cons, hne]
        exact ih

theorem lookup_append_single (l : List (α × β)) (a : α) (b : β) (x : α) :
    (l ++ [(a, b)]).lookup x = (l.lookup x).or (if x = a then some b else none) := by
  rw [List.lookup_append]
  congr 1
  by_cases h : x = a
  · subst h
    simp
  · have hne : (x == a) = false := by simpa using h
    simp [List.lookup_cons, hne, h]

theorem lookup_map_snd (l : List (α × β)) (g : α → β → β) (x : α) :
    (l.map (fun p => (p.1, g p.1 p.2))).lookup x = (l.lookup x).map (g x) := by
  induction l with
  | nil => rfl
  | cons p l ih =>
    obtain ⟨a', b'⟩ := p
    by_cases h : x = a'
    · subst h
      simp
    · have hne : (x == a') = false := by simpa using h
      simp only [List.map_cons, List.lookup_cons, hne]
      exact ih

theorem length_filter_ne_of_nodup {l : List (α × β)} {a : α} {b : β}
    (hnd : (l.map Prod.fst).Nodup) (h : (a, b) ∈ l) :
    (l.filter (fun e => e.1 != a)).length + 1 = l.length := by
  induction l with
  | nil => simp at h
  | cons p l ih =>
    obtain ⟨a', b'⟩ := p
    simp only [List.map_cons, List.nodup_cons] at hnd
    rcases List.mem_cons.1 h with heq | hmem
    · cases heq
      have hall : l.filter (fun e => e.1 != a) = l := by
        apply List.filter_eq_self.2
        intro e he
        have : e.1 ≠ a := fun hc => hnd.1 (hc ▸ List.mem_map_of_mem Prod.fst he)
        simpa using this
      simp [List.filter_cons, hall]
    · have hne : a' ≠ a := by
        intro hc
        subst hc
        exact hnd.1 (List.mem_map_of_mem Prod.fst hmem)
      simp [List.filter_cons, hne, ih hnd.2 hmem]

end assoc2

theorem setActive_eq_map (l : NodeList V) (it : Iter) (b : Bool) :
    setActive l it b =
      l.map (fun p => (p.1, (fun i n => if i = it then { n with active_in_map := b } else n) p.1 p.2)) := by
  unfold setActive
  apply List.map_congr_left
  intro p _
  by_cases h : p.1 = it <;> simp [h]

theorem setValue_eq_map (l : NodeList V) (it : Iter) (v : V) :
    setValue l it v =
      l.map (fun p => (p.1, (fun i n => if i = it then { n with value := v } else n) p.1 p.2)) := by
  unfold setValue
  apply List.map_congr_left
  intro p _
  by_cases h : p.1 = it <;> simp [h]

theorem deref_setActive (l : NodeList V) (it : Iter) (b : Bool) (i : Iter) :
    deref (setActive l it b) i =
      (deref l i).map (fun n => if i = it then { n with active_in_map := b } else n) := by
  unfold deref
  rw [setActive_eq_map]
  exact lookup_map_snd l (fun i n => if i = it then { n with active_in_map := b } else n) i

theorem deref_setValue (l : NodeList V) (it : Iter) (v : V) (i : Iter) :
    deref (setValue l it v) i =
      (deref l i).map (fun n => if i = it then { n with value := v } else n) := by
  unfold deref
  rw [setValue_eq_map]
  exact lookup_map_snd l (fun i n => if i = it then { n with value := v } else n) i

theorem deref_listErase (l : NodeList V) (it i : Iter) :
    deref (listErase l it) i = if i = it then none else deref l i :=
  lookup_filter_ne l it i

theorem mapFind_mapErase (m : IndexMap) (key k : String) :
    mapFind (mapErase m key) k = if k = key then none else mapFind m k :=
  lookup_filter_ne m key k

theorem mapFind_append_single (m : IndexMap) (key : String) (it : Iter) (k : String) :
    mapFind (m ++ [(key, it)]) k = (mapFind m k).or (if k = key then some it else none) :=
  lookup_append_single m key it k

theorem deref_append_single (l : NodeList V) (it : Iter) (n : ListNode V) (i : Iter) :
    deref (l ++ [(it, n)]) i = (deref l i).or (if i = it then some n else none) :=
  lookup_append_single l it n i

theorem deref_freshIter (l : NodeList V) : deref l (freshIter l) = none :=
  lookup_eq_none_of_not_mem (freshIter_not_mem l)

theorem deref_append_fresh (l : NodeList V) (n : ListNode V) :
    deref (l ++ [(freshIter l, n)]) (freshIter l) = some n := by
  rw [deref_append_single, deref_freshIter]
  simp

theorem deref_append_of_some {l : NodeList V} {i : Iter} {n0 : ListNode V}
    (h : deref l i = some n0) (it : Iter) (n : ListNode V) :
    deref (l ++ [(it, n)]) i = some n0 := by
  rw [deref_append_single, h]
  rfl

theorem sizeOfV_lt {V : Type} (sz : ValueSize V) (v : V) : sizeOfV sz v < UInt64_size := by
  cases sz <;> simp only [sizeOfV, UInt64_size] <;> omega

theorem sizeOfErased_lt {V : Type} (sz : ValueSize V) (n : ListNode V) :
    sizeOfErased sz n < UInt64_size := by
  cases sz <;> simp only [sizeOfErased, UInt64_size] <;> omega

theorem sizeOfErased_eq_of_not_readsObject {V : Type} {sz : ValueSize V}
    (h : sz.readsObject = false) (n : ListNode V) : sizeOfErased sz n = sizeOfV sz n.value := by
  cases sz with
  | sizeofT m => rfl
  | sizeMethod size erased => simp [ValueSize.readsObject] at h

theorem add64_add64 (a k v : Nat) : add64 (add64 a k) v = (a + k + v) % UInt64_size := by
  unfold add64 UInt64_size
  omega

theorem sub64_sub64 (a k v : Nat) :
    (sub64 (sub64 a k) v + k + v) % UInt64_size = a % UInt64_size := by
  unfold sub64 UInt64_size
  omega

theorem Inv.nil : Inv ([] : NodeList V) [] :=
  ⟨by simp, by simp, by simp, by simp⟩

theorem Inv.append {l : NodeList V} {m : IndexMap} (h : Inv l m) {key : String}
    (hk : mapFind m key = none) (v : V) :
    Inv (l ++ [(freshIter l, ⟨key, v, true⟩)]) (m ++ [(key, freshIter l)]) := by
  refine ⟨?_, ?_, ?_, ?_⟩
  · rw [List.map_append, List.nodup_append]
    refine ⟨h.iters_nodup, by simp, ?_⟩
    intro a ha hb
    simp only [List.map_cons, List.map_nil, List.mem_singleton] at hb
    subst hb
    exact freshIter_not_mem l ha
  · rw [List.map_append, List.nodup_append]
    refine ⟨h.keys_nodup, by simp, ?_⟩
    intro a ha hb
    simp only [List.map_cons, List.map_nil, List.mem_singleton] at hb
    subst hb
    exact not_mem_of_lookup_eq_none hk ha
  · intro k it hmem
    rcases List.mem_append.1 hmem with h1 | h1
    · obtain ⟨n, hn, hkey, hact⟩ := h.index_sound k it h1
      exact ⟨n, List.mem_append_left _ hn, hkey, hact⟩
    · simp only [List.mem_singleton, Prod.mk.injEq] at h1
      obtain ⟨h2, h3⟩ := h1
      subst h2 h3
      exact ⟨_, List.mem_append_right _ (List.mem_singleton.2 rfl), rfl, rfl⟩
  · intro it n hmem hact
    rcases List.mem_append.1 hmem with h1 | h1
    · exact List.mem_append_left _ (h.active_indexed it n h1 hact)
    · simp only [List.mem_singleton, Prod.mk.injEq] at h1
      obtain ⟨h2, h3⟩ := h1
      subst h2 h3
      exact List.mem_append_right _ (List.mem_singleton.2 rfl)

theorem Inv.deactivate {l : NodeList V} {m : IndexMap} (h : Inv l m) {key : String} {it : Iter}
    (hk : mapFind m key = some it) : Inv (setActive l it false) (mapErase m key) := by
  have hkm : (key, it) ∈ m := lookup_mem hk
  refine ⟨?_, ?_, ?_, ?_⟩
  · rw [map_fst_setActive]
    exact h.iters_nodup
  · exact nodup_map_fst_filter _ h.keys_nodup
  · intro k i hmem
    obtain ⟨hmem, hne⟩ := mem_mapErase.1 hmem
    obtain ⟨n, hn, hkey, hact⟩ := h.index_sound k i hmem
    have hi : i ≠ it := by
      intro hc
      subst hc
      obtain ⟨n', hn', hkey', _⟩ := h.index_sound key i hkm
      have := snd_eq_of_mem_nodup h.iters_nodup hn hn'
      subst this
      exact hne (hkey.symm.trans hkey')
    exact ⟨n, mem_setActive.2 ⟨n, hn, by simp [hi]⟩, hkey, hact⟩
  · intro i n hmem hact
    obtain ⟨n0, hn0, heq⟩ := mem_setActive.1 hmem
    by_cases hi : i = it
    · simp only [hi, if_true] at heq
      subst heq
      simp at hact
    · simp only [hi, if_false] at heq
      subst heq
      have hm := h.active_indexed i n hn0 hact
      refine mem_mapErase.2 ⟨hm, ?_⟩
      intro hc
      simp only at hc
      rw [hc] at hm
      exact hi (snd_eq_of_mem_nodup h.keys_nodup hm hkm)

theorem Inv.remove {l : NodeList V} {m : IndexMap} (h : Inv l m) {key : String} {it : Iter}
    (hk : mapFind m key = some it) : Inv (listErase l it) (mapErase m key) := by
  have hkm : (key, it) ∈ m := lookup_mem hk
  refine ⟨?_, ?_, ?_, ?_⟩
  · exact nodup_map_fst_filter _ h.iters_nodup
  · exact nodup_map_fst_filter _ h.keys_nodup
  · intro k i hmem
    obtain ⟨hmem, hne⟩ := mem_mapErase.1 hmem
    obtain ⟨n, hn, hkey, hact⟩ := h.index_sound k i hmem
    have hi : i ≠ it := by
      intro hc
      subst hc
      obtain ⟨n', hn', hkey', _⟩ := h.index_sound key i hkm
      have := snd_eq_of_mem_nodup h.iters_nodup hn hn'
      subst this
      exact hne (hkey.symm.trans hkey')
    exact ⟨n, mem_listErase.2 ⟨hn, hi⟩, hkey, hact⟩
  · intro i n hmem hact
    obtain ⟨hn0, hi⟩ := mem_listErase.1 hmem
    have hm := h.active_indexed i n hn0 hact
    refine mem_mapErase.2 ⟨hm, ?_⟩
    intro hc
    simp only at hc
    rw [hc] at hm
    exact hi (snd_eq_of_mem_nodup h.keys_nodup hm hkm)

theorem Inv.setValue {l : NodeList V} {m : IndexMap} (h : Inv l m) (it : Iter) (v : V) :
    Inv (setValue l it v) m := by
  refine ⟨?_, h.keys_nodup, ?_, ?_⟩
  · rw [map_fst_setValue]
    exact h.iters_nodup
  · intro k i hmem
    obtain ⟨n, hn, hkey, hact⟩ := h.index_sound k i hmem
    refine ⟨_, mem_setValue.2 ⟨n, hn, rfl⟩, ?_, ?_⟩
    · by_cases hi : i = it <;> simp [hi, hkey]
    · by_cases hi : i = it <;> simp [hi, hact]
  · intro i n hmem hact
    obtain ⟨n0, hn0, heq⟩ := mem_setValue.1 hmem
    have h1 : n.key = n0.key := by
      by_cases hi : i = it <;> simp [heq, hi]
    have h2 : n.active_in_map = n0.active_in_map := by
      by_cases hi : i = it <;> simp [heq, hi]
    rw [h1]
    exact h.active_indexed i n0 hn0 (h2 ▸ hact)

theorem Inv.sweep {l : NodeList V} {m : IndexMap} (h : Inv l m) :
    Inv (l.filter (fun p => p.2.active_in_map)) m := by
  refine ⟨nodup_map_fst_filter _ h.iters_nodup, h.keys_nodup, ?_, ?_⟩
  · intro k i hmem
    obtain ⟨n, hn, hkey, hact⟩ := h.index_sound k i hmem
    exact ⟨n, List.mem_filter.2 ⟨hn, hact⟩, hkey, hact⟩
  · intro i n hmem hact
    exact h.active_indexed i n (List.mem_filter.1 hmem).1 hact


theorem deref_of_mapFind {l : NodeList V} {m : IndexMap} (h : Inv l m) {key : String} {it : Iter}
    (hk : mapFind m key = some it) :
    ∃ n, deref l it = some n ∧ n.key = key ∧ n.active_in_map = true := by
  obtain ⟨n, hn, hkey, hact⟩ := h.index_sound key it (lookup_mem hk)
  exact ⟨n, lookup_of_mem_nodup h.iters_nodup hn, hkey, hact⟩

theorem Inv.copyOnWrite {l : NodeList V} {m : IndexMap} (h : Inv l m) {key : String} {it : Iter}
    (hk : mapFind m key = some it) (v : V) :
    Inv (listInsertEnd (setActive l it false) ⟨key, v, true⟩).1
      (mapEmplace (mapErase m key) key (listInsertEnd (setActive l it false) ⟨key, v, true⟩).2) := by
  rw [mapEmplace_mapErase]
  exact (h.deactivate hk).append (mapFind_mapErase_self m key) v

theorem nodeOf_eq_none_iff {l : NodeList V} {m : IndexMap} (h : Inv l m) (k : String) :
    nodeOf l m k = none ↔ mapFind m k = none := by
  unfold nodeOf
  cases hk : mapFind m k with
  | none => simp
  | some it =>
    obtain ⟨n, hn, _, _⟩ := deref_of_mapFind h hk
    simp [hn]

theorem iter_ne_of_key_ne {l : NodeList V} {m : IndexMap} (h : Inv l m) {k key : String}
    {i it : Iter} (hk : mapFind m k = some i) (hkey : mapFind m key = some it) (hne : k ≠ key) :
    i ≠ it := by
  intro hc
  subst hc
  obtain ⟨n, hn, hnk, _⟩ := deref_of_mapFind h hk
  obtain ⟨n', hn', hnk', _⟩ := deref_of_mapFind h hkey
  rw [hn] at hn'
  cases hn'
  exact hne (hnk.symm.trans hnk')

theorem nodeOf_append {l : NodeList V} {m : IndexMap} (h : Inv l m) {key : String}
    (hkey : mapFind m key = none) (n : ListNode V) (k : String) :
    nodeOf (l ++ [(freshIter l, n)]) (m ++ [(key, freshIter l)]) k =
      if k = key then some n else nodeOf l m k := by
  unfold nodeOf
  rw [mapFind_append_single]
  by_cases hk : k = key
  · subst hk
    simp only [hkey, if_true, Option.or]
    exact deref_append_fresh l n
  · simp only [hk, if_false]
    cases hm : mapFind m k with
    | none => rfl
    | some i =>
      obtain ⟨n0, hn0, _, _⟩ := deref_of_mapFind h hm
      simp only [Option.or]
      rw [hn0]
      exact deref_append_of_some hn0 _ _

theorem nodeOf_deactivate {l : NodeList V} {m : IndexMap} (h : Inv l m) {key : String}
    {it : Iter} (hkey : mapFind m key = some it) (k : String) :
    nodeOf (setActive l it false) (mapErase m key) k =
      if k = key then none else nodeOf l m k := by
  unfold nodeOf
  rw [mapFind_mapErase]
  by_cases hk : k = key
  · simp [hk]
  · simp only [hk, if_false]
    cases hm : mapFind m k with
    | none => rfl
    | some i =>
      have hne := iter_ne_of_key_ne h hm hkey hk
      simp only [deref_setActive, hne, if_false]
      cases deref l i <;> rfl

theorem nodeOf_remove {l : NodeList V} {m : IndexMap} (h : Inv l m) {key : String}
    {it : Iter} (hkey : mapFind m key = some it) (k : String) :
    nodeOf (listErase l it) (mapErase m key) k =
      if k = key then none else nodeOf l m k := by
  unfold nodeOf
  rw [mapFind_mapErase]
  by_cases hk : k = key
  · simp [hk]
  · simp only [hk, if_false]
    cases hm : mapFind m k with
    | none => rfl
    | some i =>
      have hne := iter_ne_of_key_ne h hm hkey hk
      simp only [deref_listErase, hne, if_false]

theorem nodeOf_setValue {l : NodeList V} {m : IndexMap} (h : Inv l m) {key : String}
    {it : Iter} {n : ListNode V} (hkey : mapFind m key = some it) (hn : deref l it = some n)
    (v : V) (k : String) :
    nodeOf (setValue l it v) m k =
      if k = key then some { n with value := v } else nodeOf l m k := by
  unfold nodeOf
  by_cases hk : k = key
  · subst hk
    simp only [hkey, if_true, deref_setValue, hn, Option.map]
  · simp only [hk, if_false]
    cases hm : mapFind m k with
    | none => rfl
    | some i =>
      have hne := iter_ne_of_key_ne h hm hkey hk
      simp only [deref_setValue, hne, if_false]
      cases deref l i <;> rfl

theorem nodeOf_copyOnWrite {l : NodeList V} {m : IndexMap} (h : Inv l m) {key : String}
    {it : Iter} (hkey : mapFind m key = some it) (n : ListNode V) (k : String) :
    nodeOf (setActive l it false ++ [(freshIter (setActive l it false), n)])
        (mapErase m key ++ [(key, freshIter (setActive l it false))]) k =
      if k = key then some n else nodeOf l m k := by
  rw [nodeOf_append (h.deactivate hkey) (mapFind_mapErase_self m key), nodeOf_deactivate h hkey]
  by_cases hk : k = key <;> simp [hk]

theorem nodeOf_sweep {l : NodeList V} {m : IndexMap} (h : Inv l m) (k : String) :
    nodeOf (l.filter (fun p => p.2.active_in_map)) m k = nodeOf l m k := by
  unfold nodeOf
  cases hm : mapFind m k with
  | none => rfl
  | some i =>
    obtain ⟨n, hn, hkey, hact⟩ := h.index_sound k i (lookup_mem hm)
    have h1 : deref l i = some n := lookup_of_mem_nodup h.iters_nodup hn
    have h2 : deref (l.filter (fun p => p.2.active_in_map)) i = some n :=
      lookup_of_mem_nodup (nodup_map_fst_filter _ h.iters_nodup)
        (List.mem_filter.2 ⟨hn, hact⟩)
    simp only [h1, h2]

namespace SnapshotableHashTable

@[simp] theorem updateDataSize_list (t : SnapshotableHashTable V) (op : OperationType)
    (a b c : Nat) : (t.updateDataSize op a b c).list = t.list := by
  cases op <;> simp only [updateDataSize] <;> split_ifs <;> rfl

@[simp] theorem updateDataSize_map (t : SnapshotableHashTable V) (op : OperationType)
    (a b c : Nat) : (t.updateDataSize op a b c).map = t.map := by
  cases op <;> simp only [updateDataSize] <;> split_ifs <;> rfl

@[simp] theorem updateDataSize_snapshot_mode (t : SnapshotableHashTable V) (op : OperationType)
    (a b c : Nat) : (t.updateDataSize op a b c).snapshot_mode = t.snapshot_mode := by
  cases op <;> simp only [updateDataSize] <;> split_ifs <;> rfl

theorem clearOutdatedNodesLoop_list (sz : ValueSize V) (t : SnapshotableHashTable V) (l : NodeList V) :
    (clearOutdatedNodesLoop sz t l).list = l.filter (fun p => p.2.active_in_map) := by
  induction l generalizing t with
  | nil => rfl
  | cons p l ih =>
    cases hp : p.2.active_in_map
    · simp [clearOutdatedNodesLoop, hp, ih]
    · simp [clearOutdatedNodesLoop, hp, ih]

theorem clearOutdatedNodesLoop_map (sz : ValueSize V) (t : SnapshotableHashTable V) (l : NodeList V) :
    (clearOutdatedNodesLoop sz t l).map = t.map := by
  induction l generalizing t with
  | nil => rfl
  | cons p l ih =>
    cases hp : p.2.active_in_map
    · simp [clearOutdatedNodesLoop, hp, ih]
    · simp [clearOutdatedNodesLoop, hp, ih]

theorem clearOutdatedNodesLoop_snapshot_mode (sz : ValueSize V) (t : SnapshotableHashTable V)
    (l : NodeList V) : (clearOutdatedNodesLoop sz t l).snapshot_mode = t.snapshot_mode := by
  induction l generalizing t with
  | nil => rfl
  | cons p l ih =>
    cases hp : p.2.active_in_map
    · simp [clearOutdatedNodesLoop, hp, ih]
    · simp [clearOutdatedNodesLoop, hp, ih]

theorem WF_empty : WF (empty : SnapshotableHashTable V) := Inv.nil

theorem WF_insert (sz : ValueSize V) {t : SnapshotableHashTable V} (h : WF t) (key : String) (v : V) :
    WF (t.insert sz key v).1 := by
  unfold insert
  cases hk : mapFind t.map key with
  | some it => exact h
  | none =>
    simp only [WF, updateDataSize_list, updateDataSize_map, listInsertEnd]
    rw [mapEmplace_of_none _ hk]
    exact Inv.append h hk v

theorem WF_insertOrReplace (sz : ValueSize V) {t t1 : SnapshotableHashTable V} (h : WF t)
    {key : String} {v : V} (hr : t.insertOrReplace sz key v = .ok t1) : WF t1 := by
  unfold insertOrReplace at hr
  cases hk : mapFind t.map key with
  | none =>
    simp only [hk] at hr
    cases hr
    simp only [WF, updateDataSize_list, updateDataSize_map, listInsertEnd]
    rw [mapEmplace_of_none _ hk]
    exact Inv.append h hk v
  | some it =>
    obtain ⟨n, hn, _, _⟩ := deref_of_mapFind h hk
    simp only [hk, hn] at hr
    cases hs : t.snapshot_mode
    · simp only [hs] at hr
      cases hr
      simp only [WF, updateDataSize_list, updateDataSize_map]
      exact Inv.setValue h it v
    · simp only [hs, if_true] at hr
      cases hr
      simp only [WF, updateDataSize_list, updateDataSize_map]
      exact Inv.copyOnWrite h hk v

theorem WF_erase (sz : ValueSize V) {t t1 : SnapshotableHashTable V} (h : WF t)
    {key : String} {b : Bool} (hr : t.erase sz key = .ok (t1, b)) : WF t1 := by
  unfold erase at hr
  cases hk : mapFind t.map key with
  | none =>
    simp only [hk] at hr
    cases hr
    exact h
  | some it =>
    obtain ⟨n, hn, _, _⟩ := deref_of_mapFind h hk
    simp only [hk, hn] at hr
    cases hs : t.snapshot_mode
    · simp only [hs] at hr
      cases hr
      simp only [WF, updateDataSize_list, updateDataSize_map]
      exact Inv.remove h hk
    · simp only [hs, if_true] at hr
      cases hr
      simp only [WF, updateDataSize_list, updateDataSize_map]
      exact Inv.deactivate h hk

theorem WF_updateValue (sz : ValueSize V) {t t1 : SnapshotableHashTable V} (h : WF t)
    {key : String} {f : V → V} {r : Iter} (hr : t.updateValue sz key f = .ok (t1, r)) : WF t1 := by
  unfold updateValue at hr
  cases hk : mapFind t.map key with
  | none => simp [hk] at hr
  | some it =>
    obtain ⟨n, hn, hkey, hact⟩ := deref_of_mapFind h hk
    simp only [hk, hn] at hr
    cases hs : t.snapshot_mode
    · simp only [hs] at hr
      cases hr
      simp only [WF, updateDataSize_list, updateDataSize_map]
      exact Inv.setValue h _ _
    · simp only [hs, if_true] at hr
      cases hr
      simp only [WF, updateDataSize_list, updateDataSize_map]
      have e : ({ n with value := f n.value } : ListNode V) = ⟨key, f n.value, true⟩ := by
        cases n
        simp_all
      rw [e, hkey]
      exact Inv.copyOnWrite h hk (f n.value)


theorem WF_clearOutdatedNodes (sz : ValueSize V) {t : SnapshotableHashTable V} (h : WF t) :
    WF (t.clearOutdatedNodes sz) := by
  simp only [WF, clearOutdatedNodes, clearOutdatedNodesLoop_list, clearOutdatedNodesLoop_map]
  exact Inv.sweep h

theorem WF_clear (t : SnapshotableHashTable V) : WF t.clear := by
  simp only [WF, clear, updateDataSize_list, updateDataSize_map]
  exact Inv.nil

theorem WF_step (sz : ValueSize V) {t t1 : SnapshotableHashTable V} (h : WF t) {op : Op V}
    (hr : step sz t op = .ok t1) : WF t1 := by
  cases op with
  | insert key value =>
    simp only [step, Except.ok.injEq] at hr
    subst hr
    exact WF_insert sz h key value
  | insertOrReplace key value => exact WF_insertOrReplace sz h hr
  | erase key =>
    simp only [step] at hr
    cases he : t.erase sz key with
    | error e => simp [he, Except.map] at hr
    | ok p =>
      obtain ⟨t2, b⟩ := p
      simp only [he, Except.map, Except.ok.injEq] at hr
      subst hr
      exact WF_erase sz h he
  | updateValue key f =>
    simp only [step] at hr
    cases he : t.updateValue sz key f with
    | error e => simp [he, Except.map] at hr
    | ok p =>
      obtain ⟨t2, b⟩ := p
      simp only [he, Except.map, Except.ok.injEq] at hr
      subst hr
      exact WF_updateValue sz h he
  | clearOutdatedNodes =>
    simp only [step, Except.ok.injEq] at hr
    subst hr
    exact WF_clearOutdatedNodes sz h
  | clear =>
    simp only [step, Except.ok.injEq] at hr
    subst hr
    exact WF_clear t
  | enableSnapshotMode =>
    simp only [step, Except.ok.injEq] at hr
    subst hr
    exact h
  | disableSnapshotMode =>
    simp only [step, Except.ok.injEq] at hr
    subst hr
    exact h

theorem WF_runOps (sz : ValueSize V) {t t1 : SnapshotableHashTable V} (h : WF t) {ops : List (Op V)}
    (hr : runOps sz t ops = .ok t1) : WF t1 := by
  induction ops generalizing t with
  | nil =>
    simp only [runOps, Except.ok.injEq] at hr
    subst hr
    exact h
  | cons op ops ih =>
    simp only [runOps] at hr
    cases hs : step sz t op with
    | error e => simp [hs] at hr
    | ok t2 =>
      simp only [hs] at hr
      exact ih (WF_step sz h hs) hr

theorem WF_of_reachable {sz : ValueSize V} {t : SnapshotableHashTable V} (h : Reachable sz t) : WF t := by
  obtain ⟨ops, hops⟩ := h
  exact WF_runOps sz WF_empty hops

/-! The result of each method, case by case -/

theorem insert_of_absent (sz : ValueSize V) {t : SnapshotableHashTable V} {key : String} (v : V)
    (hk : mapFind t.map key = none) :
    t.insert sz key v =
      ({ list := t.list ++ [(freshIter t.list, ⟨key, v, true⟩)],
         map := t.map ++ [(key, freshIter t.list)],
         snapshot_mode := t.snapshot_mode,
         approximate_data_size :=
           add64 (add64 t.approximate_data_size (sizeOfString key)) (sizeOfV sz v) }, true) := by
  simp only [insert, hk, listInsertEnd, mapEmplace_of_none _ hk, updateDataSize]

theorem insert_of_present (sz : ValueSize V) {t : SnapshotableHashTable V} {key : String} (v : V)
    {it : Iter} (hk : mapFind t.map key = some it) : t.insert sz key v = (t, false) := by
  simp only [insert, hk]

theorem insertOrReplace_of_absent (sz : ValueSize V) {t : SnapshotableHashTable V} {key : String}
    (v : V) (hk : mapFind t.map key = none) :
    t.insertOrReplace sz key v =
      .ok { list := t.list ++ [(freshIter t.list, ⟨key, v, true⟩)],
            map := t.map ++ [(key, freshIter t.list)],
            snapshot_mode := t.snapshot_mode,
            approximate_data_size :=
              add64 (add64 t.approximate_data_size (sizeOfString key)) (sizeOfV sz v) } := by
  simp [insertOrReplace, hk, listInsertEnd, mapEmplace_of_none _ hk, updateDataSize]

theorem insertOrReplace_snapshot (sz : ValueSize V) {t : SnapshotableHashTable V} {key : String}
    (v : V) {it : Iter} {n : ListNode V} (hk : mapFind t.map key = some it)
    (hn : deref t.list it = some n) (hs : t.snapshot_mode = true) :
    t.insertOrReplace sz key v =
      .ok { list := setActive t.list it false ++
              [(freshIter (setActive t.list it false), ⟨key, v, true⟩)],
            map := mapErase t.map key ++ [(key, freshIter (setActive t.list it false))],
            snapshot_mode := true,
            approximate_data_size :=
              add64 (add64 t.approximate_data_size (sizeOfString key)) (sizeOfV sz v) } := by
  obtain ⟨l, m, s, a⟩ := t
  simp only at hk hn hs
  subst hs
  simp only [insertOrReplace, hk, hn, listInsertEnd, mapEmplace_mapErase, updateDataSize]
  split_ifs <;> simp_all

theorem insertOrReplace_normal (sz : ValueSize V) {t : SnapshotableHashTable V} {key : String}
    (v : V) {it : Iter} {n : ListNode V} (hk : mapFind t.map key = some it)
    (hn : deref t.list it = some n) (hs : t.snapshot_mode = false) :
    t.insertOrReplace sz key v =
      .ok { list := setValue t.list it v,
            map := t.map,
            snapshot_mode := false,
            approximate_data_size :=
              if sizeOfV sz n.value ≠ 0 then
                sub64 (add64 (add64 (add64 t.approximate_data_size (sizeOfString key))
                  (sizeOfV sz v)) (sizeOfString key)) (sizeOfV sz n.value)
              else
                add64 (add64 t.approximate_data_size (sizeOfString key)) (sizeOfV sz v) } := by
  obtain ⟨l, m, s, a⟩ := t
  simp only at hk hn hs
  subst hs
  simp only [insertOrReplace, hk, hn, updateDataSize]
  split_ifs <;> simp_all

theorem erase_of_absent (sz : ValueSize V) {t : SnapshotableHashTable V} {key : String}
    (hk : mapFind t.map key = none) : t.erase sz key = .ok (t, false) := by
  simp only [erase, hk]

theorem erase_snapshot (sz : ValueSize V) {t : SnapshotableHashTable V} {key : String}
    {it : Iter} {n : ListNode V} (hk : mapFind t.map key = some it)
    (hn : deref t.list it = some n) (hs : t.snapshot_mode = true) :
    t.erase sz key =
      .ok ({ list := setActive t.list it false,
             map := mapErase t.map key,
             snapshot_mode := true,
             approximate_data_size := t.approximate_data_size }, true) := by
  obtain ⟨l, m, s, a⟩ := t
  simp only at hk hn hs
  subst hs
  simp [erase, hk, hn, updateDataSize]

theorem erase_normal (sz : ValueSize V) {t : SnapshotableHashTable V} {key : String}
    {it : Iter} {n : ListNode V} (hk : mapFind t.map key = some it)
    (hn : deref t.list it = some n) (hs : t.snapshot_mode = false) :
    t.erase sz key =
      .ok ({ list := listErase t.list it,
             map := mapErase t.map key,
             snapshot_mode := false,
             approximate_data_size :=
               sub64 (sub64 t.approximate_data_size (sizeOfString key)) (sizeOfErased sz n) },
           true) := by
  obtain ⟨l, m, s, a⟩ := t
  simp only at hk hn hs
  subst hs
  have hgone : deref (listErase l it) it = none := by
    rw [deref_listErase]
    simp
  simp [erase, hk, hn, updateDataSize, sizeOfThrough, hgone]

theorem updateValue_of_absent (sz : ValueSize V) {t : SnapshotableHashTable V} {key : String}
    (f : V → V) (hk : mapFind t.map key = none) :
    t.updateValue sz key f = .error .assertion_failed := by
  simp only [updateValue, hk]

theorem updateValue_snapshot (sz : ValueSize V) {t : SnapshotableHashTable V} {key : String}
    (f : V → V) {it : Iter} {n : ListNode V} (hk : mapFind t.map key = some it)
    (hn : deref t.list it = some n) (hs : t.snapshot_mode = true) :
    t.updateValue sz key f =
      .ok ({ list := setActive t.list it false ++
               [(freshIter (setActive t.list it false), { n with value := f n.value })],
             map := mapEmplace (mapErase t.map key) n.key (freshIter (setActive t.list it false)),
             snapshot_mode := true,
             approximate_data_size :=
               add64 (add64 t.approximate_data_size (sizeOfString key))
                 (sizeOfV sz (f n.value)) },
           freshIter (setActive t.list it false)) := by
  obtain ⟨l, m, s, a⟩ := t
  simp only at hk hn hs
  subst hs
  simp [updateValue, hk, hn, listInsertEnd, updateDataSize]

theorem updateValue_normal (sz : ValueSize V) {t : SnapshotableHashTable V} {key : String}
    (f : V → V) {it : Iter} {n : ListNode V} (hk : mapFind t.map key = some it)
    (hn : deref t.list it = some n) (hs : t.snapshot_mode = false) :
    t.updateValue sz key f =
      .ok ({ list := setValue t.list it (f n.value),
             map := t.map,
             snapshot_mode := false,
             approximate_data_size :=
               sub64 (sub64 (add64 (add64 t.approximate_data_size (sizeOfString key))
                 (sizeOfV sz (f n.value))) (sizeOfString key)) (sizeOfV sz n.value) },
           it) := by
  obtain ⟨l, m, s, a⟩ := t
  simp only at hk hn hs
  subst hs
  simp [updateValue, hk, hn, updateDataSize]

theorem getValue_eq_ok_iff {t : SnapshotableHashTable V} {key : String} {v : V} :
    t.getValue key = .ok v ↔
      ∃ it n, mapFind t.map key = some it ∧ deref t.list it = some n ∧ n.value = v := by
  unfold getValue
  cases hk : mapFind t.map key with
  | none => simp
  | some it =>
    cases hn : deref t.list it with
    | none => simp [hn]
    | some n => simp [hn]

theorem contains_iff {t : SnapshotableHashTable V} {key : String} :
    t.contains key = true ↔ ∃ it, mapFind t.map key = some it := by
  unfold contains
  cases mapFind t.map key <;> simp

theorem contains_eq_false_iff {t : SnapshotableHashTable V} {key : String} :
    t.contains key = false ↔ mapFind t.map key = none := by
  unfold contains
  cases mapFind t.map key <;> simp

/-! C1 -/

theorem index_eq_of_same_iter {l : NodeList V} (hnd : (l.map Prod.fst).Nodup) {i j : Nat}
    {p q : Iter × ListNode V} (hi : l[i]? = some p) (hj : l[j]? = some q) (h : p.1 = q.1) :
    i = j := by
  have hi' : i < (l.map Prod.fst).length := by
    rw [List.length_map]
    exact (List.getElem?_eq_some_iff.1 hi).1
  apply List.getElem?_inj hi' hnd
  rw [List.getElem?_map, List.getElem?_map, hi, hj]
  simp [h]

theorem sampleReplaced_reachable : Reachable sizeof4 sampleReplaced :=
  ⟨[.insert "a" 1, .enableSnapshotMode, .insertOrReplace "a" 2], rfl⟩

/-- C1: in every state reachable from the empty table the index and the active
nodes of the list correspond one to one. Every index entry of a key `k` denotes
a cell of the list whose node has key `k` and is active; no inactive node is
denoted by an index entry; every active node is the one the index holds for its
own key, so two active nodes with the same key are at the same position; and
neither the index nor the list holds a key, respectively a cell, twice. -/
theorem index_store_invariant (sz : ValueSize V) (t : SnapshotableHashTable V)
    (h : Reachable sz t) :
    (∀ k it, mapFind t.map k = some it →
      ∃ n, (it, n) ∈ t.list ∧ deref t.list it = some n ∧ n.key = k ∧ n.active_in_map = true) ∧
    (∀ it n, (it, n) ∈ t.list → n.active_in_map = false → ∀ k, (k, it) ∉ t.map) ∧
    (∀ it n, (it, n) ∈ t.list → n.active_in_map = true → mapFind t.map n.key = some it) ∧
    (∀ (i j : Nat) (p q : Iter × ListNode V), t.list[i]? = some p → t.list[j]? = some q →
      p.2.active_in_map = true → q.2.active_in_map = true → p.2.key = q.2.key → i = j) ∧
    (t.map.map Prod.fst).Nodup ∧ (t.list.map Prod.fst).Nodup := by
  have hwf := WF_of_reachable h
  refine ⟨?_, ?_, ?_, ?_, hwf.keys_nodup, hwf.iters_nodup⟩
  · intro k it hk
    obtain ⟨n, hn, hkey, hact⟩ := hwf.index_sound k it (lookup_mem hk)
    exact ⟨n, hn, lookup_of_mem_nodup hwf.iters_nodup hn, hkey, hact⟩
  · intro it n hn hact k hk
    obtain ⟨n', hn', _, hact'⟩ := hwf.index_sound k it hk
    have := snd_eq_of_mem_nodup hwf.iters_nodup hn hn'
    subst this
    rw [hact] at hact'
    exact Bool.false_ne_true hact'
  · intro it n hn hact
    exact lookup_of_mem_nodup hwf.keys_nodup (hwf.active_indexed it n hn hact)
  · intro i j p q hp hq hpa hqa hkey
    have hp' := hwf.active_indexed p.1 p.2 (List.getElem?_mem hp) hpa
    have hq' := hwf.active_indexed q.1 q.2 (List.getElem?_mem hq) hqa
    rw [hkey] at hp'
    exact index_eq_of_same_iter hwf.iters_nodup hp hq
      (snd_eq_of_mem_nodup hwf.keys_nodup hp' hq')

/-- C1 at the state after `insert("a",1); enableSnapshotMode(); insertOrReplace("a",2)`:
the index entry of `"a"` denotes the active node `("a", 2)`. -/
theorem index_store_invariant_witness :
    Reachable sizeof4 sampleReplaced ∧
    ∃ n, ((2 : Iter), n) ∈ sampleReplaced.list ∧ deref sampleReplaced.list 2 = some n ∧
      n.key = "a" ∧ n.active_in_map = true :=
  ⟨sampleReplaced_reachable,
    (index_store_invariant sizeof4 sampleReplaced sampleReplaced_reachable).1 "a" 2 rfl⟩

/-! The reference map is simulated -/

theorem findNode_eq_none_iff {t : SnapshotableHashTable V} (h : WF t) (k : String) :
    t.findNode k = none ↔ mapFind t.map k = none :=
  nodeOf_eq_none_iff h k

theorem Sim.mapFind_eq_none_iff {t : SnapshotableHashTable V} {m : RefMap V} (h : Sim t m)
    (k : String) : mapFind t.map k = none ↔ k ∉ m := by
  rw [← findNode_eq_none_iff h.1, ← Finmap.lookup_eq_none, ← h.2 k]
  cases t.findNode k <;> simp

theorem Sim.contains_eq {t : SnapshotableHashTable V} {m : RefMap V} (h : Sim t m)
    (k : String) : t.contains k = decide (k ∈ m) := by
  by_cases hk : k ∈ m
  · have : mapFind t.map k ≠ none := fun hc => (h.mapFind_eq_none_iff k).1 hc hk
    simp only [contains, hk, decide_True]
    cases hm : mapFind t.map k with
    | none => exact absurd hm this
    | some it => rfl
  · have := (h.mapFind_eq_none_iff k).2 hk
    simp [contains, hk, this]

theorem Sim.size_eq {t : SnapshotableHashTable V} {m : RefMap V} (h : Sim t m) :
    t.size = m.keys.card := by
  have hset : (t.map.map Prod.fst).toFinset = m.keys := by
    ext k
    rw [List.mem_toFinset, Finmap.mem_keys]
    constructor
    · intro hk
      by_contra hc
      exact not_mem_of_lookup_eq_none ((h.mapFind_eq_none_iff k).2 hc) hk
    · intro hk
      by_contra hc
      exact (h.mapFind_eq_none_iff k).1 (lookup_eq_none_of_not_mem hc) hk
  rw [← hset, List.toFinset_card_of_nodup h.1.keys_nodup, List.length_map]
  rfl

theorem Sim.getValue_eq {t : SnapshotableHashTable V} {m : RefMap V} (h : Sim t m)
    (k : String) :
    t.getValue k =
      match m.lookup k with
      | none => .error .assertion_failed
      | some v => .ok v := by
  have h2 := h.2 k
  unfold findNode nodeOf at h2
  unfold getValue
  cases hk : mapFind t.map k with
  | none =>
    simp only [hk, Option.map] at h2
    rw [← h2]
  | some it =>
    obtain ⟨n, hn, _, _⟩ := deref_of_mapFind h.1 hk
    simp only [hk, hn, Option.map] at h2
    simp only [hn]
    rw [← h2]

theorem Sim.find_eq {t : SnapshotableHashTable V} {m : RefMap V} (h : Sim t m)
    (k : String) : query t (.find k) = .ok (.found (m.lookup k)) := by
  have h2 := h.2 k
  unfold findNode nodeOf at h2
  unfold query find
  cases hk : mapFind t.map k with
  | none =>
    simp only [hk, Option.map] at h2
    simp only [hk, ← h2]
  | some it =>
    obtain ⟨n, hn, _, _⟩ := deref_of_mapFind h.1 hk
    simp only [hk, hn, Option.map] at h2
    simp only [hk, hn, ← h2]

theorem Sim.empty : Sim (empty : SnapshotableHashTable V) ∅ := by
  refine ⟨WF_empty, fun k => ?_⟩
  rw [Finmap.lookup_empty]
  rfl


theorem findNode_insert_absent (sz : ValueSize V) {t : SnapshotableHashTable V} (h : WF t)
    {key : String} (hk : mapFind t.map key = none) (v : V) (k : String) :
    (t.insert sz key v).1.findNode k =
      if k = key then some ⟨key, v, true⟩ else t.findNode k := by
  rw [insert_of_absent sz v hk]
  exact nodeOf_append h hk _ k

theorem findNode_insertOrReplace (sz : ValueSize V) {t t1 : SnapshotableHashTable V} (h : WF t)
    {key : String} {v : V} (hr : t.insertOrReplace sz key v = .ok t1) (k : String) :
    (t1.findNode k).map (fun n => n.value) =
      if k = key then some v else (t.findNode k).map (fun n => n.value) := by
  cases hk : mapFind t.map key with
  | none =>
    rw [insertOrReplace_of_absent sz v hk] at hr
    cases hr
    simp only [findNode, nodeOf_append h hk]
    by_cases hkk : k = key <;> simp [hkk]
  | some it =>
    obtain ⟨n, hn, _, _⟩ := deref_of_mapFind h hk
    cases hs : t.snapshot_mode
    · rw [insertOrReplace_normal sz v hk hn hs] at hr
      cases hr
      simp only [findNode, nodeOf_setValue h hk hn]
      by_cases hkk : k = key <;> simp [hkk]
    · rw [insertOrReplace_snapshot sz v hk hn hs] at hr
      cases hr
      simp only [findNode, nodeOf_copyOnWrite h hk]
      by_cases hkk : k = key <;> simp [hkk]

theorem findNode_erase (sz : ValueSize V) {t t1 : SnapshotableHashTable V} (h : WF t)
    {key : String} {b : Bool} (hr : t.erase sz key = .ok (t1, b)) (k : String) :
    t1.findNode k = if k = key then none else t.findNode k := by
  cases hk : mapFind t.map key with
  | none =>
    rw [erase_of_absent sz hk] at hr
    cases hr
    by_cases hkk : k = key
    · simp only [hkk, if_true]
      exact (findNode_eq_none_iff h key).2 hk
    · simp [hkk]
  | some it =>
    obtain ⟨n, hn, _, _⟩ := deref_of_mapFind h hk
    cases hs : t.snapshot_mode
    · rw [erase_normal sz hk hn hs] at hr
      cases hr
      exact nodeOf_remove h hk k
    · rw [erase_snapshot sz hk hn hs] at hr
      cases hr
      exact nodeOf_deactivate h hk k

theorem findNode_updateValue (sz : ValueSize V) {t t1 : SnapshotableHashTable V} (h : WF t)
    {key : String} {f : V → V} {r : Iter} (hr : t.updateValue sz key f = .ok (t1, r))
    (k : String) :
    (t1.findNode k).map (fun n => n.value) =
      if k = key then (t.findNode key).map (fun n => f n.value)
      else (t.findNode k).map (fun n => n.value) := by
  cases hk : mapFind t.map key with
  | none =>
    rw [updateValue_of_absent sz f hk] at hr
    cases hr
  | some it =>
    obtain ⟨n, hn, hkey, hact⟩ := deref_of_mapFind h hk
    have hfn : t.findNode key = some n := by
      simp only [findNode, nodeOf, hk, hn]
    cases hs : t.snapshot_mode
    · rw [updateValue_normal sz f hk hn hs] at hr
      cases hr
      simp only [findNode, nodeOf_setValue h hk hn]
      by_cases hkk : k = key
      · simp [hkk, nodeOf, hk, hn]
      · simp [hkk]
    · rw [updateValue_snapshot sz f hk hn hs, hkey, mapEmplace_mapErase] at hr
      cases hr
      simp only [findNode, nodeOf_copyOnWrite h hk]
      by_cases hkk : k = key
      · simp [hkk, nodeOf, hk, hn]
      · simp [hkk]

theorem findNode_clearOutdatedNodes (sz : ValueSize V) {t : SnapshotableHashTable V} (h : WF t)
    (k : String) : (t.clearOutdatedNodes sz).findNode k = t.findNode k := by
  simp only [findNode, clearOutdatedNodes, clearOutdatedNodesLoop_list,
    clearOutdatedNodesLoop_map]
  exact nodeOf_sweep h k


theorem Sim.exists_of_mem {t : SnapshotableHashTable V} {m : RefMap V} (h : Sim t m)
    {k : String} (hk : k ∈ m) :
    ∃ it n, mapFind t.map k = some it ∧ deref t.list it = some n ∧
      m.lookup k = some n.value := by
  cases hm : mapFind t.map k with
  | none => exact absurd hk ((h.mapFind_eq_none_iff k).1 hm)
  | some it =>
    obtain ⟨n, hn, _, _⟩ := deref_of_mapFind h.1 hm
    refine ⟨it, n, rfl, hn, ?_⟩
    rw [← h.2 k]
    simp only [findNode, nodeOf, hm, hn, Option.map]

theorem Sim.step (sz : ValueSize V) {t : SnapshotableHashTable V} {m : RefMap V} (h : Sim t m)
    (op : Op V) :
    (∃ t1 m1 r, stepResult sz t op = .ok (t1, r) ∧ refCall m (.inl op) = .ok (m1, r) ∧
      Sim t1 m1) ∨
    (∃ e, stepResult sz t op = .error e ∧ refCall m (.inl op) = .error e) := by
  cases op with
  | insert key value =>
    left
    by_cases hk : key ∈ m
    · obtain ⟨it, n, hit, _, _⟩ := h.exists_of_mem hk
      refine ⟨t, m, .bool false, ?_, ?_, h⟩
      · simp only [stepResult, insert_of_present sz value hit]
      · simp only [refCall, hk, if_true]
    · have hnone := (h.mapFind_eq_none_iff key).2 hk
      refine ⟨(t.insert sz key value).1, m.insert key value, .bool true, ?_, ?_, ?_⟩
      · simp only [stepResult, insert_of_absent sz value hnone]
      · simp only [refCall, hk, if_false]
      · refine ⟨WF_insert sz h.1 key value, fun k => ?_⟩
        rw [findNode_insert_absent sz h.1 hnone]
        by_cases hkk : k = key
        · subst hkk
          simp
        · simp only [hkk, if_false, Finmap.lookup_insert_of_ne m hkk]
          exact h.2 k
  | insertOrReplace key value =>
    left
    have hok : ∃ t1, t.insertOrReplace sz key value = .ok t1 := by
      cases hk : mapFind t.map key with
      | none => exact ⟨_, insertOrReplace_of_absent sz value hk⟩
      | some it =>
        obtain ⟨n, hn, _, _⟩ := deref_of_mapFind h.1 hk
        cases hs : t.snapshot_mode
        · exact ⟨_, insertOrReplace_normal sz value hk hn hs⟩
        · exact ⟨_, insertOrReplace_snapshot sz value hk hn hs⟩
    obtain ⟨t1, ht1⟩ := hok
    refine ⟨t1, m.insert key value, .done, ?_, rfl, ?_⟩
    · simp only [stepResult, ht1, Except.map]
    · refine ⟨WF_insertOrReplace sz h.1 ht1, fun k => ?_⟩
      rw [findNode_insertOrReplace sz h.1 ht1]
      by_cases hkk : k = key
      · subst hkk
        simp
      · simp only [hkk, if_false, Finmap.lookup_insert_of_ne m hkk]
        exact h.2 k
  | erase key =>
    left
    have hok : ∃ t1, t.erase sz key = .ok (t1, decide (key ∈ m)) := by
      by_cases hk : key ∈ m
      · obtain ⟨it, n, hit, hn, _⟩ := h.exists_of_mem hk
        simp only [hk, decide_True]
        cases hs : t.snapshot_mode
        · exact ⟨_, erase_normal sz hit hn hs⟩
        · exact ⟨_, erase_snapshot sz hit hn hs⟩
      · simp only [hk, decide_False]
        exact ⟨_, erase_of_absent sz ((h.mapFind_eq_none_iff key).2 hk)⟩
    obtain ⟨t1, ht1⟩ := hok
    refine ⟨t1, m.erase key, .bool (decide (key ∈ m)), ?_, rfl, ?_⟩
    · simp only [stepResult, ht1, Except.map]
    · refine ⟨WF_erase sz h.1 ht1, fun k => ?_⟩
      rw [findNode_erase sz h.1 ht1]
      by_cases hkk : k = key
      · subst hkk
        simp [Finmap.lookup_erase]
      · simp only [hkk, if_false, Finmap.lookup_erase_ne hkk]
        exact h.2 k
  | updateValue key f =>
    by_cases hk : key ∈ m
    · left
      obtain ⟨it, n, hit, hn, hlook⟩ := h.exists_of_mem hk
      have hok : ∃ t1 r, t.updateValue sz key f = .ok (t1, r) := by
        cases hs : t.snapshot_mode
        · exact ⟨_, _, updateValue_normal sz f hit hn hs⟩
        · exact ⟨_, _, updateValue_snapshot sz f hit hn hs⟩
      obtain ⟨t1, r, ht1⟩ := hok
      refine ⟨t1, m.insert key (f n.value), .done, ?_, ?_, ?_⟩
      · simp only [stepResult, ht1, Except.map]
      · simp only [refCall, hlook]
      · refine ⟨WF_updateValue sz h.1 ht1, fun k => ?_⟩
        rw [findNode_updateValue sz h.1 ht1]
        by_cases hkk : k = key
        · subst hkk
          simp [findNode, nodeOf, hit, hn]
        · simp only [hkk, if_false, Finmap.lookup_insert_of_ne m hkk]
          exact h.2 k
    · right
      have hnone := (h.mapFind_eq_none_iff key).2 hk
      refine ⟨.assertion_failed, ?_, ?_⟩
      · simp only [stepResult, updateValue_of_absent sz f hnone, Except.map]
      · simp only [refCall, Finmap.lookup_eq_none.2 hk]
  | clearOutdatedNodes =>
    left
    refine ⟨t.clearOutdatedNodes sz, m, .done, rfl, rfl, WF_clearOutdatedNodes sz h.1, fun k => ?_⟩
    rw [findNode_clearOutdatedNodes sz h.1]
    exact h.2 k
  | clear =>
    left
    refine ⟨t.clear, ∅, .done, rfl, rfl, WF_clear t, fun k => ?_⟩
    rw [Finmap.lookup_empty]
    rfl
  | enableSnapshotMode => exact Or.inl ⟨t.enableSnapshotMode, m, .done, rfl, rfl, h⟩
  | disableSnapshotMode => exact Or.inl ⟨t.disableSnapshotMode, m, .done, rfl, rfl, h⟩

theorem Sim.call (sz : ValueSize V) {t : SnapshotableHashTable V} {m : RefMap V} (h : Sim t m)
    (c : Call V) :
    (∃ t1 m1 r, call sz t c = .ok (t1, r) ∧ refCall m c = .ok (m1, r) ∧ Sim t1 m1) ∨
    (∃ e, call sz t c = .error e ∧ refCall m c = .error e) := by
  cases c with
  | inl op => exact h.step sz op
  | inr q =>
    cases q with
    | contains key =>
      exact Or.inl ⟨t, m, .bool (t.contains key), rfl, by simp only [refCall, h.contains_eq], h⟩
    | find key =>
      refine Or.inl ⟨t, m, .found (m.lookup key), ?_, rfl, h⟩
      simp only [SnapshotableHashTable.call, h.find_eq, Except.map]
    | getValue key =>
      cases hl : m.lookup key with
      | none =>
        refine Or.inr ⟨.assertion_failed, ?_, ?_⟩
        · simp only [SnapshotableHashTable.call, query, h.getValue_eq, hl, Except.map]
        · simp only [refCall, hl]
      | some v =>
        refine Or.inl ⟨t, m, .value v, ?_, ?_, h⟩
        · simp only [SnapshotableHashTable.call, query, h.getValue_eq, hl, Except.map]
        · simp only [refCall, hl]
    | size =>
      exact Or.inl ⟨t, m, .count t.size, rfl, by simp only [refCall, h.size_eq], h⟩

theorem Sim.runCalls (sz : ValueSize V) {t : SnapshotableHashTable V} {m : RefMap V} (h : Sim t m)
    (cs : List (Call V)) : runCalls sz t cs = refRunCalls m cs := by
  induction cs generalizing t m with
  | nil => rfl
  | cons c cs ih =>
    rcases h.call sz c with ⟨t1, m1, r, h1, h2, h3⟩ | ⟨e, h1, h2⟩
    · simp only [SnapshotableHashTable.runCalls, refRunCalls, h1, h2, ih h3]
    · simp only [SnapshotableHashTable.runCalls, refRunCalls, h1, h2]

theorem find_not_found_iff {t : SnapshotableHashTable V} (h : WF t) (k : String) :
    query t (.find k) = .ok (.found none) ↔ t.contains k = false := by
  rw [contains_eq_false_iff]
  unfold query find
  cases hk : mapFind t.map k with
  | none => simp [hk]
  | some it =>
    obtain ⟨n, hn, _, _⟩ := deref_of_mapFind h hk
    simp [hk, hn]

/-! C2 -/

/-- C2: the table refines a plain finite map. For every sequence of calls
from the empty table, mutating calls and reading calls in any interleaving with
the snapshot calls and the sweep, the results returned by the table (the
booleans of `insert`, `erase` and `contains`, the value or not-found of `find`,
the value of `getValue`, the count of `size`, and a precondition fault) are
those of the reference map, where `size` is the number of distinct keys; and in
every reachable state `find(k)` is not-found exactly when `contains(k)` is false. -/
theorem refines_reference_map (sz : ValueSize V) :
    (∀ cs : List (Call V), runCalls sz empty cs = refRunCalls (∅ : RefMap V) cs) ∧
    (∀ t : SnapshotableHashTable V, Reachable sz t →
      ∀ k, query t (.find k) = .ok (.found none) ↔ t.contains k = false) :=
  ⟨fun cs => Sim.empty.runCalls sz cs, fun _ ht k => find_not_found_iff (WF_of_reachable ht) k⟩

/-- C2 at the state after `insert("a",1); enableSnapshotMode(); insertOrReplace("a",2)`
and the key `"b"`. -/
theorem refines_reference_map_witness :
    Reachable sizeof4 sampleReplaced ∧
    (query sampleReplaced (.find "b") = .ok (.found none) ↔
      sampleReplaced.contains "b" = false) :=
  ⟨sampleReplaced_reachable,
    (refines_reference_map sizeof4).2 sampleReplaced sampleReplaced_reachable "b"⟩

/-! C3 -/

theorem forall₂_sameOrDeactivated_refl (l : NodeList V) :
    List.Forall₂ sameOrDeactivated l l :=
  List.forall₂_same.2 (fun _ _ => Or.inl rfl)

theorem forall₂_sameOrDeactivated_setActive (l : NodeList V) (it : Iter) :
    List.Forall₂ sameOrDeactivated l (setActive l it false) := by
  unfold setActive
  rw [List.forall₂_map_right_iff]
  apply List.forall₂_same.2
  intro p _
  by_cases h : p.1 = it
  · simp only [h, if_true]
    cases ha : p.2.active_in_map
    · left
      obtain ⟨i, n⟩ := p
      obtain ⟨k, v, a⟩ := n
      simp only at ha h
      subst ha h
      rfl
    · right
      exact ⟨ha, by rw [← h]⟩
  · simp only [h, if_false]
    exact Or.inl rfl

theorem map_keyValue_setActive (l : NodeList V) (it : Iter) (b : Bool) :
    (setActive l it b).map keyValue = l.map keyValue := by
  unfold setActive
  rw [List.map_map]
  apply List.map_congr_left
  intro p _
  by_cases h : p.1 = it <;> simp [h, keyValue]

theorem step_insert_eq (sz : ValueSize V) {t t1 : SnapshotableHashTable V} {key : String} {v : V}
    {b : Bool} (h : t.insert sz key v = (t1, b)) : step sz t (.insert key v) = .ok t1 := by
  simp only [step, h]

theorem step_erase_eq (sz : ValueSize V) {t t1 : SnapshotableHashTable V} {key : String}
    {b : Bool} (h : t.erase sz key = .ok (t1, b)) : step sz t (.erase key) = .ok t1 := by
  simp only [step, h, Except.map]

theorem step_updateValue_eq (sz : ValueSize V) {t t1 : SnapshotableHashTable V} {key : String}
    {f : V → V} {r : Iter} (h : t.updateValue sz key f = .ok (t1, r)) :
    step sz t (.updateValue key f) = .ok t1 := by
  simp only [step, h, Except.map]

/-- C3: in a reachable state with snapshot mode enabled, a single `insert`,
`insertOrReplace`, `erase` or `updateValue` (on a present key) returns, and the
sequence of (key, value) pairs of the list before the call is a prefix of the
one after it: the list after the call is the old cells, in order, each
untouched or only with its flag gone from true to false, followed by at most
one new cell at the tail. -/
theorem snapshot_mode_stability (sz : ValueSize V) (t : SnapshotableHashTable V)
    (h : Reachable sz t) (hs : t.snapshot_mode = true) (op : Op V)
    (hop : op.isKeyMutation = true)
    (hpre : ∀ k f, op = .updateValue k f → t.contains k = true) :
    ∃ t1, step sz t op = .ok t1 ∧
      t.list.map keyValue <+: t1.list.map keyValue ∧
      ∃ old tail, t1.list = old ++ tail ∧ List.Forall₂ sameOrDeactivated t.list old ∧
        tail.length ≤ 1 := by
  have hwf := WF_of_reachable h
  cases op with
  | insert key value =>
    cases hk : mapFind t.map key with
    | none =>
      refine ⟨_, step_insert_eq sz (insert_of_absent sz value hk), ?_, ?_⟩
      · simp only [List.map_append]
        exact List.prefix_append _ _
      · exact ⟨t.list, _, rfl, forall₂_sameOrDeactivated_refl _, by simp⟩
    | some it =>
      refine ⟨t, step_insert_eq sz (insert_of_present sz value hk), List.prefix_refl _, ?_⟩
      exact ⟨t.list, [], by simp, forall₂_sameOrDeactivated_refl _, by simp⟩
  | insertOrReplace key value =>
    cases hk : mapFind t.map key with
    | none =>
      refine ⟨_, insertOrReplace_of_absent sz value hk, ?_, ?_⟩
      · simp only [List.map_append]
        exact List.prefix_append _ _
      · exact ⟨t.list, _, rfl, forall₂_sameOrDeactivated_refl _, by simp⟩
    | some it =>
      obtain ⟨n, hn, _, _⟩ := deref_of_mapFind hwf hk
      refine ⟨_, insertOrReplace_snapshot sz value hk hn hs, ?_, ?_⟩
      · simp only [List.map_append, map_keyValue_setActive]
        exact List.prefix_append _ _
      · exact ⟨_, _, rfl, forall₂_sameOrDeactivated_setActive _ _, by simp⟩
  | erase key =>
    cases hk : mapFind t.map key with
    | none =>
      refine ⟨t, step_erase_eq sz (erase_of_absent sz hk), List.prefix_refl _, ?_⟩
      exact ⟨t.list, [], by simp, forall₂_sameOrDeactivated_refl _, by simp⟩
    | some it =>
      obtain ⟨n, hn, _, _⟩ := deref_of_mapFind hwf hk
      refine ⟨_, step_erase_eq sz (erase_snapshot sz hk hn hs), ?_, ?_⟩
      · simp only [map_keyValue_setActive]
        exact List.prefix_refl _
      · exact ⟨_, [], (List.append_nil _).symm, forall₂_sameOrDeactivated_setActive _ it, by simp⟩
  | updateValue key f =>
    obtain ⟨it, hk⟩ := contains_iff.1 (hpre key f rfl)
    obtain ⟨n, hn, _, _⟩ := deref_of_mapFind hwf hk
    refine ⟨_, step_updateValue_eq sz (updateValue_snapshot sz f hk hn hs), ?_, ?_⟩
    · simp only [List.map_append, map_keyValue_setActive]
      exact List.prefix_append _ _
    · exact ⟨_, _, rfl, forall₂_sameOrDeactivated_setActive _ _, by simp⟩
  | clearOutdatedNodes => simp [Op.isKeyMutation] at hop
  | clear => simp [Op.isKeyMutation] at hop
  | enableSnapshotMode => simp [Op.isKeyMutation] at hop
  | disableSnapshotMode => simp [Op.isKeyMutation] at hop

/-- C3 at the state after `insert("a",1); enableSnapshotMode(); insertOrReplace("a",2)`
and the call `erase("a")`. -/
theorem snapshot_mode_stability_witness :
    Reachable sizeof4 sampleReplaced ∧ sampleReplaced.snapshot_mode = true ∧
    ∃ t1, step sizeof4 sampleReplaced (.erase "a") = .ok t1 ∧
      sampleReplaced.list.map keyValue <+: t1.list.map keyValue ∧
      ∃ old tail, t1.list = old ++ tail ∧
        List.Forall₂ sameOrDeactivated sampleReplaced.list old ∧ tail.length ≤ 1 :=
  ⟨sampleReplaced_reachable, rfl,
    snapshot_mode_stability sizeof4 sampleReplaced sampleReplaced_reachable rfl (.erase "a") rfl
      (fun _ _ hc => by cases hc)⟩

/-! C4 -/

theorem getElem?_setActive (l : NodeList V) (it : Iter) (b : Bool) (i : Nat) :
    (setActive l it b)[i]? =
      (l[i]?).map (fun p => if p.1 = it then (p.1, { p.2 with active_in_map := b }) else p) := by
  unfold setActive
  exact List.getElem?_map _ _ _

theorem getElem?_setActive_self {l : NodeList V} {it : Iter} {n : ListNode V} {i : Nat}
    (h : l[i]? = some (it, n)) (b : Bool) :
    (setActive l it b)[i]? = some (it, { n with active_in_map := b }) := by
  rw [getElem?_setActive, h]
  simp

theorem getElem?_append_old {α : Type} {l : List α} {i : Nat} {a : α} (h : l[i]? = some a)
    (l2 : List α) : (l ++ l2)[i]? = some a := by
  rw [List.getElem?_append_left (List.getElem?_eq_some_iff.1 h).1]
  exact h

theorem getElem?_append_new {α : Type} (l : List α) (a : α) :
    (l ++ [a])[l.length]? = some a := by
  simp

theorem length_setActive (l : NodeList V) (it : Iter) (b : Bool) :
    (setActive l it b).length = l.length := by
  simp [setActive]

theorem length_mapErase_of_mapFind {m : IndexMap} (hnd : (m.map Prod.fst).Nodup) {key : String}
    {it : Iter} (hk : mapFind m key = some it) : (mapErase m key).length + 1 = m.length :=
  length_filter_ne_of_nodup hnd (lookup_mem hk)

theorem getValue_of_findNode {t : SnapshotableHashTable V} {key : String} {n : ListNode V}
    (h : t.findNode key = some n) : t.getValue key = .ok n.value := by
  unfold findNode nodeOf at h
  unfold getValue
  cases hk : mapFind t.map key with
  | none => simp [hk] at h
  | some it =>
    simp only [hk] at h
    simp only [h]

/-- C4: in a reachable state in snapshot mode, `insertOrReplace(k, v)` on a
present key `k` returns and leaves `size()` unchanged, increases
`snapshotSize()` by exactly 1, keeps the old node of `k` at its position with
its key and value and with `active_in_map = false`, leaves every other old cell
as it was, appends the node `(k, v, true)` at the tail, and afterwards `find(k)`
is the iterator of that new node, so that `getValue(k)` is `v`. -/
theorem copy_on_write_replace (sz : ValueSize V) (t : SnapshotableHashTable V)
    (h : Reachable sz t) (hs : t.snapshot_mode = true) (k : String) (v : V)
    (hk : t.contains k = true) :
    ∃ (t1 : SnapshotableHashTable V) (it : Iter) (n0 : ListNode V) (it1 : Iter) (i : Nat),
      t.find k = some it ∧ t.list[i]? = some (it, n0) ∧
      t.insertOrReplace sz k v = .ok t1 ∧
      t1.size = t.size ∧ t1.snapshotSize = t.snapshotSize + 1 ∧
      t1.list[i]? = some (it, { n0 with active_in_map := false }) ∧
      (∀ (j : Nat) (p : Iter × ListNode _), j ≠ i → t.list[j]? = some p → t1.list[j]? = some p) ∧
      t1.list[t.list.length]? = some (it1, ⟨k, v, true⟩) ∧
      t1.find k = some it1 ∧ t1.findNode k = some ⟨k, v, true⟩ ∧
      t1.getValue k = .ok v ∧ t1.snapshot_mode = true := by
  have hwf := WF_of_reachable h
  obtain ⟨it, hit⟩ := contains_iff.1 hk
  obtain ⟨n0, hn0, _, _⟩ := hwf.index_sound k it (lookup_mem hit)
  have hd : deref t.list it = some n0 := lookup_of_mem_nodup hwf.iters_nodup hn0
  obtain ⟨i, hi⟩ := List.mem_iff_getElem?.1 hn0
  have hr := insertOrReplace_snapshot sz v hit hd hs
  have hfn : ∀ t1, t.insertOrReplace sz k v = .ok t1 → t1.findNode k = some ⟨k, v, true⟩ := by
    intro t1 ht1
    rw [hr] at ht1
    cases ht1
    simp only [findNode, nodeOf_copyOnWrite hwf hit, if_true]
  refine ⟨_, it, n0, freshIter (setActive t.list it false), i, hit, hi, hr, ?_, ?_, ?_, ?_, ?_,
    ?_, hfn _ hr, getValue_of_findNode (hfn _ hr), rfl⟩
  · simp only [size, List.length_append, List.length_singleton]
    exact length_mapErase_of_mapFind hwf.keys_nodup hit
  · simp only [snapshotSize, List.length_append, List.length_singleton, length_setActive]
  · exact getElem?_append_old (getElem?_setActive_self hi false) _
  · intro j p hj hp
    apply getElem?_append_old
    rw [getElem?_setActive, hp]
    have hne : p.1 ≠ it := by
      intro hc
      exact hj (index_eq_of_same_iter hwf.iters_nodup hp hi hc)
    simp [hne]
  · have := getElem?_append_new (setActive t.list it false)
      (freshIter (setActive t.list it false), (⟨k, v, true⟩ : ListNode V))
    rw [length_setActive] at this
    exact this
  · simp only [find, mapFind_append_single, mapFind_mapErase_self, Option.or, if_true]

/-- C4 on the scenario `insertOrReplace("a",1); enableSnapshotMode(); insertOrReplace("a",2)`:
afterwards `getValue("a")` is 2, `size()` is 1 and `snapshotSize()` is 2. -/
theorem copy_on_write_replace_witness :
    (Reachable sizeof4 sampleSnapshot ∧ sampleSnapshot.snapshot_mode = true ∧
      sampleSnapshot.contains "a" = true) ∧
    (∃ (t1 : SnapshotableHashTable Nat) (it : Iter) (n0 : ListNode Nat) (it1 : Iter) (i : Nat),
      sampleSnapshot.find "a" = some it ∧ sampleSnapshot.list[i]? = some (it, n0) ∧
      sampleSnapshot.insertOrReplace sizeof4 "a" 2 = .ok t1 ∧
      t1.size = sampleSnapshot.size ∧ t1.snapshotSize = sampleSnapshot.snapshotSize + 1 ∧
      t1.list[i]? = some (it, { n0 with active_in_map := false }) ∧
      (∀ (j : Nat) (p : Iter × ListNode _), j ≠ i → sampleSnapshot.list[j]? = some p → t1.list[j]? = some p) ∧
      t1.list[sampleSnapshot.list.length]? = some (it1, ⟨"a", 2, true⟩) ∧
      t1.find "a" = some it1 ∧ t1.findNode "a" = some ⟨"a", 2, true⟩ ∧
      t1.getValue "a" = .ok 2 ∧ t1.snapshot_mode = true) ∧
    (runOps sizeof4 empty
        [.insertOrReplace "a" 1, .enableSnapshotMode, .insertOrReplace "a" 2]).map
      (fun t1 => (t1.getValue "a", t1.size, t1.snapshotSize)) = .ok (.ok 2, 1, 2) :=
  have hr : Reachable sizeof4 sampleSnapshot :=
    ⟨[.insertOrReplace "a" 1, .enableSnapshotMode], rfl⟩
  ⟨⟨hr, rfl, rfl⟩, copy_on_write_replace sizeof4 sampleSnapshot hr rfl "a" 2 rfl, rfl⟩

/-! C5 -/

theorem length_active_eq_length_index {l : NodeList V} {m : IndexMap} (h : Inv l m) :
    (l.filter (fun p => p.2.active_in_map)).length = m.length := by
  have hperm : ((l.filter (fun p => p.2.active_in_map)).map (fun p => (p.2.key, p.1))).Perm m := by
    apply (List.perm_ext_iff_of_nodup ?_ ?_).2
    · intro x
      obtain ⟨k, it⟩ := x
      constructor
      · intro hx
        obtain ⟨p, hp, heq⟩ := List.mem_map.1 hx
        obtain ⟨hpl, hact⟩ := List.mem_filter.1 hp
        cases heq
        exact h.active_indexed p.1 p.2 hpl hact
      · intro hx
        obtain ⟨n, hn, hkey, hact⟩ := h.index_sound k it hx
        exact List.mem_map.2 ⟨(it, n), List.mem_filter.2 ⟨hn, hact⟩, by simp [hkey]⟩
    · have hnd : ((l.filter (fun p => p.2.active_in_map)).map Prod.fst).Nodup :=
        nodup_map_fst_filter _ h.iters_nodup
      apply List.Nodup.of_map Prod.snd
      rw [List.map_map]
      exact hnd
    · exact List.Nodup.of_map Prod.fst h.keys_nodup
  rw [← hperm.length_eq, List.length_map]

/-- C5: in every state reachable from the empty table, after
`clearOutdatedNodes()` it holds that `snapshotSize() == size()` and every node
left in the list is active. -/
theorem sweep_reconciles_counts (sz : ValueSize V) (t : SnapshotableHashTable V)
    (h : Reachable sz t) :
    (t.clearOutdatedNodes sz).snapshotSize = (t.clearOutdatedNodes sz).size ∧
    ∀ p ∈ (t.clearOutdatedNodes sz).list, p.2.active_in_map = true := by
  have hwf := WF_of_reachable h
  simp only [snapshotSize, size, clearOutdatedNodes, clearOutdatedNodesLoop_list,
    clearOutdatedNodesLoop_map]
  exact ⟨length_active_eq_length_index hwf, fun p hp => (List.mem_filter.1 hp).2⟩

/-- C5 on the scenario `insert("a",1); insert("a",2); enableSnapshotMode();
insertOrReplace("a",2); disableSnapshotMode(); clearOutdatedNodes()`: it ends
with `snapshotSize() == 1`. -/
theorem sweep_reconciles_counts_witness :
    Reachable sizeof4 sampleScenario ∧
    (sampleScenario.clearOutdatedNodes sizeof4).snapshotSize = 1 ∧
    (sampleScenario.clearOutdatedNodes sizeof4).size = 1 ∧
    ∀ p ∈ (sampleScenario.clearOutdatedNodes sizeof4).list, p.2.active_in_map = true :=
  have hr : Reachable sizeof4 sampleScenario :=
    ⟨[.insert "a" 1, .insert "a" 2, .enableSnapshotMode, .insertOrReplace "a" 2,
      .disableSnapshotMode], rfl⟩
  have hc := sweep_reconciles_counts sizeof4 sampleScenario hr
  ⟨hr, hc.1.trans rfl, rfl, hc.2⟩

/-! C6 -/

theorem insertOrReplace_counter_of_absent_or_snapshot (sz : ValueSize V)
    (t : SnapshotableHashTable V) (k : String) (v : V)
    (h : t.contains k = false ∨ (t.snapshot_mode = true ∧ ∃ v0, t.getValue k = .ok v0)) :
    ∃ t1, t.insertOrReplace sz k v = .ok t1 ∧
      t1.approximate_data_size =
        (t.approximate_data_size + sizeOfString k + sizeOfV sz v) % UInt64_size := by
  rcases h with h | ⟨hs, v0, hv⟩
  · exact ⟨_, insertOrReplace_of_absent sz v (contains_eq_false_iff.1 h), add64_add64 _ _ _⟩
  · obtain ⟨it, n, hk, hn, _⟩ := getValue_eq_ok_iff.1 hv
    exact ⟨_, insertOrReplace_snapshot sz v hk hn hs, add64_add64 _ _ _⟩

theorem insertOrReplace_counter_of_present_normal (sz : ValueSize V)
    (t : SnapshotableHashTable V) (k : String) (v v0 : V) (hv : t.getValue k = .ok v0)
    (hs : t.snapshot_mode = false) :
    ∃ t1, t.insertOrReplace sz k v = .ok t1 ∧
      (sizeOfV sz v0 ≠ 0 →
        (t1.approximate_data_size + sizeOfV sz v0) % UInt64_size =
          (t.approximate_data_size + 2 * sizeOfString k + sizeOfV sz v) % UInt64_size) ∧
      (sizeOfV sz v0 = 0 →
        t1.approximate_data_size =
          (t.approximate_data_size + sizeOfString k + sizeOfV sz v) % UInt64_size) := by
  obtain ⟨it, n, hk, hn, hval⟩ := getValue_eq_ok_iff.1 hv
  subst hval
  refine ⟨_, insertOrReplace_normal sz v hk hn hs, ?_, ?_⟩
  · intro h0
    simp only [h0, ne_eq, not_false_eq_true, if_true]
    simp only [sub64, add64, sizeOfString, UInt64_size]
    omega
  · intro h0
    simp only [h0, ne_eq, not_true_eq_false, if_false]
    exact add64_add64 _ _ _

/-- C6 at the failing input: on the table after `insert("a",1)` with four-byte
values, outside snapshot mode, `insertOrReplace("a",2)` takes the counter from
5 to 7, that is by `2 * size(k) + size(v) - size(old)`, and not to the 6 that
`size(k) + size(v) - size(old)` gives. -/
theorem insertOrReplace_accounting_failing_input :
    Reachable sizeof4 sampleInserted ∧
    sampleInserted.getValue "a" = .ok 1 ∧ sampleInserted.snapshot_mode = false ∧
    (sampleInserted.insertOrReplace sizeof4 "a" 2).map (fun t1 => t1.approximate_data_size)
      = .ok 7 ∧
    (7 + sizeOfV sizeof4 1) % UInt64_size ≠
      (sampleInserted.approximate_data_size + sizeOfString "a" + sizeOfV sizeof4 2)
        % UInt64_size :=
  ⟨⟨[.insert "a" 1], rfl⟩, rfl, rfl, rfl, by decide⟩

/-! C7 -/

/-- C7 fails at a concrete input: on the table after `insert("a",1)` with
four-byte values, outside snapshot mode, `updateValue("a", id)` leaves the
counter at 5, whereas `size(k) + size(f(old)) - size(old)` would take it to 6. -/
theorem updateValue_accounting_counterexample :
    sampleInserted.getValue "a" = .ok 1 ∧ sampleInserted.snapshot_mode = false ∧
    (sampleInserted.updateValue sizeof4 "a" (fun v => v)).map
      (fun r => r.1.approximate_data_size) = .ok 5 ∧
    ¬ ((5 + sizeOfV sizeof4 1) % UInt64_size =
      (sampleInserted.approximate_data_size + sizeOfString "a" + sizeOfV sizeof4 1)
        % UInt64_size) :=
  ⟨rfl, rfl, rfl, by decide⟩

/-- C7, amended: for every state, every key `k` present with value `v0` and
every updater `f`, `updateValue(k, f)` returns and changes
`approximate_data_size`, modulo `2^64`, by exactly `size(k) + size(f(v0))` in
snapshot mode and by exactly `size(f(v0)) - size(v0)` outside snapshot mode: the
key size that was added is subtracted again together with the prior value's size. -/
theorem updateValue_accounting (sz : ValueSize V) (t : SnapshotableHashTable V) (k : String)
    (f : V → V) (v0 : V) (hv : t.getValue k = .ok v0) :
    ∃ t1 it, t.updateValue sz k f = .ok (t1, it) ∧
      t1.approximate_data_size < UInt64_size ∧
      (t.snapshot_mode = true →
        t1.approximate_data_size =
          (t.approximate_data_size + sizeOfString k + sizeOfV sz (f v0)) % UInt64_size) ∧
      (t.snapshot_mode = false →
        (t1.approximate_data_size + sizeOfV sz v0) % UInt64_size =
          (t.approximate_data_size + sizeOfV sz (f v0)) % UInt64_size) := by
  obtain ⟨it, n, hk, hn, hval⟩ := getValue_eq_ok_iff.1 hv
  subst hval
  cases hs : t.snapshot_mode
  · refine ⟨_, _, updateValue_normal sz f hk hn hs, ?_, ?_, ?_⟩
    · simp only [sub64, UInt64_size]
      omega
    · intro hc
      cases hc
    · intro _
      simp only [sub64, add64, sizeOfString, UInt64_size]
      omega
  · refine ⟨_, _, updateValue_snapshot sz f hk hn hs, ?_, ?_, ?_⟩
    · simp only [add64, UInt64_size]
      omega
    · intro _
      exact add64_add64 _ _ _
    · intro hc
      cases hc

/-- C7, amended, at the table after `insert("a",1)` and the identity updater. -/
theorem updateValue_accounting_witness :
    sampleInserted.getValue "a" = .ok 1 ∧
    ∃ t1 it, sampleInserted.updateValue sizeof4 "a" (fun v => v) = .ok (t1, it) ∧
      t1.approximate_data_size < UInt64_size ∧
      (sampleInserted.snapshot_mode = true →
        t1.approximate_data_size =
          (sampleInserted.approximate_data_size + sizeOfString "a" + sizeOfV sizeof4 1)
            % UInt64_size) ∧
      (sampleInserted.snapshot_mode = false →
        (t1.approximate_data_size + sizeOfV sizeof4 1) % UInt64_size =
          (sampleInserted.approximate_data_size + sizeOfV sizeof4 1) % UInt64_size) :=
  ⟨rfl, updateValue_accounting sizeof4 sampleInserted "a" (fun v => v) 1 rfl⟩

/-! C8 -/

theorem insert_of_absent_lookup (sz : ValueSize V) {t : SnapshotableHashTable V} {k : String}
    (v : V) (hk : mapFind t.map k = none) :
    (t.insert sz k v).2 = true ∧ (t.insert sz k v).1.find k = some (freshIter t.list) ∧
    (t.insert sz k v).1.contains k = true ∧ (t.insert sz k v).1.getValue k = .ok v := by
  have hfind : mapFind (t.map ++ [(k, freshIter t.list)]) k = some (freshIter t.list) := by
    rw [mapFind_append_single, hk]
    simp
  rw [insert_of_absent sz v hk]
  refine ⟨rfl, hfind, contains_iff.2 ⟨_, hfind⟩, ?_⟩
  simp only [getValue, hfind, deref_append_fresh]


/-- C8: for every state, in either mode, and every key `k` that is not in the
index, `insert(k, v)` returns true, appends exactly one cell, a new one holding
the node `(k, v, true)`, at the tail of the list and leaves the earlier cells as
they were, makes `contains(k)` true and `getValue(k)` equal to `v`, increases
`size()` and `snapshotSize()` by 1 each, and increases `approximate_data_size`
by `size(k) + size(v)` modulo `2^64`. -/
theorem insert_absent (sz : ValueSize V) (t : SnapshotableHashTable V) (k : String) (v : V)
    (hk : t.contains k = false) :
    ∃ (t1 : SnapshotableHashTable V) (it : Iter),
      t.insert sz k v = (t1, true) ∧
      t1.list = t.list ++ [(it, ⟨k, v, true⟩)] ∧ it ∉ t.list.map Prod.fst ∧
      t1.contains k = true ∧ t1.find k = some it ∧ t1.getValue k = .ok v ∧
      t1.size = t.size + 1 ∧ t1.snapshotSize = t.snapshotSize + 1 ∧
      t1.approximate_data_size =
        (t.approximate_data_size + sizeOfString k + sizeOfV sz v) % UInt64_size ∧
      t1.snapshot_mode = t.snapshot_mode := by
  have hnone := contains_eq_false_iff.1 hk
  obtain ⟨_, hfind, hcont, hget⟩ := insert_of_absent_lookup sz v hnone
  rw [insert_of_absent sz v hnone] at hfind hcont hget
  refine ⟨_, freshIter t.list, insert_of_absent sz v hnone, rfl, freshIter_not_mem t.list,
    hcont, hfind, hget, ?_, ?_, add64_add64 _ _ _, rfl⟩
  · simp only [size, List.length_append, List.length_singleton]
  · simp only [snapshotSize, List.length_append, List.length_singleton]

/-- C8 at the empty table: `insert("a", 1)`. -/
theorem insert_absent_witness :
    sampleEmpty.contains "a" = false ∧
    ∃ (t1 : SnapshotableHashTable Nat) (it : Iter),
      sampleEmpty.insert sizeof4 "a" 1 = (t1, true) ∧
      t1.list = sampleEmpty.list ++ [(it, ⟨"a", 1, true⟩)] ∧
      it ∉ sampleEmpty.list.map Prod.fst ∧
      t1.contains "a" = true ∧ t1.find "a" = some it ∧ t1.getValue "a" = .ok 1 ∧
      t1.size = sampleEmpty.size + 1 ∧ t1.snapshotSize = sampleEmpty.snapshotSize + 1 ∧
      t1.approximate_data_size =
        (sampleEmpty.approximate_data_size + sizeOfString "a" + sizeOfV sizeof4 1)
          % UInt64_size ∧
      t1.snapshot_mode = sampleEmpty.snapshot_mode :=
  ⟨rfl, insert_absent sizeof4 sampleEmpty "a" 1 rfl⟩

/-! C9 -/

/-- C9: expected absence is a no-op reported by the return value. For every
state, `insert(k, v2)` on a present key returns false and `erase(k)` on an
absent key returns false, and in both cases the table (list, index, snapshot
flag, counter) is unchanged; so after `insert(k, v1)` a further `insert(k, v2)`
returns false and changes nothing, and `getValue(k)` is still the `v1` that the
first call inserted. -/
theorem expected_absence_noop (sz : ValueSize V) (t : SnapshotableHashTable V) (k : String) :
    (∀ v2, t.contains k = true → t.insert sz k v2 = (t, false)) ∧
    (t.contains k = false → t.erase sz k = .ok (t, false)) ∧
    (∀ v1 v2, (t.insert sz k v1).1.insert sz k v2 = ((t.insert sz k v1).1, false) ∧
      ((t.insert sz k v1).2 = true →
        ((t.insert sz k v1).1.insert sz k v2).1.getValue k = .ok v1)) := by
  have hpresent : ∀ (u : SnapshotableHashTable V) v2, u.contains k = true →
      u.insert sz k v2 = (u, false) := by
    intro u v2 hc
    obtain ⟨it, hit⟩ := contains_iff.1 hc
    exact insert_of_present sz v2 hit
  refine ⟨hpresent t, fun hc => erase_of_absent sz (contains_eq_false_iff.1 hc), ?_⟩
  intro v1 v2
  have hc1 : (t.insert sz k v1).1.contains k = true := by
    cases hc : t.contains k
    · exact (insert_of_absent_lookup sz v1 (contains_eq_false_iff.1 hc)).2.2.1
    · rw [hpresent t v1 hc]
      exact hc
  refine ⟨hpresent _ v2 hc1, ?_⟩
  intro hret
  rw [hpresent _ v2 hc1]
  cases hc : t.contains k
  · exact (insert_of_absent_lookup sz v1 (contains_eq_false_iff.1 hc)).2.2.2
  · rw [hpresent t v1 hc] at hret
    cases hret

/-- C9 at the table after `insert("a",1)`: a second `insert("a",2)` and an
`erase("b")` change nothing. -/
theorem expected_absence_noop_witness :
    sampleInserted.contains "a" = true ∧ sampleInserted.contains "b" = false ∧
    sampleInserted.insert sizeof4 "a" 2 = (sampleInserted, false) ∧
    sampleInserted.erase sizeof4 "b" = .ok (sampleInserted, false) ∧
    (sampleEmpty.insert sizeof4 "a" 1).2 = true ∧
    ((sampleEmpty.insert sizeof4 "a" 1).1.insert sizeof4 "a" 2).1.getValue "a" = .ok 1 :=
  ⟨rfl, rfl, (expected_absence_noop sizeof4 sampleInserted "a").1 2 rfl,
    (expected_absence_noop sizeof4 sampleInserted "b").2.1 rfl, rfl,
    ((expected_absence_noop sizeof4 sampleEmpty "a").2.2 1 2).2 rfl⟩

/-! C10 -/

/-- C10: in a reachable state in snapshot mode, `erase(k)` on a present key
returns true; afterwards `contains(k)` is false, `size()` has decreased by
exactly 1, `snapshotSize()` is unchanged, the cell that held `k` is still at the
same position of the list with the same key and value but with
`active_in_map = false`, every other cell is as it was, and
`approximate_data_size` is unchanged. -/
theorem erase_snapshot_retains_node (sz : ValueSize V) (t : SnapshotableHashTable V)
    (h : Reachable sz t) (hs : t.snapshot_mode = true) (k : String)
    (hk : t.contains k = true) :
    ∃ (t1 : SnapshotableHashTable V) (it : Iter) (n0 : ListNode V) (i : Nat),
      t.find k = some it ∧ t.list[i]? = some (it, n0) ∧ n0.key = k ∧
      t.erase sz k = .ok (t1, true) ∧
      t1.contains k = false ∧ t1.size + 1 = t.size ∧ t1.snapshotSize = t.snapshotSize ∧
      t1.list[i]? = some (it, { n0 with active_in_map := false }) ∧
      (∀ (j : Nat) (p : Iter × ListNode V), j ≠ i → t.list[j]? = some p →
        t1.list[j]? = some p) ∧
      t1.approximate_data_size = t.approximate_data_size ∧ t1.snapshot_mode = true := by
  have hwf := WF_of_reachable h
  obtain ⟨it, hit⟩ := contains_iff.1 hk
  obtain ⟨n0, hn0, hkey, _⟩ := hwf.index_sound k it (lookup_mem hit)
  have hd : deref t.list it = some n0 := lookup_of_mem_nodup hwf.iters_nodup hn0
  obtain ⟨i, hi⟩ := List.mem_iff_getElem?.1 hn0
  refine ⟨_, it, n0, i, hit, hi, hkey, erase_snapshot sz hit hd hs, ?_, ?_, ?_, ?_, ?_, rfl, rfl⟩
  · exact contains_eq_false_iff.2 (mapFind_mapErase_self t.map k)
  · exact length_mapErase_of_mapFind hwf.keys_nodup hit
  · simp only [snapshotSize, length_setActive]
  · exact getElem?_setActive_self hi false
  · intro j p hj hp
    rw [getElem?_setActive, hp]
    have hne : p.1 ≠ it := by
      intro hc
      exact hj (index_eq_of_same_iter hwf.iters_nodup hp hi hc)
    simp [hne]

/-- C10 at the state after `insertOrReplace("a",1); enableSnapshotMode()` and the key `"a"`. -/
theorem erase_snapshot_retains_node_witness :
    (Reachable sizeof4 sampleSnapshot ∧ sampleSnapshot.snapshot_mode = true ∧
      sampleSnapshot.contains "a" = true) ∧
    ∃ (t1 : SnapshotableHashTable Nat) (it : Iter) (n0 : ListNode Nat) (i : Nat),
      sampleSnapshot.find "a" = some it ∧ sampleSnapshot.list[i]? = some (it, n0) ∧
      n0.key = "a" ∧ sampleSnapshot.erase sizeof4 "a" = .ok (t1, true) ∧
      t1.contains "a" = false ∧ t1.size + 1 = sampleSnapshot.size ∧
      t1.snapshotSize = sampleSnapshot.snapshotSize ∧
      t1.list[i]? = some (it, { n0 with active_in_map := false }) ∧
      (∀ (j : Nat) (p : Iter × ListNode Nat), j ≠ i → sampleSnapshot.list[j]? = some p →
        t1.list[j]? = some p) ∧
      t1.approximate_data_size = sampleSnapshot.approximate_data_size ∧
      t1.snapshot_mode = true :=
  have hr : Reachable sizeof4 sampleSnapshot :=
    ⟨[.insertOrReplace "a" 1, .enableSnapshotMode], rfl⟩
  ⟨⟨hr, rfl, rfl⟩, erase_snapshot_retains_node sizeof4 sampleSnapshot hr rfl "a" rfl⟩

/-! C11 -/

theorem listErase_of_split {pre post : NodeList V} {it : Iter} {n : ListNode V}
    (hnd : ((pre ++ (it, n) :: post).map Prod.fst).Nodup) :
    listErase (pre ++ (it, n) :: post) it = pre ++ post := by
  have hnd' := hnd
  simp only [List.map_append, List.map_cons] at hnd'
  have hpre : ∀ p ∈ pre, p.1 ≠ it := by
    intro p hp hc
    have h1 : it ∈ pre.map Prod.fst := hc ▸ List.mem_map_of_mem Prod.fst hp
    exact (List.nodup_append.1 hnd').2.2 h1 (List.mem_cons_self _ _)
  have hpost : ∀ p ∈ post, p.1 ≠ it := by
    intro p hp hc
    have h1 : it ∈ post.map Prod.fst := hc ▸ List.mem_map_of_mem Prod.fst hp
    exact (List.nodup_cons.1 (List.nodup_append.1 hnd').2.1).1 h1
  unfold listErase
  rw [List.filter_append, List.filter_cons]
  have e1 : pre.filter (fun p => p.1 != it) = pre :=
    List.filter_eq_self.2 (fun p hp => by simpa using hpre p hp)
  have e2 : post.filter (fun p => p.1 != it) = post :=
    List.filter_eq_self.2 (fun p hp => by simpa using hpost p hp)
  rw [e1, e2]
  simp

theorem length_listErase_of_mem {l : NodeList V} (hnd : (l.map Prod.fst).Nodup) {it : Iter}
    {n : ListNode V} (h : (it, n) ∈ l) : (listErase l it).length + 1 = l.length :=
  length_filter_ne_of_nodup hnd h

theorem getElem?_setValue (l : NodeList V) (it : Iter) (v : V) (i : Nat) :
    (setValue l it v)[i]? =
      (l[i]?).map (fun p => if p.1 = it then (p.1, { p.2 with value := v }) else p) := by
  unfold setValue
  exact List.getElem?_map _ _ _

theorem getElem?_setValue_self {l : NodeList V} {it : Iter} {n : ListNode V} {i : Nat}
    (h : l[i]? = some (it, n)) (v : V) :
    (setValue l it v)[i]? = some (it, { n with value := v }) := by
  rw [getElem?_setValue, h]
  simp

theorem getElem?_setValue_other {l : NodeList V} (hnd : (l.map Prod.fst).Nodup) {it : Iter}
    {n : ListNode V} {i : Nat} (h : l[i]? = some (it, n)) (v : V) {j : Nat}
    {p : Iter × ListNode V} (hj : j ≠ i) (hp : l[j]? = some p) :
    (setValue l it v)[j]? = some p := by
  rw [getElem?_setValue, hp]
  have hne : p.1 ≠ it := fun hc => hj (index_eq_of_same_iter hnd hp h hc)
  simp [hne]

theorem getElem?_setActive_other {l : NodeList V} (hnd : (l.map Prod.fst).Nodup) {it : Iter}
    {n : ListNode V} {i : Nat} (h : l[i]? = some (it, n)) (b : Bool) {j : Nat}
    {p : Iter × ListNode V} (hj : j ≠ i) (hp : l[j]? = some p) :
    (setActive l it b)[j]? = some p := by
  rw [getElem?_setActive, hp]
  have hne : p.1 ≠ it := fun hc => hj (index_eq_of_same_iter hnd hp h hc)
  simp [hne]

theorem length_setValue (l : NodeList V) (it : Iter) (v : V) :
    (setValue l it v).length = l.length := by
  simp [setValue]

theorem map_frame_setValue (l : NodeList V) (it : Iter) (v : V) :
    (setValue l it v).map (fun p => (p.1, p.2.key, p.2.active_in_map)) =
      l.map (fun p => (p.1, p.2.key, p.2.active_in_map)) := by
  unfold setValue
  rw [List.map_map]
  apply List.map_congr_left
  intro p _
  by_cases h : p.1 = it <;> simp [h]

/-- Outside snapshot mode, in a reachable state, `erase(k)` on a present key
returns true and removes exactly the cell that the index held for `k` from the
list, the other cells keeping their contents and their order; afterwards
`contains(k)` is false and `size()` and `snapshotSize()` have decreased by 1
each. The counter has decreased, modulo `2^64`, by `size(k)` plus what
`sizeOf<V>(&list_itr->value)` yields after `list.erase(list_itr)`; that is the
size of the erased value when the overload does not read the object. -/
theorem erase_normal_removes_node (sz : ValueSize V) (t : SnapshotableHashTable V)
    (h : Reachable sz t) (hs : t.snapshot_mode = false) (k : String)
    (hk : t.contains k = true) :
    ∃ (t1 : SnapshotableHashTable V) (it : Iter) (n0 : ListNode V) (pre post : NodeList V),
      t.find k = some it ∧ t.list = pre ++ (it, n0) :: post ∧ n0.key = k ∧
      t.erase sz k = .ok (t1, true) ∧ t1.list = pre ++ post ∧
      t1.contains k = false ∧ t1.size + 1 = t.size ∧ t1.snapshotSize + 1 = t.snapshotSize ∧
      (t1.approximate_data_size + sizeOfString k + sizeOfErased sz n0) % UInt64_size =
        t.approximate_data_size % UInt64_size ∧
      (sz.readsObject = false →
        (t1.approximate_data_size + sizeOfString k + sizeOfV sz n0.value) % UInt64_size =
          t.approximate_data_size % UInt64_size) ∧
      t1.approximate_data_size < UInt64_size ∧ t1.snapshot_mode = false := by
  have hwf := WF_of_reachable h
  obtain ⟨it, hit⟩ := contains_iff.1 hk
  obtain ⟨n0, hn0, hkey, _⟩ := hwf.index_sound k it (lookup_mem hit)
  have hd : deref t.list it = some n0 := lookup_of_mem_nodup hwf.iters_nodup hn0
  obtain ⟨pre, post, hsplit⟩ := List.append_of_mem hn0
  have hnd := hwf.iters_nodup
  rw [hsplit] at hnd
  refine ⟨_, it, n0, pre, post, hit, hsplit, hkey, erase_normal sz hit hd hs, ?_, ?_, ?_, ?_,
    sub64_sub64 _ _ _, ?_, ?_, rfl⟩
  · simp only [hsplit]
    exact listErase_of_split hnd
  · exact contains_eq_false_iff.2 (mapFind_mapErase_self t.map k)
  · exact length_mapErase_of_mapFind hwf.keys_nodup hit
  · exact length_listErase_of_mem hwf.iters_nodup hn0
  · intro hsz
    rw [← sizeOfErased_eq_of_not_readsObject hsz n0]
    exact sub64_sub64 _ _ _
  · simp only [sub64, UInt64_size]
    omega

/-- C11 at the failing input: `std::string` values, the table after
`insert("key","hello")` with the counter at 8, snapshot mode off, and the call
`erase("key")`. The call returns true and empties the list, and the counter
decreases by the key size 3 plus `r`, where `r` is what `size()` yields on the
node that `list.erase` has already destroyed, not by 3 plus the size 5 of the
erased value: with a read of 0 the counter is 5, and it is the 0 of the claim
only with a read of 5. -/
theorem erase_normal_counter_failing_input :
    (∀ r, Reachable (sizeOfStdString r) sampleStringInserted) ∧
    sampleStringInserted.snapshot_mode = false ∧
    sampleStringInserted.getValue "key" = .ok "hello" ∧
    sizeOfString "key" = 3 ∧ (∀ r, sizeOfV (sizeOfStdString r) "hello" = 5) ∧
    (∀ r, ∃ t1, sampleStringInserted.erase (sizeOfStdString r) "key" = .ok (t1, true) ∧
      t1.list = [] ∧
      (t1.approximate_data_size + 3 + r) % UInt64_size =
        sampleStringInserted.approximate_data_size % UInt64_size) ∧
    (sampleStringInserted.erase (sizeOfStdString 0) "key").map
      (fun p => p.1.approximate_data_size) = .ok 5 ∧
    (sampleStringInserted.erase (sizeOfStdString 5) "key").map
      (fun p => p.1.approximate_data_size) = .ok 0 ∧
    ¬ ((5 + sizeOfString "key" + sizeOfV (sizeOfStdString 0) "hello") % UInt64_size =
      sampleStringInserted.approximate_data_size % UInt64_size) := by
  refine ⟨fun _ => ⟨[.insert "key" "hello"], rfl⟩, rfl, rfl, by decide, fun _ => rfl, ?_, rfl,
    rfl, by decide⟩
  intro r
  have hk : mapFind sampleStringInserted.map "key" = some 1 := rfl
  have hn : deref sampleStringInserted.list 1 = some ⟨"key", "hello", true⟩ := rfl
  refine ⟨_, erase_normal (sizeOfStdString r) hk hn rfl, rfl, ?_⟩
  have h3 : sizeOfString "key" = 3 := by decide
  have h := sub64_sub64 sampleStringInserted.approximate_data_size (sizeOfString "key")
    (sizeOfErased (sizeOfStdString r) ⟨"key", "hello", true⟩)
  rw [h3] at h ⊢
  simp only [sizeOfErased, sizeOfStdString] at h ⊢
  simp only [UInt64_size] at h ⊢
  omega

/-! C12 -/

/-- C12: in a reachable state with snapshot mode disabled, `insertOrReplace(k, v)`
on a present key makes no new cell: `size()` and `snapshotSize()` are unchanged,
the list has the same cells in the same order with the same keys and flags, the
only field that changes is the value of the cell the index holds for `k`, which
becomes `v`, and the index is unchanged, so it still denotes that cell. -/
theorem replace_in_place_normal (sz : ValueSize V) (t : SnapshotableHashTable V)
    (h : Reachable sz t) (hs : t.snapshot_mode = false) (k : String) (v : V)
    (hk : t.contains k = true) :
    ∃ (t1 : SnapshotableHashTable V) (it : Iter) (n0 : ListNode V) (i : Nat),
      t.find k = some it ∧ t.list[i]? = some (it, n0) ∧ n0.key = k ∧
      t.insertOrReplace sz k v = .ok t1 ∧
      t1.size = t.size ∧ t1.snapshotSize = t.snapshotSize ∧ t1.map = t.map ∧
      t1.find k = some it ∧
      t1.list[i]? = some (it, { n0 with value := v }) ∧
      (∀ (j : Nat) (p : Iter × ListNode V), j ≠ i → t.list[j]? = some p →
        t1.list[j]? = some p) ∧
      t1.list.map (fun p => (p.1, p.2.key, p.2.active_in_map)) =
        t.list.map (fun p => (p.1, p.2.key, p.2.active_in_map)) ∧
      t1.snapshot_mode = false := by
  have hwf := WF_of_reachable h
  obtain ⟨it, hit⟩ := contains_iff.1 hk
  obtain ⟨n0, hn0, hkey, _⟩ := hwf.index_sound k it (lookup_mem hit)
  have hd : deref t.list it = some n0 := lookup_of_mem_nodup hwf.iters_nodup hn0
  obtain ⟨i, hi⟩ := List.mem_iff_getElem?.1 hn0
  refine ⟨_, it, n0, i, hit, hi, hkey, insertOrReplace_normal sz v hit hd hs, rfl, ?_, rfl, hit,
    getElem?_setValue_self hi v, ?_, map_frame_setValue _ _ _, rfl⟩
  · simp only [snapshotSize, length_setValue]
  · intro j p hj hp
    exact getElem?_setValue_other hwf.iters_nodup hi v hj hp

/-- C12 at the table after `insert("a",1)`: `insertOrReplace("a", 2)`. -/
theorem replace_in_place_normal_witness :
    (Reachable sizeof4 sampleInserted ∧ sampleInserted.snapshot_mode = false ∧
      sampleInserted.contains "a" = true) ∧
    ∃ (t1 : SnapshotableHashTable Nat) (it : Iter) (n0 : ListNode Nat) (i : Nat),
      sampleInserted.find "a" = some it ∧ sampleInserted.list[i]? = some (it, n0) ∧
      n0.key = "a" ∧ sampleInserted.insertOrReplace sizeof4 "a" 2 = .ok t1 ∧
      t1.size = sampleInserted.size ∧ t1.snapshotSize = sampleInserted.snapshotSize ∧
      t1.map = sampleInserted.map ∧ t1.find "a" = some it ∧
      t1.list[i]? = some (it, { n0 with value := 2 }) ∧
      (∀ (j : Nat) (p : Iter × ListNode Nat), j ≠ i → sampleInserted.list[j]? = some p →
        t1.list[j]? = some p) ∧
      t1.list.map (fun p => (p.1, p.2.key, p.2.active_in_map)) =
        sampleInserted.list.map (fun p => (p.1, p.2.key, p.2.active_in_map)) ∧
      t1.snapshot_mode = false :=
  have hr : Reachable sizeof4 sampleInserted := ⟨[.insert "a" 1], rfl⟩
  ⟨⟨hr, rfl, rfl⟩, replace_in_place_normal sizeof4 sampleInserted hr rfl "a" 2 rfl⟩

/-! C13 -/

theorem updateValue_snapshot_of_inv (sz : ValueSize V) {t : SnapshotableHashTable V} (h : WF t)
    {key : String} (f : V → V) {it : Iter} {n : ListNode V}
    (hk : mapFind t.map key = some it) (hn : deref t.list it = some n)
    (hs : t.snapshot_mode = true) :
    t.updateValue sz key f =
      .ok ({ list := setActive t.list it false ++
               [(freshIter (setActive t.list it false), ⟨key, f n.value, true⟩)],
             map := mapErase t.map key ++ [(key, freshIter (setActive t.list it false))],
             snapshot_mode := true,
             approximate_data_size :=
               add64 (add64 t.approximate_data_size (sizeOfString key))
                 (sizeOfV sz (f n.value)) },
           freshIter (setActive t.list it false)) := by
  obtain ⟨n', hn', hkey, hact⟩ := deref_of_mapFind h hk
  rw [hn] at hn'
  cases hn'
  have e : ({ n with value := f n.value } : ListNode V) = ⟨key, f n.value, true⟩ := by
    cases n
    simp_all
  rw [updateValue_snapshot sz f hk hn hs, e, hkey, mapEmplace_mapErase]

/-- C13: in a reachable state, `updateValue(k, f)` on a key `k` present with
value `v0` returns an iterator `ret` that is the one the index holds for `k`
afterwards; the node it denotes has key `k`, is active and has value `f(v0)`, so
`getValue(k)` is `f(v0)`, and `size()` is unchanged. In snapshot mode the
original cell stays at its position with value `v0` and `active_in_map = false`,
the other cells are as they were, and `ret` denotes a new cell appended at the
tail (`snapshotSize()` grows by 1). Outside snapshot mode `ret` is the original
iterator, its cell is mutated in place, the other cells are as they were, and
`snapshotSize()`, the index and the order of the cells are unchanged. -/
theorem updateValue_postcondition (sz : ValueSize V) (t : SnapshotableHashTable V)
    (h : Reachable sz t) (k : String) (v0 : V) (f : V → V) (hv : t.getValue k = .ok v0) :
    ∃ (t1 : SnapshotableHashTable V) (ret it : Iter) (n0 : ListNode V) (i : Nat),
      t.find k = some it ∧ t.list[i]? = some (it, n0) ∧ n0 = ⟨k, v0, true⟩ ∧
      t.updateValue sz k f = .ok (t1, ret) ∧
      t1.find k = some ret ∧ deref t1.list ret = some ⟨k, f v0, true⟩ ∧
      t1.getValue k = .ok (f v0) ∧ t1.size = t.size ∧
      t1.snapshot_mode = t.snapshot_mode ∧
      (∀ (j : Nat) (p : Iter × ListNode V), j ≠ i → t.list[j]? = some p →
        t1.list[j]? = some p) ∧
      (t.snapshot_mode = true →
        ret ∉ t.list.map Prod.fst ∧
        t1.list[i]? = some (it, ⟨k, v0, false⟩) ∧
        t1.list[t.list.length]? = some (ret, ⟨k, f v0, true⟩) ∧
        t1.snapshotSize = t.snapshotSize + 1) ∧
      (t.snapshot_mode = false →
        ret = it ∧ t1.list[i]? = some (it, ⟨k, f v0, true⟩) ∧
        t1.snapshotSize = t.snapshotSize ∧ t1.map = t.map ∧
        t1.list.map (fun p => (p.1, p.2.key, p.2.active_in_map)) =
          t.list.map (fun p => (p.1, p.2.key, p.2.active_in_map))) := by
  have hwf := WF_of_reachable h
  obtain ⟨it, n, hit, hd, hval⟩ := getValue_eq_ok_iff.1 hv
  obtain ⟨n', hd', hkey, hact⟩ := deref_of_mapFind hwf hit
  rw [hd] at hd'
  cases hd'
  have hn : n = ⟨k, v0, true⟩ := by
    cases n
    simp_all
  subst hn
  have hmem : (it, (⟨k, v0, true⟩ : ListNode V)) ∈ t.list := lookup_mem hd
  obtain ⟨i, hi⟩ := List.mem_iff_getElem?.1 hmem
  cases hs : t.snapshot_mode
  · have hr := updateValue_normal sz f hit hd hs
    have hfn : nodeOf (setValue t.list it (f v0)) t.map k = some ⟨k, f v0, true⟩ := by
      rw [nodeOf_setValue hwf hit hd]
      simp
    have hderef : deref (setValue t.list it (f v0)) it = some ⟨k, f v0, true⟩ := by
      rw [deref_setValue, hd]
      simp
    refine ⟨_, it, it, _, i, hit, hi, rfl, hr, hit, hderef, ?_, rfl, rfl, ?_, ?_, ?_⟩
    · simp only [getValue, hit, hderef]
    · intro j p hj hp
      exact getElem?_setValue_other hwf.iters_nodup hi _ hj hp
    · intro hc
      cases hc
    · intro _
      refine ⟨rfl, getElem?_setValue_self hi _, ?_, rfl, map_frame_setValue _ _ _⟩
      simp only [snapshotSize, length_setValue]
  · have hr := updateValue_snapshot_of_inv sz hwf f hit hd hs
    have hfresh : freshIter (setActive t.list it false) ∉ t.list.map Prod.fst := by
      rw [← map_fst_setActive t.list it false]
      exact freshIter_not_mem _
    have hfind : mapFind (mapErase t.map k ++ [(k, freshIter (setActive t.list it false))]) k
        = some (freshIter (setActive t.list it false)) := by
      rw [mapFind_append_single, mapFind_mapErase_self]
      simp
    refine ⟨_, freshIter (setActive t.list it false), it, _, i, hit, hi, rfl, hr, hfind,
      deref_append_fresh _ _, ?_, ?_, rfl, ?_, ?_, ?_⟩
    · simp only [getValue, hfind, deref_append_fresh]
    · simp only [size, List.length_append, List.length_singleton]
      exact length_mapErase_of_mapFind hwf.keys_nodup hit
    · intro j p hj hp
      exact getElem?_append_old (getElem?_setActive_other hwf.iters_nodup hi false hj hp) _
    · intro _
      refine ⟨hfresh, getElem?_append_old (getElem?_setActive_self hi false) _, ?_, ?_⟩
      · have := getElem?_append_new (setActive t.list it false)
          (freshIter (setActive t.list it false), (⟨k, f v0, true⟩ : ListNode V))
        rw [length_setActive] at this
        exact this
      · simp only [snapshotSize, List.length_append, List.length_singleton, length_setActive]
    · intro hc
      cases hc

/-- C13 at the state after `insertOrReplace("a",1); enableSnapshotMode()` with
the updater that adds 1. -/
theorem updateValue_postcondition_witness :
    (Reachable sizeof4 sampleSnapshot ∧ sampleSnapshot.getValue "a" = .ok 1) ∧
    ∃ (t1 : SnapshotableHashTable Nat) (ret it : Iter) (n0 : ListNode Nat) (i : Nat),
      sampleSnapshot.find "a" = some it ∧ sampleSnapshot.list[i]? = some (it, n0) ∧
      n0 = ⟨"a", 1, true⟩ ∧
      sampleSnapshot.updateValue sizeof4 "a" (fun v => v + 1) = .ok (t1, ret) ∧
      t1.find "a" = some ret ∧ deref t1.list ret = some ⟨"a", 1 + 1, true⟩ ∧
      t1.getValue "a" = .ok (1 + 1) ∧ t1.size = sampleSnapshot.size ∧
      t1.snapshot_mode = sampleSnapshot.snapshot_mode ∧
      (∀ (j : Nat) (p : Iter × ListNode Nat), j ≠ i → sampleSnapshot.list[j]? = some p →
        t1.list[j]? = some p) ∧
      (sampleSnapshot.snapshot_mode = true →
        ret ∉ sampleSnapshot.list.map Prod.fst ∧
        t1.list[i]? = some (it, ⟨"a", 1, false⟩) ∧
        t1.list[sampleSnapshot.list.length]? = some (ret, ⟨"a", 1 + 1, true⟩) ∧
        t1.snapshotSize = sampleSnapshot.snapshotSize + 1) ∧
      (sampleSnapshot.snapshot_mode = false →
        ret = it ∧ t1.list[i]? = some (it, ⟨"a", 1 + 1, true⟩) ∧
        t1.snapshotSize = sampleSnapshot.snapshotSize ∧ t1.map = sampleSnapshot.map ∧
        t1.list.map (fun p => (p.1, p.2.key, p.2.active_in_map)) =
          sampleSnapshot.list.map (fun p => (p.1, p.2.key, p.2.active_in_map))) :=
  have hr : Reachable sizeof4 sampleSnapshot :=
    ⟨[.insertOrReplace "a" 1, .enableSnapshotMode], rfl⟩
  ⟨⟨hr, rfl⟩, updateValue_postcondition sizeof4 sampleSnapshot hr "a" 1 (fun v => v + 1) rfl⟩

/-! C14 -/

theorem nodeSum_nil (sz : ValueSize V) : nodeSum sz ([] : NodeList V) = 0 := rfl

theorem nodeSum_cons (sz : ValueSize V) (p : Iter × ListNode V) (l : NodeList V) :
    nodeSum sz (p :: l) = nodeSize sz p.2 + nodeSum sz l := by
  simp [nodeSum]

theorem nodeSum_append (sz : ValueSize V) (l1 l2 : NodeList V) :
    nodeSum sz (l1 ++ l2) = nodeSum sz l1 + nodeSum sz l2 := by
  simp [nodeSum]

theorem clearOutdatedNodesLoop_counter (sz : ValueSize V) (t : SnapshotableHashTable V)
    (l : NodeList V) :
    ((clearOutdatedNodesLoop sz t l).approximate_data_size +
        nodeSum sz (l.filter (fun p => !p.2.active_in_map))) % UInt64_size =
      t.approximate_data_size % UInt64_size := by
  induction l generalizing t with
  | nil => simp [clearOutdatedNodesLoop, nodeSum_nil]
  | cons p l ih =>
    cases hp : p.2.active_in_map
    · have h1 := ih (t.updateDataSize .CLEAR_OUTDATED_NODES (sizeOfString p.2.key)
        (sizeOfV sz p.2.value) 0)
      have h2 := sub64_sub64 t.approximate_data_size (sizeOfString p.2.key)
        (sizeOfV sz p.2.value)
      simp only [clearOutdatedNodesLoop, hp, Bool.not_false, if_true, List.filter_cons,
        nodeSum_cons, nodeSize]
      have e : (t.updateDataSize .CLEAR_OUTDATED_NODES (sizeOfString p.2.key)
          (sizeOfV sz p.2.value) 0).approximate_data_size =
          sub64 (sub64 t.approximate_data_size (sizeOfString p.2.key))
            (sizeOfV sz p.2.value) := rfl
      rw [e] at h1
      simp only [UInt64_size] at h1 h2 ⊢
      omega
    · simp only [clearOutdatedNodesLoop, hp, Bool.not_true, List.filter_cons]
      exact ih t

/-- C14: `clearOutdatedNodes()` is exactly a filter. In every state the list
after it is the list before with every cell whose node has
`active_in_map = false` removed, the remaining cells unchanged and in the same
order; the index and the snapshot flag are unchanged, so `contains`, `find` and
`size()` are unchanged; `approximate_data_size` has decreased, modulo `2^64`, by
the sum of `size(key) + size(value)` over the removed nodes; and in a reachable
state the node and the value a lookup arrives at are unchanged. -/
theorem clearOutdatedNodes_is_filter (sz : ValueSize V) (t : SnapshotableHashTable V) :
    (t.clearOutdatedNodes sz).list = t.list.filter (fun p => p.2.active_in_map) ∧
    (t.clearOutdatedNodes sz).map = t.map ∧
    (t.clearOutdatedNodes sz).snapshot_mode = t.snapshot_mode ∧
    (t.clearOutdatedNodes sz).size = t.size ∧
    (∀ k, (t.clearOutdatedNodes sz).contains k = t.contains k ∧
      (t.clearOutdatedNodes sz).find k = t.find k) ∧
    ((t.clearOutdatedNodes sz).approximate_data_size +
        nodeSum sz (t.list.filter (fun p => !p.2.active_in_map))) % UInt64_size =
      t.approximate_data_size % UInt64_size ∧
    (Reachable sz t → ∀ k, (t.clearOutdatedNodes sz).findNode k = t.findNode k ∧
      (t.clearOutdatedNodes sz).getValue k = t.getValue k) := by
  have hl := clearOutdatedNodesLoop_list sz t t.list
  have hm := clearOutdatedNodesLoop_map sz t t.list
  refine ⟨hl, hm, clearOutdatedNodesLoop_snapshot_mode sz t t.list, ?_, ?_,
    clearOutdatedNodesLoop_counter sz t t.list, ?_⟩
  · simp only [size, clearOutdatedNodes, hm]
  · intro k
    simp only [contains, find, clearOutdatedNodes, hm, and_self]
  · intro hr k
    have hwf := WF_of_reachable hr
    have hfn := findNode_clearOutdatedNodes sz hwf k
    refine ⟨hfn, ?_⟩
    unfold findNode nodeOf at hfn
    unfold getValue
    simp only [clearOutdatedNodes, hm] at hfn ⊢
    cases hk : mapFind t.map k with
    | none => rfl
    | some it =>
      simp only [hk] at hfn
      simp only [hfn]

/-- C14 at the state after `insert("a",1); insert("a",2); enableSnapshotMode();
insertOrReplace("a",2); disableSnapshotMode()`: the sweep keeps the value of `"a"`. -/
theorem clearOutdatedNodes_is_filter_witness :
    Reachable sizeof4 sampleScenario ∧
    (sampleScenario.clearOutdatedNodes sizeof4).findNode "a" = sampleScenario.findNode "a" ∧
    (sampleScenario.clearOutdatedNodes sizeof4).getValue "a" = .ok 2 ∧
    (sampleScenario.clearOutdatedNodes sizeof4).approximate_data_size = 5 :=
  have hr : Reachable sizeof4 sampleScenario :=
    ⟨[.insert "a" 1, .insert "a" 2, .enableSnapshotMode, .insertOrReplace "a" 2,
      .disableSnapshotMode], rfl⟩
  have hc := (clearOutdatedNodes_is_filter sizeof4 sampleScenario).2.2.2.2.2.2 hr "a"
  ⟨hr, hc.1, hc.2.trans rfl, rfl⟩

/-! C16 -/

/-- C16: precondition fault. In every state, for a key `k` that is absent from
the index, `getValue(k)` and `updateValue(k, f)` fail on their assertion: they
return no value, no iterator and no table, whatever the updater `f` is, so `f`
is not applied and no state changes. In a reachable state, for a present key
neither of them fails. -/
theorem precondition_fault (sz : ValueSize V) (t : SnapshotableHashTable V) (k : String) :
    (t.contains k = false →
      t.getValue k = .error .assertion_failed ∧
      (∀ f, t.updateValue sz k f = .error .assertion_failed) ∧
      (∀ f, step sz t (.updateValue k f) = .error .assertion_failed)) ∧
    (Reachable sz t → t.contains k = true →
      (∃ v, t.getValue k = .ok v) ∧
      (∀ f, ∃ t1 ret, t.updateValue sz k f = .ok (t1, ret))) := by
  constructor
  · intro hc
    have hk := contains_eq_false_iff.1 hc
    refine ⟨by simp only [getValue, hk], fun f => updateValue_of_absent sz f hk, fun f => ?_⟩
    simp only [step, updateValue_of_absent sz f hk, Except.map]
  · intro hr hc
    have hwf := WF_of_reachable hr
    obtain ⟨it, hit⟩ := contains_iff.1 hc
    obtain ⟨n, hn, _, _⟩ := deref_of_mapFind hwf hit
    refine ⟨⟨n.value, getValue_eq_ok_iff.2 ⟨it, n, hit, hn, rfl⟩⟩, fun f => ?_⟩
    cases hs : t.snapshot_mode
    · exact ⟨_, _, updateValue_normal sz f hit hn hs⟩
    · exact ⟨_, _, updateValue_snapshot sz f hit hn hs⟩

/-- C16 at the table after `insert("a",1)`: the key `"b"` is absent, the key `"a"` present. -/
theorem precondition_fault_witness :
    (sampleInserted.contains "b" = false ∧ Reachable sizeof4 sampleInserted ∧
      sampleInserted.contains "a" = true) ∧
    (sampleInserted.getValue "b" = .error .assertion_failed ∧
      (∀ f, sampleInserted.updateValue sizeof4 "b" f = .error .assertion_failed) ∧
      (∀ f, step sizeof4 sampleInserted (.updateValue "b" f) = .error .assertion_failed)) ∧
    ((∃ v, sampleInserted.getValue "a" = .ok v) ∧
      (∀ f, ∃ t1 ret, sampleInserted.updateValue sizeof4 "a" f = .ok (t1, ret))) :=
  have hr : Reachable sizeof4 sampleInserted := ⟨[.insert "a" 1], rfl⟩
  ⟨⟨rfl, hr, rfl⟩, (precondition_fault sizeof4 sampleInserted "b").1 rfl,
    (precondition_fault sizeof4 sampleInserted "a").2 hr rfl⟩

/-! C17 -/

/-- C17: `clear()` resets everything. In every state, in either mode and with or
without inactive nodes, after `clear()` the values of `size()`, `snapshotSize()`
and `approximate_data_size` are 0, `contains(k)` is false for every key, and the
snapshot flag is unchanged. -/
theorem clear_resets_everything (t : SnapshotableHashTable V) :
    t.clear.size = 0 ∧ t.clear.snapshotSize = 0 ∧ t.clear.getApproximateSataSize = 0 ∧
    t.clear.list = [] ∧ t.clear.map = [] ∧
    (∀ k, t.clear.contains k = false) ∧ t.clear.snapshot_mode = t.snapshot_mode :=
  ⟨rfl, rfl, rfl, rfl, rfl, fun _ => rfl, rfl⟩

/-! C18 -/

/-- C18 fails at a concrete input: on the table after `insertOrReplace("a",1);
enableSnapshotMode()` with four-byte values, where the old value of `"a"` has
non-zero size, `insertOrReplace("a",2)` takes the counter from 5 to 10, that is
by `size(k) + size(v)` once, and not to the 15 that adding it twice gives. -/
theorem replace_under_snapshot_counterexample :
    sampleSnapshot.snapshot_mode = true ∧ sampleSnapshot.getValue "a" = .ok 1 ∧
    sizeOfV sizeof4 1 ≠ 0 ∧
    (sampleSnapshot.insertOrReplace sizeof4 "a" 2).map (fun t1 => t1.approximate_data_size)
      = .ok 10 ∧
    ¬ (10 = (sampleSnapshot.approximate_data_size +
        2 * (sizeOfString "a" + sizeOfV sizeof4 2)) % UInt64_size) :=
  ⟨rfl, rfl, by decide, rfl, by decide⟩

/-- C18, amended: for every state in snapshot mode and every key `k` present
with an old value `v0` of non-zero size, `insertOrReplace(k, v)` returns and adds
the key+value size to `approximate_data_size` exactly once: the counter grows by
`size(k) + size(v)` modulo `2^64`. -/
theorem replace_under_snapshot_counts_once (sz : ValueSize V) (t : SnapshotableHashTable V)
    (k : String) (v v0 : V) (hs : t.snapshot_mode = true) (hv : t.getValue k = .ok v0)
    (_h0 : sizeOfV sz v0 ≠ 0) :
    ∃ t1, t.insertOrReplace sz k v = .ok t1 ∧
      t1.approximate_data_size =
        (t.approximate_data_size + sizeOfString k + sizeOfV sz v) % UInt64_size := by
  obtain ⟨it, n, hk, hn, _⟩ := getValue_eq_ok_iff.1 hv
  exact ⟨_, insertOrReplace_snapshot sz v hk hn hs, add64_add64 _ _ _⟩

/-- C18, amended, at the state after `insertOrReplace("a",1); enableSnapshotMode()`. -/
theorem replace_under_snapshot_counts_once_witness :
    (sampleSnapshot.snapshot_mode = true ∧ sampleSnapshot.getValue "a" = .ok 1 ∧
      sizeOfV sizeof4 1 ≠ 0) ∧
    ∃ t1, sampleSnapshot.insertOrReplace sizeof4 "a" 2 = .ok t1 ∧
      t1.approximate_data_size =
        (sampleSnapshot.approximate_data_size + sizeOfString "a" + sizeOfV sizeof4 2)
          % UInt64_size :=
  ⟨⟨rfl, rfl, by decide⟩,
    replace_under_snapshot_counts_once sizeof4 sampleSnapshot "a" 2 1 rfl rfl (by decide)⟩

/-! The counter stays below 2^64 -/

theorem add64_lt (a b : Nat) : add64 a b < UInt64_size := by
  unfold add64 UInt64_size
  omega

theorem sub64_lt (a b : Nat) : sub64 a b < UInt64_size := by
  unfold sub64 UInt64_size
  omega

theorem updateDataSize_counter_lt (t : SnapshotableHashTable V) (op : OperationType)
    (a b c : Nat) (h : t.approximate_data_size < UInt64_size) :
    (t.updateDataSize op a b c).approximate_data_size < UInt64_size := by
  cases op <;> simp only [updateDataSize] <;> (try split_ifs) <;>
    first
      | exact h
      | exact add64_lt _ _
      | exact sub64_lt _ _
      | (simp only [UInt64_size]; omega)

theorem clearOutdatedNodesLoop_counter_lt (sz : ValueSize V) (t : SnapshotableHashTable V)
    (l : NodeList V) (h : t.approximate_data_size < UInt64_size) :
    (clearOutdatedNodesLoop sz t l).approximate_data_size < UInt64_size := by
  induction l generalizing t with
  | nil => exact h
  | cons p l ih =>
    cases hp : p.2.active_in_map
    · simp only [clearOutdatedNodesLoop, hp, Bool.not_false, if_true]
      exact ih _ (updateDataSize_counter_lt t _ _ _ _ h)
    · simp only [clearOutdatedNodesLoop, hp, Bool.not_true]
      exact ih t h

theorem counter_lt_step (sz : ValueSize V) {t t1 : SnapshotableHashTable V}
    (h : t.approximate_data_size < UInt64_size) {op : Op V} (hr : step sz t op = .ok t1) :
    t1.approximate_data_size < UInt64_size := by
  cases op with
  | insert key value =>
    simp only [step, Except.ok.injEq] at hr
    subst hr
    unfold insert
    split
    · exact updateDataSize_counter_lt _ _ _ _ _ h
    · exact h
  | insertOrReplace key value =>
    simp only [step] at hr
    unfold insertOrReplace at hr
    split at hr
    · cases hr
      exact updateDataSize_counter_lt _ _ _ _ _ h
    · split at hr
      · cases hr
      · split at hr
        · cases hr
          exact updateDataSize_counter_lt _ _ _ _ _ h
        · cases hr
          exact updateDataSize_counter_lt _ _ _ _ _ h
  | erase key =>
    simp only [step] at hr
    unfold erase at hr
    split at hr
    · simp only [Except.map, Except.ok.injEq] at hr
      subst hr
      exact h
    · split at hr
      · simp [Except.map] at hr
      · simp only [Except.map, Except.ok.injEq] at hr
        subst hr
        apply updateDataSize_counter_lt
        split <;> exact h
  | updateValue key f =>
    simp only [step] at hr
    unfold updateValue at hr
    split at hr
    · simp [Except.map] at hr
    · split at hr
      · simp [Except.map] at hr
      · split at hr
        · simp only [Except.map, Except.ok.injEq] at hr
          subst hr
          exact updateDataSize_counter_lt _ _ _ _ _ h
        · simp only [Except.map, Except.ok.injEq] at hr
          subst hr
          exact updateDataSize_counter_lt _ _ _ _ _ h
  | clearOutdatedNodes =>
    simp only [step, Except.ok.injEq] at hr
    subst hr
    exact clearOutdatedNodesLoop_counter_lt sz t t.list h
  | clear =>
    simp only [step, Except.ok.injEq] at hr
    subst hr
    simp only [clear, updateDataSize, UInt64_size]
    omega
  | enableSnapshotMode =>
    simp only [step, Except.ok.injEq] at hr
    subst hr
    exact h
  | disableSnapshotMode =>
    simp only [step, Except.ok.injEq] at hr
    subst hr
    exact h

theorem counter_lt_runOps (sz : ValueSize V) {t t1 : SnapshotableHashTable V}
    (h : t.approximate_data_size < UInt64_size) {ops : List (Op V)}
    (hr : runOps sz t ops = .ok t1) : t1.approximate_data_size < UInt64_size := by
  induction ops generalizing t with
  | nil =>
    simp only [runOps, Except.ok.injEq] at hr
    subst hr
    exact h
  | cons op ops ih =>
    simp only [runOps] at hr
    cases hs : step sz t op with
    | error e => simp [hs] at hr
    | ok t2 =>
      simp only [hs] at hr
      exact ih (counter_lt_step sz h hs) hr

theorem counter_lt_of_reachable {sz : ValueSize V} {t : SnapshotableHashTable V}
    (h : Reachable sz t) : t.approximate_data_size < UInt64_size := by
  obtain ⟨ops, hops⟩ := h
  refine counter_lt_runOps sz ?_ hops
  simp [empty, UInt64_size]


/-! C20 -/

theorem table_eq_of_fields {t u : SnapshotableHashTable V} (h1 : t.list = u.list)
    (h2 : t.map = u.map) (h3 : t.snapshot_mode = u.snapshot_mode)
    (h4 : t.approximate_data_size = u.approximate_data_size) : t = u := by
  cases t
  cases u
  simp only at h1 h2 h3 h4
  subst h1 h2 h3 h4
  rfl

theorem listErase_append_fresh (l : NodeList V) (n : ListNode V) :
    listErase (l ++ [(freshIter l, n)]) (freshIter l) = l := by
  unfold listErase
  rw [List.filter_append]
  have e1 : l.filter (fun p => p.1 != freshIter l) = l := by
    apply List.filter_eq_self.2
    intro p hp
    have : p.1 ≠ freshIter l :=
      fun hc => freshIter_not_mem l (hc ▸ List.mem_map_of_mem Prod.fst hp)
    simpa using this
  rw [e1]
  simp

theorem setActive_append_fresh (l : NodeList V) (n : ListNode V) (b : Bool) :
    setActive (l ++ [(freshIter l, n)]) (freshIter l) b =
      l ++ [(freshIter l, { n with active_in_map := b })] := by
  unfold setActive
  rw [List.map_append]
  have e1 : l.map (fun p => if p.1 = freshIter l then
      (p.1, { p.2 with active_in_map := b }) else p) = l := by
    conv_rhs => rw [← List.map_id l]
    apply List.map_congr_left
    intro p hp
    have : p.1 ≠ freshIter l :=
      fun hc => freshIter_not_mem l (hc ▸ List.mem_map_of_mem Prod.fst hp)
    simp [this]
  rw [e1]
  simp

theorem mapErase_append_absent {m : IndexMap} {k : String} (hk : mapFind m k = none)
    (it : Iter) : mapErase (m ++ [(k, it)]) k = m := by
  unfold mapErase
  rw [List.filter_append]
  have e1 : m.filter (fun e => e.1 != k) = m := by
    apply List.filter_eq_self.2
    intro e he
    have : e.1 ≠ k :=
      fun hc => not_mem_of_lookup_eq_none hk (hc ▸ List.mem_map_of_mem Prod.fst he)
    simpa using this
  rw [e1]
  simp

theorem clearOutdatedNodesLoop_all_active (sz : ValueSize V) (t : SnapshotableHashTable V)
    (l : NodeList V) (h : ∀ p ∈ l, p.2.active_in_map = true) :
    clearOutdatedNodesLoop sz t l = { t with list := l } := by
  induction l with
  | nil => rfl
  | cons p l ih =>
    have hp := h p (List.mem_cons_self _ _)
    simp only [clearOutdatedNodesLoop, hp, Bool.not_true]
    rw [ih (fun q hq => h q (List.mem_cons_of_mem _ hq))]
    rfl


/-- C20 fails at a concrete input: in the state after `insert("a",1);
enableSnapshotMode(); insertOrReplace("a",2)`, which is in snapshot mode and
holds an inactive node, after `insert("b",1); erase("b"); clearOutdatedNodes()`
the value of `snapshotSize()` is 1 and the counter is 5, not the 2 and the 10
they were before the insert. -/
theorem insert_erase_round_trip_counterexample :
    Reachable sizeof4 sampleReplaced ∧ sampleReplaced.snapshot_mode = true ∧
    sampleReplaced.contains "b" = false ∧
    sampleReplaced.snapshotSize = 2 ∧ sampleReplaced.approximate_data_size = 10 ∧
    ((sampleReplaced.insert sizeof4 "b" 1).1.erase sizeof4 "b").map
      (fun r => (r.2, (r.1.clearOutdatedNodes sizeof4).snapshotSize,
        (r.1.clearOutdatedNodes sizeof4).approximate_data_size)) = .ok (true, 1, 5) :=
  ⟨sampleReplaced_reachable, rfl, rfl, rfl, rfl, rfl⟩

/-- C20, amended: in a reachable state, for a key `k` that is absent,
`insert(k, v)` followed by `erase(k)` returns true twice. With snapshot mode
disabled the table after the two calls has the list, the index and the flag of
the table before them, and is exactly that table, counter included, when
`sizeOf<V>` does not read the object. With snapshot mode enabled the two
calls leave the index and `size()` as they were, the list longer by the one
inactive cell `(k, v)` at the tail, so `snapshotSize()` larger by 1, and the
counter larger by `size(k) + size(v)` modulo `2^64`; the table after a following
`clearOutdatedNodes()` is the table that `clearOutdatedNodes()` gives on the
state before the insert, so both are restored when that state held no inactive
node. -/
theorem insert_erase_round_trip (sz : ValueSize V) (t : SnapshotableHashTable V)
    (h : Reachable sz t) (k : String) (v : V) (hk : t.contains k = false) :
    (t.insert sz k v).2 = true ∧
    (t.snapshot_mode = false →
      ∃ t2 : SnapshotableHashTable V,
        (t.insert sz k v).1.erase sz k = .ok (t2, true) ∧
        t2.list = t.list ∧ t2.map = t.map ∧ t2.snapshot_mode = t.snapshot_mode ∧
        (sz.readsObject = false → t2 = t)) ∧
    (t.snapshot_mode = true →
      ∃ (t2 : SnapshotableHashTable V) (it : Iter),
        (t.insert sz k v).1.erase sz k = .ok (t2, true) ∧
        t2.list = t.list ++ [(it, ⟨k, v, false⟩)] ∧ t2.map = t.map ∧
        t2.snapshot_mode = true ∧
        t2.size = t.size ∧ t2.snapshotSize = t.snapshotSize + 1 ∧
        t2.approximate_data_size =
          (t.approximate_data_size + sizeOfString k + sizeOfV sz v) % UInt64_size ∧
        t2.clearOutdatedNodes sz = t.clearOutdatedNodes sz ∧
        ((∀ p ∈ t.list, p.2.active_in_map = true) → t2.clearOutdatedNodes sz = t)) := by
  have hlt := counter_lt_of_reachable h
  have hnone := contains_eq_false_iff.1 hk
  have hins := insert_of_absent sz v hnone
  have hfind : mapFind (t.map ++ [(k, freshIter t.list)]) k = some (freshIter t.list) := by
    rw [mapFind_append_single, hnone]
    simp
  have hderef := deref_append_fresh t.list (⟨k, v, true⟩ : ListNode V)
  refine ⟨by rw [hins], ?_, ?_⟩
  · intro hs
    rw [hins]
    have he := @erase_normal V sz
      ⟨t.list ++ [(freshIter t.list, ⟨k, v, true⟩)], t.map ++ [(k, freshIter t.list)],
        t.snapshot_mode, add64 (add64 t.approximate_data_size (sizeOfString k)) (sizeOfV sz v)⟩
      k _ _ hfind hderef hs
    rw [listErase_append_fresh, mapErase_append_absent hnone] at he
    refine ⟨_, he, rfl, rfl, hs.symm, ?_⟩
    intro hsz
    apply table_eq_of_fields
    · rfl
    · rfl
    · exact hs.symm
    · have e := sizeOfErased_eq_of_not_readsObject hsz (⟨k, v, true⟩ : ListNode V)
      simp only at e
      simp only [e, sub64, add64, sizeOfString, UInt64_size] at hlt ⊢
      omega
  · intro hs
    rw [hins]
    have he := @erase_snapshot V sz
      ⟨t.list ++ [(freshIter t.list, ⟨k, v, true⟩)], t.map ++ [(k, freshIter t.list)],
        t.snapshot_mode, add64 (add64 t.approximate_data_size (sizeOfString k)) (sizeOfV sz v)⟩
      k _ _ hfind hderef hs
    rw [setActive_append_fresh, mapErase_append_absent hnone] at he
    have hsweep : (⟨t.list ++ [(freshIter t.list, ⟨k, v, false⟩)], t.map, true,
        add64 (add64 t.approximate_data_size (sizeOfString k)) (sizeOfV sz v)⟩ :
        SnapshotableHashTable V).clearOutdatedNodes sz = t.clearOutdatedNodes sz := by
      apply table_eq_of_fields
      · simp only [clearOutdatedNodes, clearOutdatedNodesLoop_list, List.filter_append]
        simp
      · simp only [clearOutdatedNodes, clearOutdatedNodesLoop_map]
      · simp only [clearOutdatedNodes, clearOutdatedNodesLoop_snapshot_mode, hs]
      · have c1 := clearOutdatedNodesLoop_counter sz
          (⟨t.list ++ [(freshIter t.list, ⟨k, v, false⟩)], t.map, true,
             add64 (add64 t.approximate_data_size (sizeOfString k)) (sizeOfV sz v)⟩ :
            SnapshotableHashTable V) (t.list ++ [(freshIter t.list, ⟨k, v, false⟩)])
        have c2 := clearOutdatedNodesLoop_counter sz t t.list
        have b1 := clearOutdatedNodesLoop_counter_lt sz
          (⟨t.list ++ [(freshIter t.list, ⟨k, v, false⟩)], t.map, true,
             add64 (add64 t.approximate_data_size (sizeOfString k)) (sizeOfV sz v)⟩ :
            SnapshotableHashTable V) (t.list ++ [(freshIter t.list, ⟨k, v, false⟩)])
          (add64_lt _ _)
        have b2 := clearOutdatedNodesLoop_counter_lt sz t t.list hlt
        have e : nodeSum sz ((t.list ++ [(freshIter t.list, (⟨k, v, false⟩ : ListNode V))]).filter
            (fun p => !p.2.active_in_map)) =
            nodeSum sz (t.list.filter (fun p => !p.2.active_in_map)) +
              (sizeOfString k + sizeOfV sz v) := by
          rw [List.filter_append, nodeSum_append]
          simp [nodeSum, nodeSize]
        rw [e] at c1
        simp only [clearOutdatedNodes]
        simp only [add64, UInt64_size] at c1 c2 b1 b2 hlt ⊢
        omega
    refine ⟨_, freshIter t.list, he, rfl, rfl, rfl, rfl, ?_, add64_add64 _ _ _, hsweep, ?_⟩
    · simp only [snapshotSize, List.length_append, List.length_singleton]
    · intro hall
      rw [hsweep]
      simp only [clearOutdatedNodes, clearOutdatedNodesLoop_all_active sz t t.list hall]

/-- C20, amended, at the empty table and at the state after
`insertOrReplace("a",1); enableSnapshotMode()`, with the absent key `"b"` and
four-byte values, whose `sizeOf` does not read the object. -/
theorem insert_erase_round_trip_witness :
    (Reachable sizeof4 sampleEmpty ∧ sampleEmpty.contains "b" = false ∧
      sampleEmpty.snapshot_mode = false ∧ sizeof4.readsObject = false) ∧
    (sampleEmpty.insert sizeof4 "b" 1).1.erase sizeof4 "b" = .ok (sampleEmpty, true) ∧
    (Reachable sizeof4 sampleSnapshot ∧ sampleSnapshot.contains "b" = false ∧
      sampleSnapshot.snapshot_mode = true) ∧
    ∃ (t2 : SnapshotableHashTable Nat) (it : Iter),
      (sampleSnapshot.insert sizeof4 "b" 1).1.erase sizeof4 "b" = .ok (t2, true) ∧
      t2.list = sampleSnapshot.list ++ [(it, ⟨"b", 1, false⟩)] ∧
      t2.map = sampleSnapshot.map ∧ t2.snapshot_mode = true ∧
      t2.size = sampleSnapshot.size ∧ t2.snapshotSize = sampleSnapshot.snapshotSize + 1 ∧
      t2.approximate_data_size =
        (sampleSnapshot.approximate_data_size + sizeOfString "b" + sizeOfV sizeof4 1)
          % UInt64_size ∧
      t2.clearOutdatedNodes sizeof4 = sampleSnapshot.clearOutdatedNodes sizeof4 ∧
      ((∀ p ∈ sampleSnapshot.list, p.2.active_in_map = true) →
        t2.clearOutdatedNodes sizeof4 = sampleSnapshot) := by
  have hr0 : Reachable sizeof4 sampleEmpty := ⟨[], rfl⟩
  have hr1 : Reachable sizeof4 sampleSnapshot :=
    ⟨[.insertOrReplace "a" 1, .enableSnapshotMode], rfl⟩
  obtain ⟨t2, he, _, _, _, heq⟩ :=
    (insert_erase_round_trip sizeof4 sampleEmpty hr0 "b" 1 rfl).2.1 rfl
  rw [heq rfl] at he
  exact ⟨⟨hr0, rfl, rfl, rfl⟩, he, ⟨hr1, rfl, rfl⟩,
    (insert_erase_round_trip sizeof4 sampleSnapshot hr1 "b" 1 rfl).2.2 rfl⟩

/-! C19 -/

theorem nodeSum_setActive (sz : ValueSize V) (l : NodeList V) (it : Iter) (b : Bool) :
    nodeSum sz (setActive l it b) = nodeSum sz l := by
  unfold nodeSum setActive
  rw [List.map_map]
  congr 1
  apply List.map_congr_left
  intro p _
  by_cases h : p.1 = it <;> simp [h, nodeSize]

theorem setValue_of_split {pre post : NodeList V} {it : Iter} {n : ListNode V}
    (hnd : ((pre ++ (it, n) :: post).map Prod.fst).Nodup) (v : V) :
    setValue (pre ++ (it, n) :: post) it v = pre ++ (it, { n with value := v }) :: post := by
  have hnd' := hnd
  simp only [List.map_append, List.map_cons] at hnd'
  have hpre : ∀ p ∈ pre, p.1 ≠ it := by
    intro p hp hc
    have h1 : it ∈ pre.map Prod.fst := hc ▸ List.mem_map_of_mem Prod.fst hp
    exact (List.nodup_append.1 hnd').2.2 h1 (List.mem_cons_self _ _)
  have hpost : ∀ p ∈ post, p.1 ≠ it := by
    intro p hp hc
    have h1 : it ∈ post.map Prod.fst := hc ▸ List.mem_map_of_mem Prod.fst hp
    exact (List.nodup_cons.1 (List.nodup_append.1 hnd').2.1).1 h1
  unfold setValue
  rw [List.map_append, List.map_cons]
  have e1 : pre.map (fun p => if p.1 = it then (p.1, { p.2 with value := v }) else p) = pre := by
    conv_rhs => rw [← List.map_id pre]
    apply List.map_congr_left
    intro p hp
    simp [hpre p hp]
  have e2 : post.map (fun p => if p.1 = it then (p.1, { p.2 with value := v }) else p)
      = post := by
    conv_rhs => rw [← List.map_id post]
    apply List.map_congr_left
    intro p hp
    simp [hpost p hp]
  rw [e1, e2]
  simp

theorem nodeSum_setValue_of_mem (sz : ValueSize V) {l : NodeList V}
    (hnd : (l.map Prod.fst).Nodup) {it : Iter} {n : ListNode V} (h : (it, n) ∈ l) (v : V) :
    nodeSum sz (setValue l it v) + sizeOfV sz n.value = nodeSum sz l + sizeOfV sz v := by
  obtain ⟨pre, post, hsplit⟩ := List.append_of_mem h
  subst hsplit
  rw [setValue_of_split hnd]
  simp only [nodeSum_append, nodeSum_cons, nodeSize]
  omega

theorem nodeSum_listErase_of_mem (sz : ValueSize V) {l : NodeList V}
    (hnd : (l.map Prod.fst).Nodup) {it : Iter} {n : ListNode V} (h : (it, n) ∈ l) :
    nodeSum sz (listErase l it) + nodeSize sz n = nodeSum sz l := by
  obtain ⟨pre, post, hsplit⟩ := List.append_of_mem h
  subst hsplit
  rw [listErase_of_split hnd]
  simp only [nodeSum_append, nodeSum_cons]
  omega

theorem nodeSum_filter_active (sz : ValueSize V) (l : NodeList V) :
    nodeSum sz (l.filter (fun p => p.2.active_in_map)) +
      nodeSum sz (l.filter (fun p => !p.2.active_in_map)) = nodeSum sz l := by
  induction l with
  | nil => rfl
  | cons p l ih =>
    cases hp : p.2.active_in_map
    · simp only [List.filter_cons, hp, Bool.not_false, if_true, nodeSum_cons]
      simp only [Bool.false_eq_true, if_false]
      omega
    · simp only [List.filter_cons, hp, Bool.not_true, if_true, nodeSum_cons]
      simp only [Bool.false_eq_true, if_false]
      omega


theorem accounted_step (sz : ValueSize V) (hsz : sz.readsObject = false)
    {t t1 : SnapshotableHashTable V} (hwf : WF t)
    (hacc : t.approximate_data_size = nodeSum sz t.list % UInt64_size) {op : Op V}
    (hop : op.accountedIn t = true) (hr : step sz t op = .ok t1) :
    t1.approximate_data_size = nodeSum sz t1.list % UInt64_size := by
  cases op with
  | insert key value =>
    simp only [step, Except.ok.injEq] at hr
    subst hr
    cases hk : mapFind t.map key with
    | none =>
      rw [insert_of_absent sz value hk]
      simp only [nodeSum_append, nodeSum_cons, nodeSum_nil, nodeSize, add64, UInt64_size] at hacc ⊢
      omega
    | some it =>
      rw [insert_of_present sz value hk]
      exact hacc
  | insertOrReplace key value =>
    simp only [step] at hr
    cases hk : mapFind t.map key with
    | none =>
      rw [insertOrReplace_of_absent sz value hk] at hr
      cases hr
      simp only [nodeSum_append, nodeSum_cons, nodeSum_nil, nodeSize, add64, UInt64_size] at hacc ⊢
      omega
    | some it =>
      obtain ⟨n, hn, _, _⟩ := deref_of_mapFind hwf hk
      cases hs : t.snapshot_mode
      · have hc : t.contains key = true := contains_iff.2 ⟨it, hk⟩
        simp [Op.accountedIn, hc, hs] at hop
      · rw [insertOrReplace_snapshot sz value hk hn hs] at hr
        cases hr
        simp only [nodeSum_append, nodeSum_cons, nodeSum_nil, nodeSum_setActive, nodeSize, add64,
          UInt64_size] at hacc ⊢
        omega
  | erase key =>
    cases hk : mapFind t.map key with
    | none =>
      rw [step_erase_eq sz (erase_of_absent sz hk)] at hr
      cases hr
      exact hacc
    | some it =>
      obtain ⟨n, hn, hkey, _⟩ := deref_of_mapFind hwf hk
      cases hs : t.snapshot_mode
      · rw [step_erase_eq sz (erase_normal sz hk hn hs)] at hr
        cases hr
        have hsum := nodeSum_listErase_of_mem sz hwf.iters_nodup (lookup_mem hn)
        simp only [nodeSize, hkey] at hsum
        rw [sizeOfErased_eq_of_not_readsObject hsz n]
        simp only [sub64, UInt64_size] at hacc ⊢
        omega
      · rw [step_erase_eq sz (erase_snapshot sz hk hn hs)] at hr
        cases hr
        simp only [nodeSum_setActive]
        exact hacc
  | updateValue key f =>
    cases hk : mapFind t.map key with
    | none =>
      simp only [step, updateValue_of_absent sz f hk, Except.map] at hr
      cases hr
    | some it =>
      obtain ⟨n, hn, hkey, _⟩ := deref_of_mapFind hwf hk
      cases hs : t.snapshot_mode
      · rw [step_updateValue_eq sz (updateValue_normal sz f hk hn hs)] at hr
        cases hr
        have hsum := nodeSum_setValue_of_mem sz hwf.iters_nodup (lookup_mem hn) (f n.value)
        simp only [sub64, add64, UInt64_size] at hacc ⊢
        omega
      · rw [step_updateValue_eq sz (updateValue_snapshot_of_inv sz hwf f hk hn hs)] at hr
        cases hr
        simp only [nodeSum_append, nodeSum_cons, nodeSum_nil, nodeSum_setActive, nodeSize, add64,
          UInt64_size] at hacc ⊢
        omega
  | clearOutdatedNodes =>
    simp only [step, Except.ok.injEq] at hr
    subst hr
    have hlt : t.approximate_data_size < UInt64_size := by
      rw [hacc]
      simp only [UInt64_size]
      omega
    have c1 := clearOutdatedNodesLoop_counter sz t t.list
    have b1 := clearOutdatedNodesLoop_counter_lt sz t t.list hlt
    have hsum := nodeSum_filter_active sz t.list
    simp only [clearOutdatedNodes, clearOutdatedNodesLoop_list]
    simp only [UInt64_size] at hacc c1 b1 ⊢
    omega
  | clear =>
    simp only [step, Except.ok.injEq] at hr
    subst hr
    rfl
  | enableSnapshotMode =>
    simp only [step, Except.ok.injEq] at hr
    subst hr
    exact hacc
  | disableSnapshotMode =>
    simp only [step, Except.ok.injEq] at hr
    subst hr
    exact hacc

theorem accounted_run (sz : ValueSize V) (hsz : sz.readsObject = false)
    {t t1 : SnapshotableHashTable V} (hwf : WF t)
    (hacc : t.approximate_data_size = nodeSum sz t.list % UInt64_size) {ops : List (Op V)}
    (hr : runAccounted sz t ops = some t1) :
    WF t1 ∧ t1.approximate_data_size = nodeSum sz t1.list % UInt64_size := by
  induction ops generalizing t with
  | nil =>
    simp only [runAccounted, Option.some.injEq] at hr
    subst hr
    exact ⟨hwf, hacc⟩
  | cons op ops ih =>
    simp only [runAccounted] at hr
    cases hop : op.accountedIn t
    · simp [hop] at hr
    · simp only [hop, if_true] at hr
      cases hs : step sz t op with
      | error e => simp [hs] at hr
      | ok t2 =>
        simp only [hs] at hr
        exact ih (WF_step sz hwf hs) (accounted_step sz hsz hwf hacc hop hs) hr


theorem utf8ByteSize_pos_of_ne_empty {k : String} (h : k ≠ "") : 0 < k.utf8ByteSize := by
  obtain ⟨data⟩ := k
  cases data with
  | nil => exact absurd rfl h
  | cons c cs =>
    have hc := Char.utf8Size_pos c
    simp only [String.utf8ByteSize, String.utf8ByteSize.go]
    omega

/-- The accounting invariant where `sizeOf<V>` does not read the object. For such
a value type, in every state reached from the empty table by `insert`, `erase`,
`updateValue` on present keys, `clearOutdatedNodes`, `clear`,
`enableSnapshotMode`, `disableSnapshotMode`, and `insertOrReplace` calls that
target an absent key or are made in snapshot mode, `approximate_data_size`
equals, modulo `2^64`, the sum of `size(key) + size(value)` over all nodes in
the list, active and inactive alike. The one call left out, an
`insertOrReplace` of a present key outside snapshot mode, breaks the equality:
made in such a state with a non-empty key and with no wrap-around, it leaves the
counter strictly above the sum, by twice the key size when the old value has
non-zero size and by the key size otherwise. -/
theorem accounting_invariant (sz : ValueSize V) (hsz : sz.readsObject = false) :
    (∀ (ops : List (Op V)) (t : SnapshotableHashTable V),
      runAccounted sz empty ops = some t →
      t.approximate_data_size = nodeSum sz t.list % UInt64_size) ∧
    (∀ (ops : List (Op V)) (t : SnapshotableHashTable V) (k : String) (v v0 : V),
      runAccounted sz empty ops = some t → t.snapshot_mode = false →
      t.getValue k = .ok v0 → k ≠ "" → k.utf8ByteSize < UInt64_size →
      nodeSum sz t.list + 2 * sizeOfString k + sizeOfV sz v < UInt64_size →
      ∃ t1, t.insertOrReplace sz k v = .ok t1 ∧
        nodeSum sz t1.list < t1.approximate_data_size ∧
        t1.approximate_data_size =
          nodeSum sz t1.list + (if sizeOfV sz v0 ≠ 0 then 2 * sizeOfString k
            else sizeOfString k)) := by
  have hempty : (empty : SnapshotableHashTable V).approximate_data_size =
      nodeSum sz (empty : SnapshotableHashTable V).list % UInt64_size := rfl
  constructor
  · intro ops t hr
    exact (accounted_run sz hsz WF_empty hempty hr).2
  · intro ops t k v v0 hr hs hv hne hsize hwrap
    obtain ⟨hwf, hacc⟩ := accounted_run sz hsz WF_empty hempty hr
    obtain ⟨it, n, hk, hn, hval⟩ := getValue_eq_ok_iff.1 hv
    subst hval
    have hmem := lookup_mem hn
    have hsum := nodeSum_setValue_of_mem sz hwf.iters_nodup hmem v
    have hle := nodeSum_listErase_of_mem sz hwf.iters_nodup hmem
    have hpos := utf8ByteSize_pos_of_ne_empty hne
    have hb := sizeOfV_lt sz n.value
    refine ⟨_, insertOrReplace_normal sz v hk hn hs, ?_, ?_⟩
    · simp only [nodeSize, sizeOfString, UInt64_size] at hsum hle hwrap hacc hsize hb ⊢
      split_ifs
      · simp only [sub64, add64, UInt64_size]
        omega
      · simp only [add64, UInt64_size]
        omega
    · simp only [nodeSize, sizeOfString, UInt64_size] at hsum hle hwrap hacc hsize hb ⊢
      split_ifs
      · simp only [sub64, add64, UInt64_size]
        omega
      · simp only [add64, UInt64_size]
        omega

/-- C19 at the failing input: `std::string` values and the calls
`insert("key","hello"); erase("key")` from the empty table, both among the calls
of the claim. Afterwards the list is empty, so the byte sum is 0, while the
counter is 8 less the key size 3 less `r`, where `r` is what `size()` yields on
the node that `list.erase` has already destroyed: with a read of 0 the counter
is 5. -/
theorem accounting_failing_input :
    (∀ r, ∃ t, runAccounted (sizeOfStdString r) empty [.insert "key" "hello", .erase "key"]
        = some t ∧
      t.list = [] ∧ nodeSum (sizeOfStdString r) t.list = 0 ∧
      (t.approximate_data_size + r) % UInt64_size = 5 % UInt64_size) ∧
    (runAccounted (sizeOfStdString 0) empty [.insert "key" "hello", .erase "key"]).map
      (fun t => (t.approximate_data_size, nodeSum (sizeOfStdString 0) t.list % UInt64_size))
      = some (5, 0) := by
  refine ⟨fun r => ?_, rfl⟩
  refine ⟨⟨[], [], false, sub64 (sub64 8 (sizeOfString "key"))
    (sizeOfErased (sizeOfStdString r) ⟨"key", "hello", true⟩)⟩, rfl, rfl, rfl, ?_⟩
  have h3 : sizeOfString "key" = 3 := by decide
  rw [h3]
  simp only [sizeOfErased, sizeOfStdString, sub64, UInt64_size]
  omega

/-! C15 -/

theorem InOrder.mem_iff {t : SnapshotableHashTable V} {acc : List String} (h : InOrder t acc)
    (k : String) : k ∈ acc ↔ ∃ it, mapFind t.map k = some it := by
  obtain ⟨hwf, _, hact, hkeys⟩ := h
  rw [← hkeys]
  constructor
  · intro hk
    obtain ⟨p, hp, hpk⟩ := List.mem_map.1 hk
    have hm := hwf.active_indexed p.1 p.2 hp (hact p hp)
    rw [hpk] at hm
    exact ⟨p.1, lookup_of_mem_nodup hwf.keys_nodup hm⟩
  · rintro ⟨it, hit⟩
    obtain ⟨n, hn, hkey, _⟩ := hwf.index_sound k it (lookup_mem hit)
    exact List.mem_map.2 ⟨(it, n), hn, hkey⟩

theorem InOrder.not_mem_iff {t : SnapshotableHashTable V} {acc : List String}
    (h : InOrder t acc) (k : String) : k ∉ acc ↔ mapFind t.map k = none := by
  rw [h.mem_iff k]
  cases mapFind t.map k <;> simp

theorem InOrder.iter_eq_iff {t : SnapshotableHashTable V} {acc : List String}
    (h : InOrder t acc) {key : String} {it : Iter} (hit : mapFind t.map key = some it)
    {p : Iter × ListNode V} (hp : p ∈ t.list) : p.1 = it ↔ p.2.key = key := by
  obtain ⟨hwf, _, hact, _⟩ := h
  obtain ⟨n, hn, hkey, _⟩ := hwf.index_sound key it (lookup_mem hit)
  constructor
  · intro hc
    have hp' : (it, p.2) ∈ t.list := by
      rw [← hc]
      exact hp
    rw [snd_eq_of_mem_nodup hwf.iters_nodup hp' hn]
    exact hkey
  · intro hc
    have hm := hwf.active_indexed p.1 p.2 hp (hact p hp)
    rw [hc] at hm
    exact snd_eq_of_mem_nodup hwf.keys_nodup hm (lookup_mem hit)

theorem InOrder.nodup {t : SnapshotableHashTable V} {acc : List String} (h : InOrder t acc) :
    acc.Nodup := by
  obtain ⟨hwf, _, hact, hkeys⟩ := h
  rw [← hkeys]
  apply List.Nodup.map_on
  · intro x hx y hy hxy
    have hmx := hwf.active_indexed x.1 x.2 hx (hact x hx)
    have hmy := hwf.active_indexed y.1 y.2 hy (hact y hy)
    rw [hxy] at hmx
    have hi : x.1 = y.1 := snd_eq_of_mem_nodup hwf.keys_nodup hmx hmy
    have hx' : (y.1, x.2) ∈ t.list := by
      rw [← hi]
      exact hx
    have hn : x.2 = y.2 := snd_eq_of_mem_nodup hwf.iters_nodup hx' hy
    exact Prod.ext hi hn
  · exact List.Nodup.of_map Prod.fst hwf.iters_nodup

theorem map_key_setValue (l : NodeList V) (it : Iter) (v : V) :
    (setValue l it v).map (fun p => p.2.key) = l.map (fun p => p.2.key) := by
  unfold setValue
  rw [List.map_map]
  apply List.map_congr_left
  intro p _
  by_cases h : p.1 = it <;> simp [h]

theorem all_active_setValue {l : NodeList V} (h : ∀ p ∈ l, p.2.active_in_map = true)
    (it : Iter) (v : V) : ∀ p ∈ setValue l it v, p.2.active_in_map = true := by
  intro p hp
  obtain ⟨i, n⟩ := p
  obtain ⟨n0, hn0, heq⟩ := mem_setValue.1 hp
  have := h (i, n0) hn0
  by_cases hi : i = it <;> simp_all

theorem InOrder.push {t : SnapshotableHashTable V} {acc : List String} (h : InOrder t acc)
    {key : String} (hk : mapFind t.map key = none) (v : V) (a : Nat) :
    InOrder ⟨t.list ++ [(freshIter t.list, ⟨key, v, true⟩)], t.map ++ [(key, freshIter t.list)],
      t.snapshot_mode, a⟩ (acc ++ [key]) := by
  obtain ⟨hwf, hs, hact, hkeys⟩ := h
  refine ⟨Inv.append hwf hk v, hs, ?_, ?_⟩
  · intro p hp
    rcases List.mem_append.1 hp with h1 | h1
    · exact hact p h1
    · simp only [List.mem_singleton] at h1
      subst h1
      rfl
  · simp only [List.map_append, List.map_cons, List.map_nil, hkeys]

theorem InOrder.assign {t : SnapshotableHashTable V} {acc : List String} (h : InOrder t acc)
    (it : Iter) (v : V) (a : Nat) :
    InOrder ⟨DB.setValue t.list it v, t.map, false, a⟩ acc := by
  obtain ⟨hwf, hs, hact, hkeys⟩ := h
  exact ⟨Inv.setValue hwf it v, rfl, all_active_setValue hact it v,
    (map_key_setValue _ _ _).trans hkeys⟩

theorem InOrder.drop {t : SnapshotableHashTable V} {acc : List String} (h : InOrder t acc)
    {key : String} {it : Iter} (hit : mapFind t.map key = some it) (a : Nat) :
    InOrder ⟨listErase t.list it, mapErase t.map key, false, a⟩
      (acc.filter (fun k => k != key)) := by
  have hiff : ∀ p ∈ t.list, (p.1 = it ↔ p.2.key = key) := fun _ hp => h.iter_eq_iff hit hp
  obtain ⟨hwf, hs, hact, hkeys⟩ := h
  refine ⟨Inv.remove hwf hit, rfl, fun p hp => hact p (mem_listErase.1 hp).1, ?_⟩
  rw [← hkeys, List.filter_map]
  congr 1
  unfold listErase
  apply List.filter_congr
  intro p hp
  by_cases hc : p.1 = it
  · have hk := (hiff p hp).1 hc
    simp [hc, hk]
  · have hk : p.2.key ≠ key := fun hk => hc ((hiff p hp).2 hk)
    have e1 : (p.1 != it) = true := by simpa using hc
    have e2 : (p.2.key != key) = true := by simpa using hk
    simp only [Function.comp, e1, e2]


theorem InOrder.afterStep (sz : ValueSize V) {t t1 : SnapshotableHashTable V} {acc : List String}
    (h : InOrder t acc) {op : Op V} (hop : op.isKeyMutation = true)
    (hr : SnapshotableHashTable.step sz t op = .ok t1) : InOrder t1 (orderStep acc op) := by
  have hs := h.2.1
  have hwf := h.1
  cases op with
  | insert key value =>
    simp only [SnapshotableHashTable.step, Except.ok.injEq] at hr
    subst hr
    cases hk : mapFind t.map key with
    | none =>
      rw [insert_of_absent sz value hk]
      simp only [orderStep, (h.not_mem_iff key).2 hk, if_false]
      exact h.push hk value _
    | some it =>
      rw [insert_of_present sz value hk]
      simp only [orderStep, (h.mem_iff key).2 ⟨it, hk⟩, if_true]
      exact h
  | insertOrReplace key value =>
    simp only [SnapshotableHashTable.step] at hr
    cases hk : mapFind t.map key with
    | none =>
      rw [insertOrReplace_of_absent sz value hk] at hr
      cases hr
      simp only [orderStep, (h.not_mem_iff key).2 hk, if_false]
      exact h.push hk value _
    | some it =>
      obtain ⟨n, hn, _, _⟩ := deref_of_mapFind hwf hk
      rw [insertOrReplace_normal sz value hk hn hs] at hr
      cases hr
      simp only [orderStep, (h.mem_iff key).2 ⟨it, hk⟩, if_true]
      exact h.assign it value _
  | erase key =>
    cases hk : mapFind t.map key with
    | none =>
      rw [step_erase_eq sz (erase_of_absent sz hk)] at hr
      cases hr
      have hnot := (h.not_mem_iff key).2 hk
      have e : acc.filter (fun k => k != key) = acc := by
        apply List.filter_eq_self.2
        intro k hkm
        have : k ≠ key := fun hc => hnot (hc ▸ hkm)
        simpa using this
      simp only [orderStep, e]
      exact h
    | some it =>
      obtain ⟨n, hn, _, _⟩ := deref_of_mapFind hwf hk
      rw [step_erase_eq sz (erase_normal sz hk hn hs)] at hr
      cases hr
      exact h.drop hk _
  | updateValue key f =>
    cases hk : mapFind t.map key with
    | none =>
      simp only [SnapshotableHashTable.step, updateValue_of_absent sz f hk, Except.map] at hr
      cases hr
    | some it =>
      obtain ⟨n, hn, _, _⟩ := deref_of_mapFind hwf hk
      rw [step_updateValue_eq sz (updateValue_normal sz f hk hn hs)] at hr
      cases hr
      exact h.assign it _ _
  | clearOutdatedNodes => simp [Op.isKeyMutation] at hop
  | clear => simp [Op.isKeyMutation] at hop
  | enableSnapshotMode => simp [Op.isKeyMutation] at hop
  | disableSnapshotMode => simp [Op.isKeyMutation] at hop

theorem InOrder.afterRun (sz : ValueSize V) {t t1 : SnapshotableHashTable V} {acc : List String}
    (h : InOrder t acc) {ops : List (Op V)} (hops : ∀ op ∈ ops, op.isKeyMutation = true)
    (hr : SnapshotableHashTable.runOps sz t ops = .ok t1) :
    InOrder t1 (ops.foldl orderStep acc) := by
  induction ops generalizing t acc with
  | nil =>
    simp only [SnapshotableHashTable.runOps, Except.ok.injEq] at hr
    subst hr
    exact h
  | cons op ops ih =>
    simp only [SnapshotableHashTable.runOps] at hr
    cases hs : SnapshotableHashTable.step sz t op with
    | error e => simp [hs] at hr
    | ok t2 =>
      simp only [hs] at hr
      simp only [List.foldl_cons]
      exact ih (h.afterStep sz (hops op (List.mem_cons_self _ _)) hs)
        (fun o ho => hops o (List.mem_cons_of_mem _ ho)) hr

theorem InOrder.init : InOrder (empty : SnapshotableHashTable V) [] :=
  ⟨WF_empty, rfl, by simp [SnapshotableHashTable.empty], rfl⟩

/-- C15: iteration order outside snapshot mode. After any sequence of `insert`,
`insertOrReplace`, `erase` and `updateValue` calls from the empty table, with
snapshot mode never enabled, forward iteration of the list yields exactly the
live keys, each once, all on active nodes, in the order of the insertion that
made each key present; a replace or an update of the value of a present key
leaves the key sequence as it is; and reverse iteration yields the reversed
sequence. -/
theorem iteration_order (sz : ValueSize V) (ops : List (Op V)) (t : SnapshotableHashTable V)
    (hops : ∀ op ∈ ops, op.isKeyMutation = true) (hr : runOps sz empty ops = .ok t) :
    (iterate t).map (fun n => n.key) = insertionOrder ops ∧
    ((iterate t).map (fun n => n.key)).Nodup ∧
    (∀ k, k ∈ (iterate t).map (fun n => n.key) ↔ t.contains k = true) ∧
    (∀ n ∈ iterate t, n.active_in_map = true) ∧
    (iterateReverse t).map (fun n => n.key) = (insertionOrder ops).reverse ∧
    (∀ k v t1, t.contains k = true → t.insertOrReplace sz k v = .ok t1 →
      (iterate t1).map (fun n => n.key) = (iterate t).map (fun n => n.key)) ∧
    (∀ k f t1 ret, t.updateValue sz k f = .ok (t1, ret) →
      (iterate t1).map (fun n => n.key) = (iterate t).map (fun n => n.key)) := by
  have h : InOrder t (insertionOrder ops) := InOrder.init.afterRun sz hops hr
  have hkeys : (iterate t).map (fun n => n.key) = insertionOrder ops := by
    simp only [iterate, List.map_map]
    exact h.2.2.2
  have hfwd : ∀ u : SnapshotableHashTable V,
      (iterate u).map (fun n => n.key) = u.list.map (fun p => p.2.key) := by
    intro u
    simp only [iterate, List.map_map]
    rfl
  refine ⟨hkeys, ?_, ?_, ?_, ?_, ?_, ?_⟩
  · rw [hkeys]
    exact h.nodup
  · intro k
    rw [hkeys, h.mem_iff k]
    exact contains_iff.symm
  · intro n hn
    obtain ⟨p, hp, hpn⟩ := List.mem_map.1 hn
    rw [← hpn]
    exact h.2.2.1 p hp
  · rw [← hkeys]
    simp only [iterateReverse, iterate, List.map_reverse]
  · intro k v t1 hc hr1
    have h1 := h.afterStep sz (rfl : (Op.insertOrReplace k v).isKeyMutation = true) hr1
    have hmem : k ∈ insertionOrder ops := (h.mem_iff k).2 (contains_iff.1 hc)
    simp only [orderStep, hmem, if_true] at h1
    rw [hfwd, hfwd, h1.2.2.2, h.2.2.2]
  · intro k f t1 ret hr1
    have h1 := h.afterStep sz (rfl : (Op.updateValue k f).isKeyMutation = true)
      (step_updateValue_eq sz hr1)
    simp only [orderStep] at h1
    rw [hfwd, hfwd, h1.2.2.2, h.2.2.2]

/-- C15 on the calls `insert("a",1); insert("b",2); insertOrReplace("a",3);
erase("a"); insert("c",4); updateValue("b", +1); insert("a",5)`: forward
iteration yields the keys `b, c, a`, reverse iteration `a, c, b`. -/
theorem iteration_order_witness :
    ((∀ op ∈ sampleOrderOps, op.isKeyMutation = true) ∧
      runOps sizeof4 empty sampleOrderOps = .ok sampleOrdered) ∧
    insertionOrder sampleOrderOps = ["b", "c", "a"] ∧
    (iterate sampleOrdered).map (fun n => n.key) = ["b", "c", "a"] ∧
    (iterateReverse sampleOrdered).map (fun n => n.key) = ["a", "c", "b"] :=
  have hops : ∀ op ∈ sampleOrderOps, op.isKeyMutation = true := by decide
  have hc := iteration_order sizeof4 sampleOrderOps sampleOrdered hops rfl
  ⟨⟨hops, rfl⟩, by decide, hc.1.trans (by decide), hc.2.2.2.2.1.trans (by decide)⟩

end SnapshotableHashTable

end DB
